import Mathlib

/-! Reqline: the statement parser, the URL builder and the request executor.

A shallow embedding of `src/utils/parser.js` (the return-value parser), of the parser and
the executor of `src/services/reqline/parse.js`, of the executor of `src/routes/reqline.js`
and of the catalog `src/messages/reqline.js`.

* A JavaScript string is a `List Char`.  The program only compares characters with
  `|` and the space and cuts strings at those places, so indexing by code point or by
  UTF-16 code unit gives the same answers.
* The built-ins of the host language that the program calls and that are not part of the
  repository (`toUpperCase`, `JSON.parse`, the `URL` class) are the fields of `Host`.
  General theorems hold for every host; `refHost` is a concrete host used to evaluate the
  program on concrete statements.
* A result `{ error: true, message }` is `Except.error message`; so is an error thrown by
  the service.
* `throwAppError` and `ERROR_CODE` (`@app-core/errors`) are not under src/: the first is
  modelled from the spec, the codes are parameters (`ErrorCodes`).
* The transport, the clock and `toLowerCase` are the fields of `Runtime`.
-/

namespace Reqline

/-- A JavaScript string value. -/
abbrev Str := List Char

/-! ## JSON values -/

/-- The values `JSON.parse` can return.  A number is kept as the decimal `mant * 10 ^ exp`;
an object is the list of its own properties in enumeration order. -/
inductive Json where
  | null : Json
  | bool (b : Bool) : Json
  | num (mant : Int) (exp : Int) : Json
  | str (s : Str) : Json
  | arr (items : List Json) : Json
  | obj (props : List (Str × Json)) : Json

namespace Json

/-- The empty object literal of the source. -/
def empty : Json := obj []

/-- JavaScript `typeof` on a decoded JSON value: arrays and `null` are both `"object"`. -/
def typeOf : Json → Str
  | null => "object".toList
  | bool _ => "boolean".toList
  | num _ _ => "number".toList
  | str _ => "string".toList
  | arr _ => "object".toList
  | obj _ => "object".toList

/-- The test `jsonValue === null`. -/
def isNull : Json → Bool
  | null => true
  | _ => false

/-- JavaScript truthiness of a decoded JSON value. -/
def truthy : Json → Bool
  | null => false
  | bool b => b
  | num mant _ => mant != 0
  | str s => !s.isEmpty
  | arr _ => true
  | obj _ => true

/-- The value is a key-value object (neither an array, nor `null`, nor a scalar). -/
def isObject : Json → Bool
  | obj _ => true
  | _ => false

/-- The value is an array. -/
def isArray : Json → Bool
  | arr _ => true
  | _ => false

/-- The result of `Object.entries`: the properties of an object, the indexed items of an array,
the indexed characters of a string, nothing for the other scalars. -/
def entries : Json → List (Str × Json)
  | obj props => props
  | arr items => (List.range items.length).zipWith (fun i v => (Nat.toDigits 10 i, v)) items
  | str s => (List.range s.length).zipWith (fun i c => (Nat.toDigits 10 i, str [c])) s
  | _ => []

/-- The result of `Object.keys`. -/
def keys (v : Json) : List Str := (entries v).map Prod.fst

end Json

/-! ## The host built-ins -/

/-- The built-ins of the host language used by the program. `jsonParse` returns `none` where
`JSON.parse` throws; `newURL` returns `none` where `new URL(..)` throws. -/
structure Host where
  /-- The method `String.prototype.toUpperCase`. -/
  toUpperCase : Str → Str
  /-- The function `JSON.parse`. -/
  jsonParse : Str → Option Json
  /-- The objects of class `URL`. -/
  URL : Type
  /-- The constructor `new URL(baseUrl)`. -/
  newURL : Str → Option URL
  /-- The call `url.searchParams.append(key, value)`. -/
  searchParamsAppend : URL → Str → Json → URL
  /-- The call `url.toString()`. -/
  urlToString : URL → Str

/-- The law of `toUpperCase` the parser relies on: on a text of ASCII characters `toUpperCase` is the ASCII upper-casing. -/
def Host.UpperAscii (H : Host) : Prop :=
  ∀ s : Str, (∀ c ∈ s, c.toNat < 128) → H.toUpperCase s = s.map Char.toUpper

/-! ## String built-ins that are modelled directly -/

/-- The characters removed by `String.prototype.trim`: ECMAScript WhiteSpace and
LineTerminator code points. -/
def isWhiteSpace (c : Char) : Bool :=
  let n := c.toNat
  n == 0x09 || n == 0x0A || n == 0x0B || n == 0x0C || n == 0x0D || n == 0x20 ||
  n == 0xA0 || n == 0x1680 || (0x2000 ≤ n && n ≤ 0x200A) || n == 0x2028 || n == 0x2029 ||
  n == 0x202F || n == 0x205F || n == 0x3000 || n == 0xFEFF

/-- The method `trimStart`. -/
def trimStart (s : Str) : Str := s.dropWhile isWhiteSpace

/-- The method `trimEnd`. -/
def trimEnd (s : Str) : Str := (s.reverse.dropWhile isWhiteSpace).reverse

/-- The method `String.prototype.trim`. -/
def trim (s : Str) : Str := trimEnd (trimStart s)

/-- The call `s.split(sep)` for a one-character separator. -/
def split (sep : Char) : Str → List Str
  | [] => [[]]
  | c :: cs =>
    if c = sep then [] :: split sep cs
    else match split sep cs with
      | [] => [[c]]
      | p :: ps => (c :: p) :: ps

/-- The call `s.startsWith(p)`. -/
def startsWith (s p : Str) : Bool := p.isPrefixOf s

/-- The call `s.includes(p)`. -/
def includes (s p : Str) : Bool := s.tails.any (fun t => p.isPrefixOf t)

/-- The call `s.substring(n)`. -/
def substring (s : Str) (n : Nat) : Str := s.drop n

/-! ## The constants of the parser and its messages -/

def REQUIRED_KEYWORDS : List Str := ["HTTP".toList, "URL".toList]
def OPTIONAL_KEYWORDS : List Str := ["HEADERS".toList, "QUERY".toList, "BODY".toList]
def VALID_METHODS : List Str := ["GET".toList, "POST".toList]

def INVALID_INPUT_FORMAT : Str := "Invalid input format".toList
def MISSING_HTTP_KEYWORD : Str := "Missing required HTTP keyword".toList
def MISSING_URL_KEYWORD : Str := "Missing required URL keyword".toList
def INVALID_HTTP_METHOD : Str := "Invalid HTTP method. Only GET and POST are supported".toList
def HTTP_METHOD_MUST_BE_UPPERCASE : Str := "HTTP method must be uppercase".toList
def HTTP_MUST_BE_FIRST : Str := "HTTP keyword must be first".toList
def URL_MUST_BE_SECOND : Str := "URL keyword must be second".toList
def MISSING_HTTP_METHOD : Str := "Missing HTTP method".toList
def MISSING_URL_VALUE : Str := "Missing URL value".toList
def INVALID_URL_FORMAT : Str := "Invalid URL format".toList
def INVALID_PIPE_SPACING : Str := "Invalid spacing around pipe delimiter".toList
def MULTIPLE_SPACES : Str := "Multiple spaces found where single space expected".toList
def KEYWORDS_MUST_BE_UPPERCASE : Str := "Keywords must be uppercase".toList
def MISSING_SPACE_AFTER_KEYWORD : Str := "Missing space after keyword".toList
def INVALID_JSON_BODY : Str := "Invalid JSON format in BODY section".toList
def INVALID_JSON_HEADERS : Str := "Invalid JSON format in HEADERS section".toList
def INVALID_JSON_QUERY : Str := "Invalid JSON format in QUERY section".toList

/-! ## The parser of `src/utils/parser.js` -/

/-- The three property names `parseKeywordSection` passes to `parseJsonSection`. -/
inductive Section where
  | headers
  | query
  | body
  deriving DecidableEq, Repr

/-- The property name as the source writes it. -/
def Section.name : Section → Str
  | .headers => "headers".toList
  | .query => "query".toList
  | .body => "body".toList

/-- The keyword for which `parseKeywordSection` selects this property. -/
def Section.keyword : Section → Str
  | .headers => "HEADERS".toList
  | .query => "QUERY".toList
  | .body => "BODY".toList

/-- What `parsePart` returns: an error record, or an object with exactly one property. -/
inductive PartResult where
  | error (message : Str)
  | method (m : Str)
  | url (u : Str)
  | json (sec : Section) (v : Json)

/-- The accumulator `parsed` of `parseReqline`; `none` is an absent property. -/
structure Parsed where
  method : Option Str := none
  url : Option Str := none
  headers : Option Json := none
  query : Option Json := none
  body : Option Json := none

/-- The statement `Object.assign(parsed, parseResult)` for a result that is not an error. -/
def Parsed.assign (parsed : Parsed) : PartResult → Parsed
  | .error _ => parsed
  | .method m => { parsed with method := some m }
  | .url u => { parsed with url := some u }
  | .json .headers v => { parsed with headers := some v }
  | .json .query v => { parsed with query := some v }
  | .json .body v => { parsed with body := some v }

/-- The request descriptor returned on success. -/
structure Descriptor where
  method : Str
  url : Str
  headers : Json
  query : Json
  body : Json

/-- The function `validatePipeSpacing`: the positions of the pipes. -/
def pipeIndexes (reqline : Str) : List Nat :=
  (List.range reqline.length).filter (fun i => reqline[i]? == some '|')

/-- The function `validatePipeSpacing`. -/
def validatePipeSpacing (reqline : Str) : Bool :=
  (pipeIndexes reqline).all (fun index =>
    !(decide (index > 0) && reqline[index - 1]? != some ' ') &&
    !(decide (index < reqline.length - 1) && reqline[index + 1]? != some ' '))

/-- The function `parseHttpSection`. -/
def parseHttpSection (H : Host) (value : Str) (index : Nat) : PartResult :=
  if index ≠ 0 then .error HTTP_MUST_BE_FIRST
  else
    let method := trim value
    if method.isEmpty then .error MISSING_HTTP_METHOD
    else if method ≠ H.toUpperCase method then .error HTTP_METHOD_MUST_BE_UPPERCASE
    else .method method

/-- The function `parseUrlSection`. -/
def parseUrlSection (value : Str) (index : Nat) : PartResult :=
  if index ≠ 1 then .error URL_MUST_BE_SECOND
  else
    let url := trim value
    if url.isEmpty then .error MISSING_URL_VALUE
    else if !startsWith url "http://".toList && !startsWith url "https://".toList then
      .error INVALID_URL_FORMAT
    else .url url

/-- The message built by `parseJsonSection`. -/
def invalidJson (H : Host) (sec : Section) : Str :=
  "Invalid JSON format in ".toList ++ H.toUpperCase sec.name ++ " section".toList

/-- The function `parseJsonSection`. -/
def parseJsonSection (H : Host) (value : Str) (sec : Section) (_index : Nat) : PartResult :=
  match H.jsonParse value with
  | none => .error (invalidJson H sec)
  | some jsonValue =>
    if jsonValue.typeOf ≠ "object".toList || jsonValue.isNull then
      .error (invalidJson H sec)
    else .json sec jsonValue

/-- The function `parseKeywordSection`. -/
def parseKeywordSection (H : Host) (part keyword : Str) (index : Nat) : PartResult :=
  if keyword ≠ H.toUpperCase keyword then .error KEYWORDS_MUST_BE_UPPERCASE
  else if !startsWith part (keyword ++ " ".toList) then .error MISSING_SPACE_AFTER_KEYWORD
  else
    let value := trim (substring part (keyword.length + 1))
    if value.isEmpty then .error ("Missing value for ".toList ++ keyword)
    else if keyword = "HTTP".toList then parseHttpSection H value index
    else if keyword = "URL".toList then parseUrlSection value index
    else if keyword = "HEADERS".toList then parseJsonSection H value .headers index
    else if keyword = "QUERY".toList then parseJsonSection H value .query index
    else if keyword = "BODY".toList then parseJsonSection H value .body index
    else .error ("Unknown keyword: ".toList ++ keyword)

/-- The function `parsePart`. -/
def parsePart (H : Host) (part : Str) (index : Nat) : PartResult :=
  let trimmedPart := trim part
  match (REQUIRED_KEYWORDS ++ OPTIONAL_KEYWORDS).find?
      (fun keyword => startsWith trimmedPart (keyword ++ " ".toList)) with
  | some keyword => parseKeywordSection H trimmedPart keyword index
  | none =>
    if includes trimmedPart "  ".toList then .error MULTIPLE_SPACES
    else .error KEYWORDS_MUST_BE_UPPERCASE

/-- The loop of `parseReqline` over `parts[i], parts[i+1], ..`. -/
def parseParts (H : Host) : Nat → List Str → Parsed → Except Str Parsed
  | _, [], parsed => .ok parsed
  | i, p :: ps, parsed =>
    let part := trim p
    if part.isEmpty then parseParts H (i + 1) ps parsed
    else match parsePart H part i with
      | .error message => .error message
      | parseResult => parseParts H (i + 1) ps (parsed.assign parseResult)

/-- The expression `value || {}` on a property of the accumulator. -/
def orEmpty : Option Json → Json
  | some v => if v.truthy then v else Json.empty
  | none => Json.empty

/-- The checks of `parseReqline` after the loop and the descriptor it returns. -/
def finish (parsed : Parsed) : Except Str Descriptor :=
  match parsed.method with
  | none => .error MISSING_HTTP_KEYWORD
  | some method =>
    if method.isEmpty then .error MISSING_HTTP_KEYWORD
    else match parsed.url with
    | none => .error MISSING_URL_KEYWORD
    | some url =>
      if url.isEmpty then .error MISSING_URL_KEYWORD
      else if !VALID_METHODS.contains method then .error INVALID_HTTP_METHOD
      else .ok {
        method := method
        url := url
        headers := orEmpty parsed.headers
        query := orEmpty parsed.query
        body := orEmpty parsed.body }

/-- The function `parseReqline` of `src/utils/parser.js`, on a string argument.  Nothing in
its body throws (`JSON.parse` is caught inside `parseJsonSection`), so the `catch` branch
is never entered and has no counterpart here. -/
def parseReqline (H : Host) (reqline : Str) : Except Str Descriptor :=
  if reqline.isEmpty then .error INVALID_INPUT_FORMAT
  else if !validatePipeSpacing reqline then .error INVALID_PIPE_SPACING
  else
    let parts := split '|' reqline
    if parts.length < 2 then .error MISSING_HTTP_KEYWORD
    else match parseParts H 0 parts {} with
      | .error message => .error message
      | .ok parsed => finish parsed

/-- The messages of the errors `parsePart` can return on a part (see `parsePart_error_mem`). -/
def partErrorMessages (H : Host) : List Str :=
  [MULTIPLE_SPACES, KEYWORDS_MUST_BE_UPPERCASE, HTTP_MUST_BE_FIRST,
   HTTP_METHOD_MUST_BE_UPPERCASE, URL_MUST_BE_SECOND, INVALID_URL_FORMAT,
   invalidJson H .headers, invalidJson H .query, invalidJson H .body]

/-- The messages of the errors `parseReqline` reports outside the loop over the parts. -/
def statementErrorMessages : List Str :=
  [INVALID_INPUT_FORMAT, INVALID_PIPE_SPACING, MISSING_HTTP_KEYWORD, MISSING_URL_KEYWORD,
   INVALID_HTTP_METHOD]

/-- The messages of the three checks `parseReqline` makes after the loop. -/
def postLoopErrorMessages : List Str :=
  [MISSING_HTTP_KEYWORD, MISSING_URL_KEYWORD, INVALID_HTTP_METHOD]

/-- The function `constructFullUrl`; `none` for `queryParams` is an absent argument and the
result is `none` when `new URL(baseUrl)` throws. -/
def constructFullUrl (H : Host) (baseUrl : Str) (queryParams : Option Json) : Option Str :=
  match queryParams with
  | none => some baseUrl
  | some q =>
    if !q.truthy || q.keys.length == 0 then some baseUrl
    else match H.newURL baseUrl with
      | none => none
      | some url =>
        some (H.urlToString
          (q.entries.foldl (fun u kv => H.searchParamsAppend u kv.1 kv.2) url))

/-! ## The message catalog of `src/messages/reqline.js` -/

namespace ReqlineMessages

def INVALID_INPUT_FORMAT : Str := "Invalid input format".toList
def MISSING_REQLINE_PARAMETER : Str := "Missing or invalid reqline parameter".toList
def PARSING_ERROR : Str := "Parsing error occurred".toList
def MISSING_HTTP_KEYWORD : Str := "Missing required HTTP keyword".toList
def MISSING_URL_KEYWORD : Str := "Missing required URL keyword".toList
def INVALID_HTTP_METHOD : Str :=
  "Invalid HTTP method. Only GET and POST are supported".toList
def HTTP_METHOD_MUST_BE_UPPERCASE : Str := "HTTP method must be uppercase".toList
def HTTP_MUST_BE_FIRST : Str := "HTTP keyword must be first".toList
def URL_MUST_BE_SECOND : Str := "URL keyword must be second".toList
def MISSING_HTTP_METHOD : Str := "Missing HTTP method".toList
def MISSING_URL_VALUE : Str := "Missing URL value".toList
def INVALID_URL_FORMAT : Str := "Invalid URL format".toList
def INVALID_PIPE_SPACING : Str := "Invalid spacing around pipe delimiter".toList
def MULTIPLE_SPACES : Str := "Multiple spaces found where single space expected".toList
def KEYWORDS_MUST_BE_UPPERCASE : Str := "Keywords must be uppercase".toList
def MISSING_SPACE_AFTER_KEYWORD : Str := "Missing space after keyword".toList
def INVALID_JSON_HEADERS : Str := "Invalid JSON format in HEADERS section".toList
def INVALID_JSON_QUERY : Str := "Invalid JSON format in QUERY section".toList
def INVALID_JSON_BODY : Str := "Invalid JSON format in BODY section".toList
def NO_RESPONSE_RECEIVED : Str := "No response received from server".toList
def REQUEST_SETUP_ERROR : Str := "Request setup error".toList
def NETWORK_ERROR : Str := "Network error occurred".toList
def REQUEST_COMPLETED : Str := "Request completed successfully".toList

/-- All the values of the catalog, in the order of the source. -/
def all : List Str :=
  [INVALID_INPUT_FORMAT, MISSING_REQLINE_PARAMETER, PARSING_ERROR, MISSING_HTTP_KEYWORD,
   MISSING_URL_KEYWORD, INVALID_HTTP_METHOD, HTTP_METHOD_MUST_BE_UPPERCASE,
   HTTP_MUST_BE_FIRST, URL_MUST_BE_SECOND, MISSING_HTTP_METHOD, MISSING_URL_VALUE,
   INVALID_URL_FORMAT, INVALID_PIPE_SPACING, MULTIPLE_SPACES, KEYWORDS_MUST_BE_UPPERCASE,
   MISSING_SPACE_AFTER_KEYWORD, INVALID_JSON_HEADERS, INVALID_JSON_QUERY, INVALID_JSON_BODY,
   NO_RESPONSE_RECEIVED, REQUEST_SETUP_ERROR, NETWORK_ERROR, REQUEST_COMPLETED]

end ReqlineMessages

/-- The field of the descriptor that belongs to a section. -/
def Descriptor.field (d : Descriptor) : Section → Json
  | .headers => d.headers
  | .query => d.query
  | .body => d.body

/-- The property of the accumulator that belongs to a section. -/
def Parsed.field (parsed : Parsed) : Section → Option Json
  | .headers => parsed.headers
  | .query => parsed.query
  | .body => parsed.body

/-! ## The parser of `src/services/reqline/parse.js`

The service repeats the functions of `src/utils/parser.js` with the messages taken from the
catalog, and throws where the other returns an error record.  A thrown error is
`Except.error`. -/

/-- Modelled from the spec: the failure thrown by `throwAppError` of `@app-core/errors`,
which is not under src/: a tagged failure that carries the message; `code` is the second
argument of `throwAppError`, which the `catch` block of the service reads as `error.code`.
A code is a string and the empty string is the falsy one. -/
structure AppError where
  message : Str
  code : Str

/-- The two constants of `ERROR_CODE` (`@app-core/errors`, not under src/) that the service
names, taken as parameters. -/
structure ErrorCodes where
  VALIDATION_ERROR : Str
  NETWORK_ERROR : Str

namespace Service

/-- Modelled from the spec: the call `throwAppError(message, code)` of `@app-core/errors`,
which is not under src/: it throws the failure that carries the message and the code. -/
def throwAppError {α : Type} (message code : Str) : Except AppError α :=
  .error { message := message, code := code }

/-- The constants of the service's parser. -/
def REQUIRED_KEYWORDS : List Str := ["HTTP".toList, "URL".toList]
def OPTIONAL_KEYWORDS : List Str := ["HEADERS".toList, "QUERY".toList, "BODY".toList]
def VALID_METHODS : List Str := ["GET".toList, "POST".toList]

/-- The function `validatePipeSpacing` of the service. -/
def validatePipeSpacing (reqline : Str) : Bool :=
  ((List.range reqline.length).filter (fun i => reqline[i]? == some '|')).all (fun index =>
    !(decide (index > 0) && reqline[index - 1]? != some ' ') &&
    !(decide (index < reqline.length - 1) && reqline[index + 1]? != some ' '))

/-- The function `parseHttpSection` of the service. -/
def parseHttpSection (H : Host) (value : Str) (index : Nat) : PartResult :=
  if index ≠ 0 then .error ReqlineMessages.HTTP_MUST_BE_FIRST
  else
    let method := trim value
    if method.isEmpty then .error ReqlineMessages.MISSING_HTTP_METHOD
    else if method ≠ H.toUpperCase method then
      .error ReqlineMessages.HTTP_METHOD_MUST_BE_UPPERCASE
    else .method method

/-- The function `parseUrlSection` of the service. -/
def parseUrlSection (value : Str) (index : Nat) : PartResult :=
  if index ≠ 1 then .error ReqlineMessages.URL_MUST_BE_SECOND
  else
    let url := trim value
    if url.isEmpty then .error ReqlineMessages.MISSING_URL_VALUE
    else if !startsWith url "http://".toList && !startsWith url "https://".toList then
      .error ReqlineMessages.INVALID_URL_FORMAT
    else .url url

/-- The function `parseJsonSection` of the service. -/
def parseJsonSection (H : Host) (value : Str) (sec : Section) (_index : Nat) : PartResult :=
  match H.jsonParse value with
  | none =>
    .error ("Invalid JSON format in ".toList ++ H.toUpperCase sec.name ++ " section".toList)
  | some jsonValue =>
    if jsonValue.typeOf ≠ "object".toList || jsonValue.isNull then
      .error ("Invalid JSON format in ".toList ++ H.toUpperCase sec.name ++ " section".toList)
    else .json sec jsonValue

/-- The function `parseKeywordSection` of the service. -/
def parseKeywordSection (H : Host) (part keyword : Str) (index : Nat) : PartResult :=
  if keyword ≠ H.toUpperCase keyword then .error ReqlineMessages.KEYWORDS_MUST_BE_UPPERCASE
  else if !startsWith part (keyword ++ " ".toList) then
    .error ReqlineMessages.MISSING_SPACE_AFTER_KEYWORD
  else
    let value := trim (substring part (keyword.length + 1))
    if value.isEmpty then .error ("Missing value for ".toList ++ keyword)
    else if keyword = "HTTP".toList then parseHttpSection H value index
    else if keyword = "URL".toList then parseUrlSection value index
    else if keyword = "HEADERS".toList then parseJsonSection H value .headers index
    else if keyword = "QUERY".toList then parseJsonSection H value .query index
    else if keyword = "BODY".toList then parseJsonSection H value .body index
    else .error ("Unknown keyword: ".toList ++ keyword)

/-- The function `parsePart` of the service. -/
def parsePart (H : Host) (part : Str) (index : Nat) : PartResult :=
  let trimmedPart := trim part
  match (Service.REQUIRED_KEYWORDS ++ Service.OPTIONAL_KEYWORDS).find?
      (fun keyword => startsWith trimmedPart (keyword ++ " ".toList)) with
  | some keyword => parseKeywordSection H trimmedPart keyword index
  | none =>
    if includes trimmedPart "  ".toList then .error ReqlineMessages.MULTIPLE_SPACES
    else .error ReqlineMessages.KEYWORDS_MUST_BE_UPPERCASE

/-- The loop of the service's `parseReqline`: the error of a part is thrown. -/
def parseParts (H : Host) (codes : ErrorCodes) :
    Nat → List Str → Parsed → Except AppError Parsed
  | _, [], parsed => .ok parsed
  | i, p :: ps, parsed =>
    let part := trim p
    if part.isEmpty then parseParts H codes (i + 1) ps parsed
    else match parsePart H part i with
      | .error message => throwAppError message codes.VALIDATION_ERROR
      | parseResult => parseParts H codes (i + 1) ps (parsed.assign parseResult)

/-- The checks of the service's `parseReqline` after the loop. -/
def finish (codes : ErrorCodes) (parsed : Parsed) : Except AppError Descriptor :=
  match parsed.method with
  | none => throwAppError ReqlineMessages.MISSING_HTTP_KEYWORD codes.VALIDATION_ERROR
  | some method =>
    if method.isEmpty then
      throwAppError ReqlineMessages.MISSING_HTTP_KEYWORD codes.VALIDATION_ERROR
    else match parsed.url with
    | none => throwAppError ReqlineMessages.MISSING_URL_KEYWORD codes.VALIDATION_ERROR
    | some url =>
      if url.isEmpty then
        throwAppError ReqlineMessages.MISSING_URL_KEYWORD codes.VALIDATION_ERROR
      else if !Service.VALID_METHODS.contains method then
        throwAppError ReqlineMessages.INVALID_HTTP_METHOD codes.VALIDATION_ERROR
      else .ok {
        method := method
        url := url
        headers := orEmpty parsed.headers
        query := orEmpty parsed.query
        body := orEmpty parsed.body }

/-- The `try` block of the service's `parseReqline`. -/
def tryBlock (H : Host) (codes : ErrorCodes) (reqline : Str) : Except AppError Descriptor :=
  if reqline.isEmpty then
    throwAppError ReqlineMessages.INVALID_INPUT_FORMAT codes.VALIDATION_ERROR
  else if !validatePipeSpacing reqline then
    throwAppError ReqlineMessages.INVALID_PIPE_SPACING codes.VALIDATION_ERROR
  else
    let parts := split '|' reqline
    if parts.length < 2 then
      throwAppError ReqlineMessages.MISSING_HTTP_KEYWORD codes.VALIDATION_ERROR
    else match parseParts H codes 0 parts {} with
      | .error error => .error error
      | .ok parsed => finish codes parsed

/-- The function `parseReqline` of the service, on a string argument: the `catch` block
throws again an error that has a truthy `code` and replaces any other one by the
catalog's parsing error. -/
def parseReqline (H : Host) (codes : ErrorCodes) (reqline : Str) :
    Except AppError Descriptor :=
  match tryBlock H codes reqline with
  | .ok descriptor => .ok descriptor
  | .error error =>
    if !error.code.isEmpty then .error error
    else throwAppError ReqlineMessages.PARSING_ERROR codes.VALIDATION_ERROR

end Service

/-- The error thrown by the service for a message: the message with the validation code. -/
def asThrown (codes : ErrorCodes) (message : Str) : AppError :=
  { message := message, code := codes.VALIDATION_ERROR }

/-! ## The request executor (`executeRequest` of the service and of the route)

The transport (`axios`, `@app-core/http-request`), the clock and `toLowerCase` are the
fields of `Runtime`. -/

/-- A response of the target server: its status code and its payload. -/
structure Response where
  status : Nat
  data : Json

/-- The error caught by the `catch` block of `executeRequest`, as far as the block reads it:
`error.response`, the truthiness of `error.request`, `error.message`. -/
structure CaughtError where
  response : Option Response
  request : Bool
  message : Str

/-- What the awaited transport call does: it resolves with a response or rejects with an
error. -/
inductive Outcome where
  | resolved (response : Response)
  | rejected (error : CaughtError)

/-- The object `config` handed to the transport; `data := none` is an absent property. -/
structure RequestConfig where
  method : Str
  url : Str
  headers : Json
  timeout : Nat
  data : Option Json

/-- What `executeRequest` takes from its environment. -/
structure Runtime where
  /-- The method `String.prototype.toLowerCase`. -/
  toLowerCase : Str → Str
  /-- The awaited call `axios(config)`, respectively `httpRequest(config)`. -/
  transport : RequestConfig → Outcome
  /-- The value of the first `Date.now()`. -/
  startTimestamp : Int
  /-- The value of the second `Date.now()`. -/
  endTimestamp : Int
  /-- The message of the `TypeError` thrown by `new URL(baseUrl)`. -/
  invalidUrlMessage : Str → Str
  /-- The message of the `TypeError` thrown by `Object.keys(null)`. -/
  nullKeysMessage : Str

/-- The property `request` of the record that `executeRequest` returns. -/
structure RequestEcho where
  query : Json
  body : Json
  headers : Json
  full_url : Str

/-- The property `response` of the record that `executeRequest` returns. -/
structure ResponseRecord where
  http_status : Nat
  duration : Int
  request_start_timestamp : Int
  request_stop_timestamp : Int
  response_data : Json

/-- The record that `executeRequest` returns when the target server answered. -/
structure ExecutionRecord where
  request : RequestEcho
  response : ResponseRecord

/-- The call `Object.keys(value)`, which throws on `null`. -/
def objectKeys (value : Json) : Option (List Str) :=
  if value.isNull then none else some value.keys

/-- The `try` block of `executeRequest` up to the transport call (the same text in the
service and in the route): the full URL and the object `config`, or the error thrown on
the way. -/
def buildConfig (H : Host) (R : Runtime) (parsed : Descriptor) :
    Except CaughtError (Str × RequestConfig) :=
  match constructFullUrl H parsed.url (some parsed.query) with
  | none => .error { response := none, request := false,
                     message := R.invalidUrlMessage parsed.url }
  | some fullUrl =>
    let config : RequestConfig :=
      { method := R.toLowerCase parsed.method, url := fullUrl, headers := parsed.headers,
        timeout := 10000, data := none }
    if parsed.method = "POST".toList then
      match objectKeys parsed.body with
      | none => .error { response := none, request := false, message := R.nullKeysMessage }
      | some bodyKeys =>
        if bodyKeys.length > 0 then .ok (fullUrl, { config with data := some parsed.body })
        else .ok (fullUrl, config)
    else .ok (fullUrl, config)

/-- The record literal of `executeRequest` (written once in the `try` block and once in the
`catch` block): the request echo, the status and payload of the response, the two
timestamps and their difference. -/
def executionRecord (R : Runtime) (parsed : Descriptor) (fullUrl : Str)
    (response : Response) : ExecutionRecord :=
  { request := { query := parsed.query, body := parsed.body,
                 headers := parsed.headers, full_url := fullUrl },
    response := { http_status := response.status,
                  duration := R.endTimestamp - R.startTimestamp,
                  request_start_timestamp := R.startTimestamp,
                  request_stop_timestamp := R.endTimestamp,
                  response_data := response.data } }

/-- The `try` block of `executeRequest` (the same text in the service and in the route). -/
def tryRequest (H : Host) (R : Runtime) (parsed : Descriptor) :
    Except CaughtError ExecutionRecord :=
  match buildConfig H R parsed with
  | .error error => .error error
  | .ok (fullUrl, config) =>
    match R.transport config with
    | .rejected error => .error error
    | .resolved response =>
      .ok (executionRecord R parsed fullUrl response)

/-- The record built in the `catch` block when `error.response` is there; `none` when
`constructFullUrl` throws inside the `catch` block. -/
def errorResponseRecord (H : Host) (R : Runtime) (parsed : Descriptor) (response : Response) :
    Option ExecutionRecord :=
  match constructFullUrl H parsed.url (some parsed.query) with
  | none => none
  | some fullUrl =>
    some (executionRecord R parsed fullUrl response)

/-- What the route's `executeRequest` does: it returns a record, returns an error record
`{ error: true, message }`, or lets an exception escape. -/
inductive RouteResult where
  | record (r : ExecutionRecord)
  | errorRecord (message : Str)
  | thrown (message : Str)

/-- What the service's `executeRequest` does: it returns a record, throws an application
error, or lets another exception escape. -/
inductive ServiceResult where
  | record (r : ExecutionRecord)
  | appError (error : AppError)
  | thrown (message : Str)

namespace Routes

/-- The function `executeRequest` of `src/routes/reqline.js`. -/
def executeRequest (H : Host) (R : Runtime) (parsed : Descriptor) : RouteResult :=
  match tryRequest H R parsed with
  | .ok r => .record r
  | .error error =>
    match error.response with
    | some response =>
      match errorResponseRecord H R parsed response with
      | some r => .record r
      | none => .thrown (R.invalidUrlMessage parsed.url)
    | none =>
      if error.request then .errorRecord "No response received from server".toList
      else .errorRecord ("Request setup error: ".toList ++ error.message)

end Routes

namespace Service

/-- The function `executeRequest` of `src/services/reqline/parse.js`. -/
def executeRequest (H : Host) (codes : ErrorCodes) (R : Runtime) (parsed : Descriptor) :
    ServiceResult :=
  match tryRequest H R parsed with
  | .ok r => .record r
  | .error error =>
    match error.response with
    | some response =>
      match errorResponseRecord H R parsed response with
      | some r => .record r
      | none => .thrown (R.invalidUrlMessage parsed.url)
    | none =>
      if error.request then
        .appError { message := ReqlineMessages.NO_RESPONSE_RECEIVED, code := codes.NETWORK_ERROR }
      else
        .appError { message := ReqlineMessages.REQUEST_SETUP_ERROR, code := codes.NETWORK_ERROR }

end Service

/-! ## A reference host

`refHost` implements the built-ins for concrete evaluation.  It follows ECMAScript and the
WHATWG URL standard on this fragment: `toUpperCase` on ASCII text; `JSON.parse` on JSON
texts whose strings hold no lone surrogate escape; `String(number)` on integer literals of at
most fifteen digits; `new URL` on `http://host/path` and `https://host/path` with a lower-case
host name and no port, credentials, query or fragment. -/

namespace Ref

/-- The method `toUpperCase` on ASCII text. -/
def toUpperCase (s : Str) : Str := s.map Char.toUpper

/-- The lexical tokens of a JSON text. -/
inductive Token where
  | lbrace
  | rbrace
  | lbrack
  | rbrack
  | colon
  | comma
  | lit (v : Json)

/-- The value of a hexadecimal digit. -/
def hexVal (c : Char) : Option Nat :=
  if c.isDigit then some (c.toNat - 48)
  else if 97 ≤ c.toNat ∧ c.toNat ≤ 102 then some (c.toNat - 87)
  else if 65 ≤ c.toNat ∧ c.toNat ≤ 70 then some (c.toNat - 55)
  else none

/-- The value of four hexadecimal digits. -/
def hex4 (a b c d : Char) : Option Nat :=
  match hexVal a, hexVal b, hexVal c, hexVal d with
  | some w, some x, some y, some z => some (((w * 16 + x) * 16 + y) * 16 + z)
  | _, _, _, _ => none

/-- Reads a JSON string after its opening quote, up to the closing quote, as UTF-16 code
units (a character written directly counts as one unit); the first argument bounds the
number of steps. -/
def readUnits : Nat → Str → Option (List Nat × Str)
  | 0, _ => none
  | _ + 1, [] => none
  | n + 1, c :: rest =>
    if c = '"' then some ([], rest)
    else if c = '\\' then
      match rest with
      | [] => none
      | e :: rest2 =>
        let put (u : Nat) := (readUnits n rest2).map (fun r => (u :: r.1, r.2))
        if e = '"' then put 34
        else if e = '\\' then put 92
        else if e = '/' then put 47
        else if e = 'b' then put 8
        else if e = 'f' then put 12
        else if e = 'n' then put 10
        else if e = 'r' then put 13
        else if e = 't' then put 9
        else if e = 'u' then
          match rest2 with
          | a :: b :: c2 :: d :: rest3 =>
            match hex4 a b c2 d with
            | some u => (readUnits n rest3).map (fun r => (u :: r.1, r.2))
            | none => none
          | _ => none
        else none
    else if c.toNat < 0x20 then none
    else (readUnits n rest).map (fun r => (c.toNat :: r.1, r.2))

/-- Joins surrogate pairs; a lone surrogate becomes U+FFFD. -/
def decodeUnits : Nat → List Nat → Str
  | 0, _ => []
  | _ + 1, [] => []
  | n + 1, [u] =>
    if 0xD800 ≤ u ∧ u ≤ 0xDFFF then Char.ofNat 0xFFFD :: decodeUnits n []
    else Char.ofNat u :: decodeUnits n []
  | n + 1, hi :: lo :: rest =>
    if 0xD800 ≤ hi ∧ hi ≤ 0xDBFF ∧ 0xDC00 ≤ lo ∧ lo ≤ 0xDFFF then
      Char.ofNat (0x10000 + (hi - 0xD800) * 0x400 + (lo - 0xDC00)) :: decodeUnits n rest
    else if 0xD800 ≤ hi ∧ hi ≤ 0xDFFF then Char.ofNat 0xFFFD :: decodeUnits n (lo :: rest)
    else Char.ofNat hi :: decodeUnits n (lo :: rest)

/-- Reads the characters of a JSON string after its opening quote, up to the closing quote. -/
def readString (s : Str) : Option (Str × Str) :=
  (readUnits (s.length + 1) s).map (fun r => (decodeUnits (r.1.length + 1) r.1, r.2))

/-- The value of a run of decimal digits. -/
def digitsVal (ds : Str) : Nat := ds.foldl (fun acc c => acc * 10 + (c.toNat - 48)) 0

/-- Reads a JSON number: `-? int frac? exp?`. -/
def readNumber (s : Str) : Option (Json × Str) :=
  let neg := s.head? = some '-'
  let s1 := if neg then s.drop 1 else s
  let intDigits := s1.takeWhile Char.isDigit
  let s2 := s1.dropWhile Char.isDigit
  if intDigits.isEmpty ∨ (intDigits.head? = some '0' ∧ 1 < intDigits.length) then none
  else
    let fracDigits := if s2.head? = some '.' then (s2.drop 1).takeWhile Char.isDigit else []
    let s3 := if s2.head? = some '.' then (s2.drop 1).dropWhile Char.isDigit else s2
    if s2.head? = some '.' ∧ fracDigits.isEmpty then none
    else
      let hasExp := s3.head? = some 'e' ∨ s3.head? = some 'E'
      let s4 := if hasExp then s3.drop 1 else s3
      let expNeg := hasExp ∧ s4.head? = some '-'
      let s5 := if hasExp ∧ (s4.head? = some '-' ∨ s4.head? = some '+') then s4.drop 1 else s4
      let expDigits := if hasExp then s5.takeWhile Char.isDigit else []
      let s6 := if hasExp then s5.dropWhile Char.isDigit else s5
      if hasExp ∧ expDigits.isEmpty then none
      else
        let mant : Int := digitsVal (intDigits ++ fracDigits)
        let e : Int := digitsVal expDigits
        some (Json.num (if neg then -mant else mant)
          ((if expNeg then -e else e) - fracDigits.length), s6)

/-- Cuts a JSON text into tokens; the first argument bounds the number of steps. -/
def tokens : Nat → Str → Option (List Token)
  | 0, _ => none
  | _ + 1, [] => some []
  | n + 1, c :: rest =>
    if c = ' ' ∨ c = '\t' ∨ c = '\n' ∨ c = '\r' then tokens n rest
    else if c = '{' then (tokens n rest).map (Token.lbrace :: ·)
    else if c = '}' then (tokens n rest).map (Token.rbrace :: ·)
    else if c = '[' then (tokens n rest).map (Token.lbrack :: ·)
    else if c = ']' then (tokens n rest).map (Token.rbrack :: ·)
    else if c = ':' then (tokens n rest).map (Token.colon :: ·)
    else if c = ',' then (tokens n rest).map (Token.comma :: ·)
    else if c = '"' then
      match readString rest with
      | none => none
      | some (str, rest2) => (tokens n rest2).map (Token.lit (Json.str str) :: ·)
    else if "true".toList.isPrefixOf (c :: rest) then
      (tokens n (rest.drop 3)).map (Token.lit (Json.bool true) :: ·)
    else if "false".toList.isPrefixOf (c :: rest) then
      (tokens n (rest.drop 4)).map (Token.lit (Json.bool false) :: ·)
    else if "null".toList.isPrefixOf (c :: rest) then
      (tokens n (rest.drop 3)).map (Token.lit Json.null :: ·)
    else
      match readNumber (c :: rest) with
      | none => none
      | some (v, rest2) => (tokens n rest2).map (Token.lit v :: ·)

/-- A property key that is an array index: a canonical decimal numeral below `2^32 - 1`. -/
def arrayIndex (k : Str) : Option Nat :=
  if k.isEmpty ∨ !k.all Char.isDigit ∨ (k.head? = some '0' ∧ 1 < k.length) then none
  else if digitsVal k < 4294967295 then some (digitsVal k) else none

/-- Defines property `k` with value `v`: an existing property keeps its place. -/
def setProp (props : List (Str × Json)) (k : Str) (v : Json) : List (Str × Json) :=
  if props.any (fun p => p.1 == k) then props.map (fun p => if p.1 == k then (k, v) else p)
  else props ++ [(k, v)]

/-- The enumeration order of properties: array indices ascending, then the other keys in
the order of their creation. -/
def enumOrder (props : List (Str × Json)) : List (Str × Json) :=
  (props.filter (fun p => (arrayIndex p.1).isSome)).insertionSort
      (fun p q => (arrayIndex p.1).getD 0 ≤ (arrayIndex q.1).getD 0)
    ++ props.filter (fun p => (arrayIndex p.1).isNone)

/-- What the parser is reading: one value, the items of an array after `[`, or the members
of an object after `{`. -/
inductive Mode where
  | value
  | elems (acc : List Json)
  | members (acc : List (Str × Json))

/-- Parses the tokens of a JSON text in the given mode; the first argument bounds the number
of steps. -/
def parseTokens : Nat → Mode → List Token → Option (Json × List Token)
  | 0, _, _ => none
  | n + 1, Mode.value, ts =>
    match ts with
    | Token.lit v :: ts2 => some (v, ts2)
    | Token.lbrack :: Token.rbrack :: ts2 => some (Json.arr [], ts2)
    | Token.lbrack :: ts2 => parseTokens n (Mode.elems []) ts2
    | Token.lbrace :: Token.rbrace :: ts2 => some (Json.obj [], ts2)
    | Token.lbrace :: ts2 => parseTokens n (Mode.members []) ts2
    | _ => none
  | n + 1, Mode.elems acc, ts =>
    match parseTokens n Mode.value ts with
    | some (v, Token.comma :: ts2) => parseTokens n (Mode.elems (acc ++ [v])) ts2
    | some (v, Token.rbrack :: ts2) => some (Json.arr (acc ++ [v]), ts2)
    | _ => none
  | n + 1, Mode.members acc, ts =>
    match ts with
    | Token.lit (Json.str k) :: Token.colon :: ts2 =>
      match parseTokens n Mode.value ts2 with
      | some (v, Token.comma :: ts3) => parseTokens n (Mode.members (setProp acc k v)) ts3
      | some (v, Token.rbrace :: ts3) => some (Json.obj (enumOrder (setProp acc k v)), ts3)
      | _ => none
    | _ => none

/-- The function `JSON.parse`: `none` where it throws a `SyntaxError`. -/
def jsonParse (text : Str) : Option Json :=
  match tokens (text.length + 1) text with
  | none => none
  | some ts =>
    match parseTokens (2 * ts.length + 1) Mode.value ts with
    | some (v, []) => some v
    | _ => none

/-- The conversion `String(number)` for the decimal `m * 10 ^ e`. -/
def numToString (m e : Int) : Str :=
  let a := m.natAbs
  let sign : Str := if m < 0 then ['-'] else []
  if 0 ≤ e then sign ++ Nat.toDigits 10 (a * 10 ^ e.toNat)
  else
    let k := (-e).toNat
    let ip := a / 10 ^ k
    let fp := a % 10 ^ k
    if fp = 0 then sign ++ Nat.toDigits 10 ip
    else
      let fd := Nat.toDigits 10 fp
      let padded := List.replicate (k - fd.length) '0' ++ fd
      sign ++ Nat.toDigits 10 ip ++ ['.'] ++ (padded.reverse.dropWhile (· = '0')).reverse

/-- The conversion `String(value)`; the first argument bounds the nesting of arrays. -/
def toStr : Nat → Json → Str
  | _, Json.null => "null".toList
  | _, Json.bool true => "true".toList
  | _, Json.bool false => "false".toList
  | _, Json.num m e => numToString m e
  | _, Json.str s => s
  | _, Json.obj _ => "[object Object]".toList
  | 0, Json.arr _ => []
  | n + 1, Json.arr items =>
    List.intercalate [','] (items.map (fun v => if v.isNull then [] else toStr n v))

/-- The nesting depth of a value. -/
def depth : Nat → Json → Nat
  | 0, _ => 0
  | n + 1, Json.arr items => 1 + (items.map (depth n)).foldl max 0
  | n + 1, Json.obj props => 1 + (props.map (fun p => depth n p.2)).foldl max 0
  | _ + 1, _ => 0

/-- The hexadecimal digit of a value below sixteen, in upper case. -/
def hexDigit (n : Nat) : Char := if n < 10 then Char.ofNat (48 + n) else Char.ofNat (55 + n)

/-- The percent-encoding of one byte in the `application/x-www-form-urlencoded` serialiser. -/
def encodeByte (b : Nat) : Str :=
  if b = 0x20 then ['+']
  else if (48 ≤ b ∧ b ≤ 57) ∨ (65 ≤ b ∧ b ≤ 90) ∨ (97 ≤ b ∧ b ≤ 122) ∨
      b = 0x2A ∨ b = 0x2D ∨ b = 0x2E ∨ b = 0x5F then [Char.ofNat b]
  else ['%', hexDigit (b / 16), hexDigit (b % 16)]

/-- The `application/x-www-form-urlencoded` encoding of a string. -/
def formEncode (s : Str) : Str :=
  (s.map (fun c => ((String.utf8EncodeChar c).map (fun b => encodeByte b.toNat)).flatten)).flatten

/-- The `application/x-www-form-urlencoded` serialisation of a list of pairs. -/
def serializeParams (params : List (Str × Str)) : Str :=
  List.intercalate ['&'] (params.map (fun p => formEncode p.1 ++ ['='] ++ formEncode p.2))

/-- A URL record of the fragment: scheme, host name, path and the list of the search
parameters. -/
structure URL where
  scheme : Str
  host : Str
  path : Str
  params : List (Str × Str)

/-- A host name of the fragment: labels of lower-case letters, digits and hyphens separated
by dots, none empty, none starting with `xn--`, the last one starting with a letter. -/
def hostOk (host : Str) : Bool :=
  let labels := split '.' host
  labels.all (fun l => !l.isEmpty && l.all (fun c => c.isLower || c.isDigit || c = '-') &&
    !"xn--".toList.isPrefixOf l) &&
  (match labels.getLast? with
    | some (c :: _) => c.isLower
    | _ => false)

/-- A path of the fragment: empty, or `/` followed by letters, digits, `_`, `~`, `-`, `/`. -/
def pathOk (path : Str) : Bool :=
  path.isEmpty || (path.head? = some '/' &&
    path.all (fun c => c.isAlphanum || c = '_' || c = '~' || c = '-' || c = '/'))

/-- Parses what follows `scheme://`. -/
def parseAfterScheme (scheme rest : Str) : Option URL :=
  let host := rest.takeWhile (· ≠ '/')
  let path := rest.dropWhile (· ≠ '/')
  if hostOk host && pathOk path then
    some { scheme := scheme, host := host, path := if path.isEmpty then ['/'] else path,
           params := [] }
  else none

/-- The constructor `new URL(baseUrl)` on the fragment: the path of an `http` or `https`
URL is never empty, a missing path is `/`. -/
def newURL (baseUrl : Str) : Option URL :=
  if "http://".toList.isPrefixOf baseUrl then parseAfterScheme "http".toList (baseUrl.drop 7)
  else if "https://".toList.isPrefixOf baseUrl then
    parseAfterScheme "https".toList (baseUrl.drop 8)
  else none

/-- The call `url.searchParams.append(key, value)`: the value is converted to a string and
the pair is added at the end of the list. -/
def searchParamsAppend (url : URL) (key : Str) (value : Json) : URL :=
  { url with params := url.params ++ [(key, toStr (depth 64 value + 1) value)] }

/-- The call `url.toString()`: the query is the serialised list, absent when the list is
empty. -/
def urlToString (url : URL) : Str :=
  url.scheme ++ "://".toList ++ url.host ++ url.path ++
    (if url.params.isEmpty then [] else ['?'] ++ serializeParams url.params)

end Ref

/-- The reference host. -/
def refHost : Host where
  toUpperCase := Ref.toUpperCase
  jsonParse := Ref.jsonParse
  URL := Ref.URL
  newURL := Ref.newURL
  searchParamsAppend := Ref.searchParamsAppend
  urlToString := Ref.urlToString

/-- Error codes used for concrete evaluation. -/
def refCodes : ErrorCodes where
  VALIDATION_ERROR := "VALIDATION_ERROR".toList
  NETWORK_ERROR := "NETWORK_ERROR".toList

/-- A runtime used for concrete evaluation: the target answers every request with status 404
and the transport delivers that as an error that carries the response. -/
def refRuntime404 : Runtime where
  toLowerCase := fun s => s.map Char.toLower
  transport := fun _ =>
    .rejected { response := some { status := 404, data := Json.str "Not Found".toList },
                request := true,
                message := "Request failed with status code 404".toList }
  startTimestamp := 1000
  endTimestamp := 1042
  invalidUrlMessage := fun _ => "Invalid URL".toList
  nullKeysMessage := "Cannot convert undefined or null to object".toList

/-- A runtime used for concrete evaluation: the target answers every request with status 200
and echoes the body it was sent. -/
def refRuntime200 : Runtime where
  toLowerCase := fun s => s.map Char.toLower
  transport := fun config =>
    .resolved { status := 200, data := config.data.getD Json.null }
  startTimestamp := 1000
  endTimestamp := 1042
  invalidUrlMessage := fun _ => "Invalid URL".toList
  nullKeysMessage := "Cannot convert undefined or null to object".toList

/-! ## Facts about the string built-ins -/

theorem trimEnd_eq_rdropWhile (s : Str) : trimEnd s = s.rdropWhile isWhiteSpace := rfl

theorem trim_eq_nil_iff (s : Str) : trim s = [] ↔ ∀ c ∈ s, isWhiteSpace c = true := by
  unfold trim trimStart
  rw [trimEnd_eq_rdropWhile, List.rdropWhile_eq_nil_iff]
  constructor
  · intro h
    have h2 : s.dropWhile isWhiteSpace = [] := by
      by_contra hne
      have := List.head_dropWhile_not isWhiteSpace s hne
      have hm := h _ (List.head_mem hne)
      simp [hm] at this
    exact List.dropWhile_eq_nil_iff.mp h2
  · intro h c hc
    exact h c ((List.dropWhile_sublist _).subset hc)

/-- A string is left alone by `trim` exactly when it is empty or neither its first nor its
last character is white space. -/
theorem trim_eq_self_iff (s : Str) :
    trim s = s ↔ (∀ c, s.head? = some c → isWhiteSpace c = false) ∧
      (∀ c, s.getLast? = some c → isWhiteSpace c = false) := by
  constructor
  · intro h
    constructor
    · intro c hc
      have h1 : (trim s).head? = some c := by rw [h]; exact hc
      have hpre : trim s <+: trimStart s := by
        unfold trim; rw [trimEnd_eq_rdropWhile]; exact List.rdropWhile_prefix _ _
      obtain ⟨t, ht⟩ := hpre
      have hne : trim s ≠ [] := by intro h0; rw [h0] at h1; simp at h1
      have h2 : (trimStart s).head? = some c := by
        rw [← ht]
        cases hts : trim s with
        | nil => exact absurd hts hne
        | cons a l => rw [hts] at h1; simpa using h1
      have h3 := List.head?_dropWhile_not isWhiteSpace s
      unfold trimStart at h2
      rw [h2] at h3
      simpa using h3
    · intro c hc
      have hne : s ≠ [] := by intro h0; rw [h0] at hc; simp at hc
      have hne2 : (trimStart s).rdropWhile isWhiteSpace ≠ [] := by
        have : trim s ≠ [] := by rw [h]; exact hne
        simpa [trim, trimEnd_eq_rdropWhile] using this
      have h3 := List.rdropWhile_last_not isWhiteSpace (trimStart s) hne2
      have h4 : ((trimStart s).rdropWhile isWhiteSpace).getLast hne2 = c := by
        have e : (trimStart s).rdropWhile isWhiteSpace = s := h
        have : ((trimStart s).rdropWhile isWhiteSpace).getLast? = some c := by rw [e]; exact hc
        rw [List.getLast?_eq_getLast _ hne2] at this
        exact Option.some.inj this
      rw [h4] at h3
      simpa using h3
  · rintro ⟨hh, hl⟩
    have h1 : trimStart s = s := by
      unfold trimStart
      cases s with
      | nil => rfl
      | cons a l =>
        have := hh a rfl
        simp [List.dropWhile, this]
    unfold trim
    rw [h1, trimEnd_eq_rdropWhile, List.rdropWhile_eq_self_iff]
    intro hne
    have := hl _ (List.getLast?_eq_getLast _ hne)
    simp [this]

theorem trim_trim (s : Str) : trim (trim s) = trim s := by
  unfold trim
  have h1 : trimStart (trimEnd (trimStart s)) = trimEnd (trimStart s) := by
    have hpre : trimEnd (trimStart s) <+: trimStart s := by
      rw [trimEnd_eq_rdropWhile]; exact List.rdropWhile_prefix _ _
    obtain ⟨t, ht⟩ := hpre
    cases hx : trimEnd (trimStart s) with
    | nil => rfl
    | cons a l =>
      rw [hx] at ht
      have h3 := List.head?_dropWhile_not isWhiteSpace s
      unfold trimStart at ht
      rw [← ht] at h3
      simp at h3
      simp [trimStart, List.dropWhile, h3]
  rw [h1]
  simp only [trimEnd_eq_rdropWhile]
  exact List.rdropWhile_idempotent _ _

theorem split_ne_nil (sep : Char) (s : Str) : split sep s ≠ [] := by
  cases s with
  | nil => simp [split]
  | cons c cs =>
    unfold split
    split_ifs
    · simp
    · split <;> simp

theorem split_of_not_mem (sep : Char) (s : Str) (h : sep ∉ s) : split sep s = [s] := by
  induction s with
  | nil => rfl
  | cons c cs ih =>
    have hc : c ≠ sep := fun e => h (e ▸ List.mem_cons_self _ _)
    have hcs : sep ∉ cs := fun e => h (List.mem_cons_of_mem _ e)
    simp [split, hc, ih hcs]

theorem split_append_sep (sep : Char) (a b : Str) (h : sep ∉ a) :
    split sep (a ++ sep :: b) = a :: split sep b := by
  induction a with
  | nil => simp [split]
  | cons c cs ih =>
    have hc : c ≠ sep := fun e => h (e ▸ List.mem_cons_self _ _)
    have hcs : sep ∉ cs := fun e => h (List.mem_cons_of_mem _ e)
    simp [split, hc, ih hcs]

theorem ne_nil_of_split_length (sep : Char) (s : Str) (h : 2 ≤ (split sep s).length) :
    s ≠ [] := by
  intro h0
  rw [h0] at h
  simp [split] at h

/-- The pipe check passes exactly when every pipe that has a neighbour on a side has a space
on that side. -/
theorem validatePipeSpacing_iff (s : Str) :
    validatePipeSpacing s = true ↔
      ∀ i, s[i]? = some '|' →
        (0 < i → s[i - 1]? = some ' ') ∧ (i < s.length - 1 → s[i + 1]? = some ' ') := by
  unfold validatePipeSpacing pipeIndexes
  rw [List.all_eq_true]
  constructor
  · intro h i hi
    have hlt : i < s.length := by
      by_contra hge
      rw [List.getElem?_eq_none (by omega)] at hi
      cases hi
    have hmem : i ∈ List.filter (fun i => s[i]? == some '|') (List.range s.length) := by
      rw [List.mem_filter]
      exact ⟨List.mem_range.mpr hlt, by rw [hi]; rfl⟩
    have := h i hmem
    simp only [Bool.and_eq_true, Bool.not_eq_true', Bool.and_eq_false_iff, decide_eq_false_iff_not,
      bne_eq_false_iff_eq] at this
    obtain ⟨h1, h2⟩ := this
    constructor
    · intro hpos
      rcases h1 with h1 | h1
      · exact absurd hpos h1
      · exact h1
    · intro hpos
      rcases h2 with h2 | h2
      · exact absurd hpos h2
      · exact h2
  · intro h i hi
    simp only [List.mem_filter, List.mem_range, beq_iff_eq] at hi
    obtain ⟨h1, h2⟩ := h i hi.2
    simp only [Bool.and_eq_true, Bool.not_eq_true', Bool.and_eq_false_iff, decide_eq_false_iff_not,
      bne_eq_false_iff_eq]
    constructor
    · by_cases hp : i > 0
      · exact Or.inr (h1 hp)
      · exact Or.inl hp
    · by_cases hp : i < s.length - 1
      · exact Or.inr (h2 hp)
      · exact Or.inl hp

/-- Two pipe-free texts joined by ` | ` pass the pipe check. -/
theorem validatePipeSpacing_join (a b : Str) (ha : '|' ∉ a) (hb : '|' ∉ b) :
    validatePipeSpacing (a ++ ' ' :: '|' :: ' ' :: b) = true := by
  rw [validatePipeSpacing_iff]
  intro i hi
  have key : i = a.length + 1 := by
    rcases Nat.lt_or_ge i a.length with h | h
    · rw [List.getElem?_append_left h] at hi
      exact absurd (List.getElem?_mem hi) ha
    · rw [List.getElem?_append_right h] at hi
      obtain ⟨k, hk⟩ : ∃ k, i - a.length = k := ⟨_, rfl⟩
      rw [hk] at hi
      match k, hk, hi with
      | 0, _, hi => simp at hi
      | 1, hk, _ => omega
      | 2, _, hi => simp at hi
      | k + 3, _, hi =>
        simp at hi
        exact absurd (List.getElem?_mem hi) hb
  subst key
  constructor
  · intro _
    rw [List.getElem?_append_right (by omega)]
    simp
  · intro _
    rw [List.getElem?_append_right (by omega)]
    have : a.length + 1 + 1 - a.length = 2 := by omega
    rw [this]
    simp

/-! ## Facts about the parser -/

theorem refHost_upperAscii : refHost.UpperAscii := fun _ _ => rfl

theorem upper_HTTP {H : Host} (hH : H.UpperAscii) :
    H.toUpperCase "HTTP".toList = "HTTP".toList := by
  rw [hH _ (by decide)]; rfl

theorem upper_URL {H : Host} (hH : H.UpperAscii) :
    H.toUpperCase "URL".toList = "URL".toList := by
  rw [hH _ (by decide)]; rfl

theorem upper_HEADERS {H : Host} (hH : H.UpperAscii) :
    H.toUpperCase "HEADERS".toList = "HEADERS".toList := by
  rw [hH _ (by decide)]; rfl

theorem upper_QUERY {H : Host} (hH : H.UpperAscii) :
    H.toUpperCase "QUERY".toList = "QUERY".toList := by
  rw [hH _ (by decide)]; rfl

theorem upper_BODY {H : Host} (hH : H.UpperAscii) :
    H.toUpperCase "BODY".toList = "BODY".toList := by
  rw [hH _ (by decide)]; rfl

theorem upper_GET {H : Host} (hH : H.UpperAscii) :
    H.toUpperCase "GET".toList = "GET".toList := by
  rw [hH _ (by decide)]; rfl

theorem upper_POST {H : Host} (hH : H.UpperAscii) :
    H.toUpperCase "POST".toList = "POST".toList := by
  rw [hH _ (by decide)]; rfl

theorem invalidJson_eq {H : Host} (hH : H.UpperAscii) (sec : Section) :
    invalidJson H sec = match sec with
      | .headers => INVALID_JSON_HEADERS
      | .query => INVALID_JSON_QUERY
      | .body => INVALID_JSON_BODY := by
  cases sec <;> (unfold invalidJson; rw [hH _ (by decide)]; rfl)

/-- In a trimmed part that starts with a keyword and a space, the value after the keyword
is not blank. -/
theorem value_not_blank (k v : Str)
    (ht : trim (k ++ ' ' :: v) = k ++ ' ' :: v) : trim v ≠ [] := by
  intro h0
  rw [trim_eq_nil_iff] at h0
  have hl := ((trim_eq_self_iff _).mp ht).2
  have hne : k ++ ' ' :: v ≠ [] := by simp
  have h1 := hl _ (List.getLast?_eq_getLast _ hne)
  have h2 : (k ++ ' ' :: v).getLast hne ∈ ' ' :: v := by
    rw [List.getLast_append_of_ne_nil (List.cons_ne_nil ' ' v)]
    exact List.getLast_mem _
  rcases List.mem_cons.mp h2 with h3 | h3
  · rw [h3] at h1; exact absurd h1 (by decide)
  · rw [h0 _ h3] at h1; cases h1

theorem parsePart_http {H : Host} (hH : H.UpperAscii) (v : Str) (i : Nat)
    (ht : trim ("HTTP ".toList ++ v) = "HTTP ".toList ++ v) :
    parsePart H ("HTTP ".toList ++ v) i = parseHttpSection H (trim v) i := by
  have hv := value_not_blank "HTTP".toList v ht
  unfold parsePart
  rw [ht]
  simp [REQUIRED_KEYWORDS, OPTIONAL_KEYWORDS, List.find?, startsWith, List.isPrefixOf,
    parseKeywordSection, substring, hv]
  intro h
  exact absurd (upper_HTTP hH).symm h

theorem parsePart_url {H : Host} (hH : H.UpperAscii) (v : Str) (i : Nat)
    (ht : trim ("URL ".toList ++ v) = "URL ".toList ++ v) :
    parsePart H ("URL ".toList ++ v) i = parseUrlSection (trim v) i := by
  have hv := value_not_blank "URL".toList v ht
  unfold parsePart
  rw [ht]
  simp [REQUIRED_KEYWORDS, OPTIONAL_KEYWORDS, List.find?, startsWith, List.isPrefixOf,
    parseKeywordSection, substring, hv]
  intro h
  exact absurd (upper_URL hH).symm h

theorem parsePart_headers {H : Host} (hH : H.UpperAscii) (v : Str) (i : Nat)
    (ht : trim ("HEADERS ".toList ++ v) = "HEADERS ".toList ++ v) :
    parsePart H ("HEADERS ".toList ++ v) i = parseJsonSection H (trim v) .headers i := by
  have hv := value_not_blank "HEADERS".toList v ht
  unfold parsePart
  rw [ht]
  simp [REQUIRED_KEYWORDS, OPTIONAL_KEYWORDS, List.find?, startsWith, List.isPrefixOf,
    parseKeywordSection, substring, hv]
  intro h
  exact absurd (upper_HEADERS hH).symm h

theorem parsePart_query {H : Host} (hH : H.UpperAscii) (v : Str) (i : Nat)
    (ht : trim ("QUERY ".toList ++ v) = "QUERY ".toList ++ v) :
    parsePart H ("QUERY ".toList ++ v) i = parseJsonSection H (trim v) .query i := by
  have hv := value_not_blank "QUERY".toList v ht
  unfold parsePart
  rw [ht]
  simp [REQUIRED_KEYWORDS, OPTIONAL_KEYWORDS, List.find?, startsWith, List.isPrefixOf,
    parseKeywordSection, substring, hv]
  intro h
  exact absurd (upper_QUERY hH).symm h

theorem parsePart_body {H : Host} (hH : H.UpperAscii) (v : Str) (i : Nat)
    (ht : trim ("BODY ".toList ++ v) = "BODY ".toList ++ v) :
    parsePart H ("BODY ".toList ++ v) i = parseJsonSection H (trim v) .body i := by
  have hv := value_not_blank "BODY".toList v ht
  unfold parsePart
  rw [ht]
  simp [REQUIRED_KEYWORDS, OPTIONAL_KEYWORDS, List.find?, startsWith, List.isPrefixOf,
    parseKeywordSection, substring, hv]
  intro h
  exact absurd (upper_BODY hH).symm h

theorem parseParts_nil (H : Host) (i : Nat) (parsed : Parsed) :
    parseParts H i [] parsed = .ok parsed := rfl

theorem parseParts_blank (H : Host) (i : Nat) (p : Str) (ps : List Str) (parsed : Parsed)
    (h : trim p = []) : parseParts H i (p :: ps) parsed = parseParts H (i + 1) ps parsed := by
  simp [parseParts, h]

theorem parseParts_error (H : Host) (i : Nat) (p : Str) (ps : List Str) (parsed : Parsed)
    (message : Str) (h : trim p ≠ []) (he : parsePart H (trim p) i = .error message) :
    parseParts H i (p :: ps) parsed = .error message := by
  simp [parseParts, h, he]

theorem parseParts_method (H : Host) (i : Nat) (p : Str) (ps : List Str) (parsed : Parsed)
    (m : Str) (h : trim p ≠ []) (he : parsePart H (trim p) i = .method m) :
    parseParts H i (p :: ps) parsed =
      parseParts H (i + 1) ps { parsed with method := some m } := by
  simp [parseParts, h, he, Parsed.assign]

theorem parseParts_url (H : Host) (i : Nat) (p : Str) (ps : List Str) (parsed : Parsed)
    (u : Str) (h : trim p ≠ []) (he : parsePart H (trim p) i = .url u) :
    parseParts H i (p :: ps) parsed =
      parseParts H (i + 1) ps { parsed with url := some u } := by
  simp [parseParts, h, he, Parsed.assign]

theorem parseParts_json (H : Host) (i : Nat) (p : Str) (ps : List Str) (parsed : Parsed)
    (sec : Section) (v : Json) (h : trim p ≠ [])
    (he : parsePart H (trim p) i = .json sec v) :
    parseParts H i (p :: ps) parsed =
      parseParts H (i + 1) ps (parsed.assign (.json sec v)) := by
  simp [parseParts, h, he]

theorem trim_cons_space (c : Char) (s : Str) (hc : isWhiteSpace c = true) :
    trim (c :: s) = trim s := by
  simp [trim, trimStart, List.dropWhile, hc]

theorem trim_append_space (c : Char) (s : Str) (hc : isWhiteSpace c = true) :
    trim (s ++ [c]) = trim s := by
  unfold trim trimStart
  rw [List.dropWhile_append]
  by_cases h : (List.dropWhile isWhiteSpace s).isEmpty = true
  · have h2 : List.dropWhile isWhiteSpace s = [] := List.isEmpty_iff.mp h
    simp [h2, List.dropWhile, hc, trimEnd]
  · simp only [h, if_false, Bool.false_eq_true]
    rw [trimEnd_eq_rdropWhile, trimEnd_eq_rdropWhile, List.rdropWhile_concat_pos _ _ _ hc]

/-- A text without white space, or any text that starts and ends with other characters,
is left alone by `trim`. -/
theorem trim_append_eq (a b : Str) (ha : ∀ c, a.head? = some c → isWhiteSpace c = false)
    (hane : a ≠ []) (hb : trim b = b) (hbne : b ≠ []) : trim (a ++ b) = a ++ b := by
  rw [trim_eq_self_iff]
  constructor
  · intro c hc
    cases a with
    | nil => exact absurd rfl hane
    | cons x xs => exact ha c (by simpa using hc)
  · intro c hc
    rw [List.getLast?_append_of_ne_nil _ hbne] at hc
    exact ((trim_eq_self_iff b).mp hb).2 c hc

theorem trim_of_no_space (m : Str) (h : ∀ c ∈ m, isWhiteSpace c = false) : trim m = m := by
  rw [trim_eq_self_iff]
  constructor
  · intro c hc
    exact h c (List.mem_of_mem_head? hc)
  · intro c hc
    exact h c (List.mem_of_mem_getLast? hc)

/-- A value accepted as a URL: it starts with `http://` or `https://`. -/
theorem parseUrlSection_ok (u : Str) (htrim : trim u = u)
    (hu : startsWith u "http://".toList = true ∨ startsWith u "https://".toList = true) :
    parseUrlSection u 1 = .url u := by
  have hne : u ≠ [] := by
    rintro rfl
    rcases hu with h | h <;> simp [startsWith, List.isPrefixOf] at h
  unfold parseUrlSection
  rw [htrim]
  have hor : (!startsWith u "http://".toList && !startsWith u "https://".toList) = false := by
    rcases hu with h | h
    · rw [h]; rfl
    · rw [h]; exact Bool.and_false _
  rw [if_neg (by simp), if_neg (by simpa using hne), hor]
  rfl

theorem parseHttpSection_ok (H : Host) (m : Str) (htrim : trim m = m) (hne : m ≠ [])
    (hup : H.toUpperCase m = m) : parseHttpSection H m 0 = .method m := by
  unfold parseHttpSection
  rw [htrim]
  simp [hne, hup]

/-- The statement `HTTP m | URL u` reaches the checks after the loop with exactly the
method `m` and the url `u` recorded. -/
theorem parseReqline_two {H : Host} (hH : H.UpperAscii) (m u : Str)
    (hmne : m ≠ []) (hmws : ∀ c ∈ m, isWhiteSpace c = false) (hmpipe : '|' ∉ m)
    (hmup : H.toUpperCase m = m)
    (hu : startsWith u "http://".toList = true ∨ startsWith u "https://".toList = true)
    (hpipe : '|' ∉ u) (htrim : trim u = u) :
    parseReqline H ("HTTP ".toList ++ m ++ " | URL ".toList ++ u) =
      finish { method := some m, url := some u } := by
  have hune : u ≠ [] := by
    rintro rfl
    rcases hu with h | h <;> simp [startsWith, List.isPrefixOf] at h
  have hs : "HTTP ".toList ++ m ++ " | URL ".toList ++ u =
      ("HTTP ".toList ++ m) ++ ' ' :: '|' :: ' ' :: ("URL ".toList ++ u) := by
    simp
  have hs2 : "HTTP ".toList ++ m ++ " | URL ".toList ++ u =
      ("HTTP ".toList ++ m ++ [' ']) ++ '|' :: (' ' :: ("URL ".toList ++ u)) := by
    simp
  have hpa : '|' ∉ "HTTP ".toList ++ m := by
    simp only [List.mem_append, not_or]
    exact ⟨by decide, hmpipe⟩
  have hpb : '|' ∉ "URL ".toList ++ u := by
    simp only [List.mem_append, not_or]
    exact ⟨by decide, hpipe⟩
  have hv : validatePipeSpacing ("HTTP ".toList ++ m ++ " | URL ".toList ++ u) = true := by
    rw [hs]; exact validatePipeSpacing_join _ _ hpa hpb
  have hsplit : split '|' ("HTTP ".toList ++ m ++ " | URL ".toList ++ u) =
      ["HTTP ".toList ++ m ++ [' '], ' ' :: ("URL ".toList ++ u)] := by
    rw [hs2, split_append_sep, split_of_not_mem]
    · simp only [List.mem_cons, not_or]
      exact ⟨by decide, hpb⟩
    · intro hmem
      rcases List.mem_append.mp hmem with h | h
      · exact hpa h
      · exact absurd h (by decide)
  have htm : trim m = m := trim_of_no_space m hmws
  have hta : trim ("HTTP ".toList ++ m) = "HTTP ".toList ++ m :=
    trim_append_eq _ _ (by intro c hc; cases hc; decide) (by decide) htm hmne
  have htb : trim ("URL ".toList ++ u) = "URL ".toList ++ u :=
    trim_append_eq _ _ (by intro c hc; cases hc; decide) (by decide) htrim hune
  have h1 : trim ("HTTP ".toList ++ m ++ [' ']) = "HTTP ".toList ++ m := by
    rw [trim_append_space _ _ (by decide), hta]
  have h2 : trim (' ' :: ("URL ".toList ++ u)) = "URL ".toList ++ u := by
    rw [trim_cons_space _ _ (by decide), htb]
  have hp1 : parsePart H ("HTTP ".toList ++ m) 0 = .method m := by
    rw [parsePart_http hH m 0 hta, htm]
    exact parseHttpSection_ok H m htm hmne hmup
  have hp2 : parsePart H ("URL ".toList ++ u) 1 = .url u := by
    rw [parsePart_url hH u 1 htb, htrim]
    exact parseUrlSection_ok u htrim hu
  have hloop : parseParts H 0 ["HTTP ".toList ++ m ++ [' '], ' ' :: ("URL ".toList ++ u)] {} =
      .ok { method := some m, url := some u } := by
    rw [parseParts_method H 0 _ _ _ m (by rw [h1]; simp) (by rw [h1]; exact hp1)]
    rw [parseParts_url H 1 _ _ _ u (by rw [h2]; simp) (by rw [h2]; exact hp2)]
    rfl
  have hnil : ("HTTP ".toList ++ m ++ " | URL ".toList ++ u).isEmpty = false := by simp
  simp only [parseReqline, hnil, hv, hsplit, hloop]
  simp

theorem parseHttpSection_cases (H : Host) (v : Str) (i : Nat) :
    (∃ msg, parseHttpSection H v i = .error msg) ∨
    (parseHttpSection H v i = .method (trim v) ∧ i = 0 ∧ trim v ≠ [] ∧
      trim v = H.toUpperCase (trim v)) := by
  unfold parseHttpSection
  by_cases h0 : i ≠ 0
  · exact Or.inl ⟨_, if_pos h0⟩
  · rw [if_neg h0]
    by_cases h1 : (trim v).isEmpty = true
    · exact Or.inl ⟨_, if_pos h1⟩
    · by_cases h2 : trim v ≠ H.toUpperCase (trim v)
      · exact Or.inl ⟨_, by rw [if_neg h1, if_pos h2]⟩
      · refine Or.inr ⟨by rw [if_neg h1, if_neg h2], by omega, ?_, by simpa using h2⟩
        intro e; rw [e] at h1; exact h1 rfl

theorem parseUrlSection_cases (v : Str) (i : Nat) :
    (∃ msg, parseUrlSection v i = .error msg) ∨
    (parseUrlSection v i = .url (trim v) ∧ i = 1 ∧ trim v ≠ [] ∧
      (startsWith (trim v) "http://".toList = true ∨
        startsWith (trim v) "https://".toList = true)) := by
  unfold parseUrlSection
  by_cases h0 : i ≠ 1
  · exact Or.inl ⟨_, if_pos h0⟩
  · rw [if_neg h0]
    by_cases h1 : (trim v).isEmpty = true
    · exact Or.inl ⟨_, if_pos h1⟩
    · by_cases h2 : (!startsWith (trim v) "http://".toList &&
          !startsWith (trim v) "https://".toList) = true
      · exact Or.inl ⟨_, by rw [if_neg h1, if_pos h2]⟩
      · refine Or.inr ⟨by rw [if_neg h1, if_neg h2], by omega, ?_, ?_⟩
        · intro e; rw [e] at h1; exact h1 rfl
        · cases ha : startsWith (trim v) "http://".toList
          · cases hb : startsWith (trim v) "https://".toList
            · rw [ha, hb] at h2; exact absurd rfl h2
            · exact Or.inr rfl
          · exact Or.inl rfl

theorem parseJsonSection_cases (H : Host) (v : Str) (sec : Section) (i : Nat) :
    (∃ msg, parseJsonSection H v sec i = .error msg) ∨
    (∃ j, parseJsonSection H v sec i = .json sec j ∧ H.jsonParse v = some j ∧
      j.typeOf = "object".toList ∧ j.isNull = false) := by
  unfold parseJsonSection
  cases hj : H.jsonParse v with
  | none => exact Or.inl ⟨_, rfl⟩
  | some j =>
    by_cases h : (decide (j.typeOf ≠ "object".toList) || j.isNull) = true
    · exact Or.inl ⟨_, if_pos h⟩
    · refine Or.inr ⟨j, if_neg h, rfl, ?_, ?_⟩
      · by_contra hne
        exact h (by rw [decide_eq_true hne]; rfl)
      · cases hn : j.isNull
        · rfl
        · exact absurd (by rw [hn]; exact Bool.or_true _) h

/-- What `parsePart` can return: an error, or the result of the section parser of the
keyword the trimmed part starts with, on the trimmed text after that keyword. -/
theorem parsePart_cases (H : Host) (t : Str) (i : Nat) :
    (∃ msg, parsePart H t i = .error msg) ∨
    (startsWith (trim t) "HTTP ".toList = true ∧
      parsePart H t i = parseHttpSection H (trim ((trim t).drop 5)) i) ∨
    (startsWith (trim t) "URL ".toList = true ∧
      parsePart H t i = parseUrlSection (trim ((trim t).drop 4)) i) ∨
    (startsWith (trim t) "HEADERS ".toList = true ∧
      parsePart H t i = parseJsonSection H (trim ((trim t).drop 8)) .headers i) ∨
    (startsWith (trim t) "QUERY ".toList = true ∧
      parsePart H t i = parseJsonSection H (trim ((trim t).drop 6)) .query i) ∨
    (startsWith (trim t) "BODY ".toList = true ∧
      parsePart H t i = parseJsonSection H (trim ((trim t).drop 5)) .body i) := by
  have hdef : parsePart H t i =
      match (REQUIRED_KEYWORDS ++ OPTIONAL_KEYWORDS).find?
        (fun keyword => startsWith (trim t) (keyword ++ " ".toList)) with
      | some keyword => parseKeywordSection H (trim t) keyword i
      | none =>
        if includes (trim t) "  ".toList then .error MULTIPLE_SPACES
        else .error KEYWORDS_MUST_BE_UPPERCASE := rfl
  rw [hdef]
  cases hf : (REQUIRED_KEYWORDS ++ OPTIONAL_KEYWORDS).find?
      (fun keyword => startsWith (trim t) (keyword ++ " ".toList)) with
  | none =>
    left
    by_cases h : includes (trim t) "  ".toList = true
    · exact ⟨_, if_pos h⟩
    · exact ⟨_, if_neg h⟩
  | some kw =>
    have hmem := List.mem_of_find?_eq_some hf
    have hpre : startsWith (trim t) (kw ++ " ".toList) = true := by
      have := List.find?_some hf
      exact this
    show (∃ msg, parseKeywordSection H (trim t) kw i = .error msg) ∨
      (_ ∧ parseKeywordSection H (trim t) kw i = _) ∨
      (_ ∧ parseKeywordSection H (trim t) kw i = _) ∨
      (_ ∧ parseKeywordSection H (trim t) kw i = _) ∨
      (_ ∧ parseKeywordSection H (trim t) kw i = _) ∨
      (_ ∧ parseKeywordSection H (trim t) kw i = _)
    unfold parseKeywordSection
    by_cases hup : kw ≠ H.toUpperCase kw
    · exact Or.inl ⟨_, if_pos hup⟩
    · rw [if_neg hup, if_neg (by rw [hpre]; decide)]
      by_cases hval : (trim (substring (trim t) (kw.length + 1))).isEmpty = true
      · exact Or.inl ⟨_, if_pos hval⟩
      · rw [if_neg hval]
        simp only [REQUIRED_KEYWORDS, OPTIONAL_KEYWORDS, List.cons_append, List.nil_append,
          List.mem_cons, List.mem_singleton, List.not_mem_nil, or_false] at hmem
        rcases hmem with rfl | rfl | rfl | rfl | rfl
        · exact Or.inr (Or.inl ⟨hpre, rfl⟩)
        · exact Or.inr (Or.inr (Or.inl ⟨hpre, rfl⟩))
        · exact Or.inr (Or.inr (Or.inr (Or.inl ⟨hpre, rfl⟩)))
        · exact Or.inr (Or.inr (Or.inr (Or.inr (Or.inl ⟨hpre, rfl⟩))))
        · exact Or.inr (Or.inr (Or.inr (Or.inr (Or.inr ⟨hpre, rfl⟩))))

/-- A property of the accumulator that every accepted part preserves holds when the loop
ends. -/
theorem parseParts_invariant (H : Host) (P : Parsed → Prop) (ps : List Str)
    (hstep : ∀ p ∈ ps, ∀ (parsed : Parsed) (i : Nat), P parsed → trim p ≠ [] →
      (∀ msg, parsePart H (trim p) i ≠ .error msg) →
      P (parsed.assign (parsePart H (trim p) i))) :
    ∀ (i : Nat) (parsed out : Parsed), P parsed → parseParts H i ps parsed = .ok out →
      P out := by
  induction ps with
  | nil =>
    intro i parsed out hP h
    rw [parseParts_nil] at h
    cases h
    exact hP
  | cons p ps ih =>
    intro i parsed out hP h
    have ih2 := ih (fun q hq => hstep q (List.mem_cons_of_mem _ hq))
    by_cases hb : trim p = []
    · rw [parseParts_blank H i p ps parsed hb] at h
      exact ih2 _ _ _ hP h
    · cases hr : parsePart H (trim p) i with
      | error msg =>
        rw [parseParts_error H i p ps parsed msg hb hr] at h
        cases h
      | method m =>
        have hs := hstep p (List.mem_cons_self _ _) parsed i hP hb (by rw [hr]; intro _ h; cases h)
        rw [hr] at hs
        rw [parseParts_method H i p ps parsed m hb hr] at h
        exact ih2 _ _ _ hs h
      | url u =>
        have hs := hstep p (List.mem_cons_self _ _) parsed i hP hb (by rw [hr]; intro _ h; cases h)
        rw [hr] at hs
        rw [parseParts_url H i p ps parsed u hb hr] at h
        exact ih2 _ _ _ hs h
      | json sec v =>
        have hs := hstep p (List.mem_cons_self _ _) parsed i hP hb (by rw [hr]; intro _ h; cases h)
        rw [hr] at hs
        rw [parseParts_json H i p ps parsed sec v hb hr] at h
        exact ih2 _ _ _ hs h

/-- A part accepted as a URL part gives a non-empty url that starts with `http://` or
`https://`. -/
theorem parsePart_url_inv (H : Host) (t u : Str) (i : Nat) (h : parsePart H t i = .url u) :
    u ≠ [] ∧ (startsWith u "http://".toList = true ∨ startsWith u "https://".toList = true) := by
  rcases parsePart_cases H t i with ⟨msg, e⟩ | ⟨_, e⟩ | ⟨_, e⟩ | ⟨_, e⟩ | ⟨_, e⟩ | ⟨_, e⟩
  · rw [e] at h; cases h
  · rw [e] at h
    rcases parseHttpSection_cases H (trim ((trim t).drop 5)) i with ⟨msg, e2⟩ | ⟨e2, _⟩ <;>
      (rw [e2] at h; cases h)
  · rw [e] at h
    rcases parseUrlSection_cases (trim ((trim t).drop 4)) i with ⟨msg, e2⟩ | ⟨e2, _, h3, h4⟩
    · rw [e2] at h; cases h
    · rw [e2] at h
      cases h
      exact ⟨h3, h4⟩
  · rw [e] at h
    rcases parseJsonSection_cases H (trim ((trim t).drop 8)) .headers i with ⟨msg, e2⟩ | ⟨j, e2, _⟩ <;>
      (rw [e2] at h; cases h)
  · rw [e] at h
    rcases parseJsonSection_cases H (trim ((trim t).drop 6)) .query i with ⟨msg, e2⟩ | ⟨j, e2, _⟩ <;>
      (rw [e2] at h; cases h)
  · rw [e] at h
    rcases parseJsonSection_cases H (trim ((trim t).drop 5)) .body i with ⟨msg, e2⟩ | ⟨j, e2, _⟩ <;>
      (rw [e2] at h; cases h)

/-- A part accepted as a JSON section starts, once trimmed, with the keyword of that
section, and its value decodes to a value of type `object` other than `null`. -/
theorem parsePart_json_inv (H : Host) (t : Str) (i : Nat) (sec : Section) (j : Json)
    (h : parsePart H t i = .json sec j) :
    j.typeOf = "object".toList ∧ j.isNull = false ∧
    match sec with
    | .headers => startsWith (trim t) "HEADERS ".toList = true ∧
        H.jsonParse (trim ((trim t).drop 8)) = some j
    | .query => startsWith (trim t) "QUERY ".toList = true ∧
        H.jsonParse (trim ((trim t).drop 6)) = some j
    | .body => startsWith (trim t) "BODY ".toList = true ∧
        H.jsonParse (trim ((trim t).drop 5)) = some j := by
  rcases parsePart_cases H t i with ⟨msg, e⟩ | ⟨_, e⟩ | ⟨_, e⟩ | ⟨hp, e⟩ | ⟨hp, e⟩ | ⟨hp, e⟩
  · rw [e] at h; cases h
  · rw [e] at h
    rcases parseHttpSection_cases H (trim ((trim t).drop 5)) i with ⟨msg, e2⟩ | ⟨e2, _⟩ <;>
      (rw [e2] at h; cases h)
  · rw [e] at h
    rcases parseUrlSection_cases (trim ((trim t).drop 4)) i with ⟨msg, e2⟩ | ⟨e2, _⟩ <;>
      (rw [e2] at h; cases h)
  · rw [e] at h
    rcases parseJsonSection_cases H (trim ((trim t).drop 8)) .headers i with
      ⟨msg, e2⟩ | ⟨j2, e2, h3, h4, h5⟩
    · rw [e2] at h; cases h
    · rw [e2] at h; cases h; exact ⟨h4, h5, hp, h3⟩
  · rw [e] at h
    rcases parseJsonSection_cases H (trim ((trim t).drop 6)) .query i with
      ⟨msg, e2⟩ | ⟨j2, e2, h3, h4, h5⟩
    · rw [e2] at h; cases h
    · rw [e2] at h; cases h; exact ⟨h4, h5, hp, h3⟩
  · rw [e] at h
    rcases parseJsonSection_cases H (trim ((trim t).drop 5)) .body i with
      ⟨msg, e2⟩ | ⟨j2, e2, h3, h4, h5⟩
    · rw [e2] at h; cases h
    · rw [e2] at h; cases h; exact ⟨h4, h5, hp, h3⟩

/-- What an accepted statement went through: its parts were read by the loop and the
checks after the loop produced the descriptor. -/
theorem parseReqline_ok (H : Host) (s : Str) (d : Descriptor) (h : parseReqline H s = .ok d) :
    ∃ parsed, parseParts H 0 (split '|' s) {} = .ok parsed ∧ finish parsed = .ok d := by
  unfold parseReqline at h
  by_cases h1 : s.isEmpty = true
  · rw [if_pos h1] at h; cases h
  · rw [if_neg h1] at h
    by_cases h2 : (!validatePipeSpacing s) = true
    · rw [if_pos h2] at h; cases h
    · rw [if_neg h2] at h
      simp only at h
      by_cases h3 : (split '|' s).length < 2
      · rw [if_pos h3] at h; cases h
      · rw [if_neg h3] at h
        cases hl : parseParts H 0 (split '|' s) {} with
        | error msg => rw [hl] at h; cases h
        | ok parsed => rw [hl] at h; exact ⟨parsed, rfl, h⟩

/-- What the checks after the loop accept. -/
theorem finish_ok (parsed : Parsed) (d : Descriptor) (h : finish parsed = .ok d) :
    parsed.method = some d.method ∧ parsed.url = some d.url ∧
    d.method ≠ [] ∧ d.url ≠ [] ∧ d.method ∈ VALID_METHODS ∧
    d.headers = orEmpty parsed.headers ∧ d.query = orEmpty parsed.query ∧
    d.body = orEmpty parsed.body := by
  unfold finish at h
  cases hm : parsed.method with
  | none => rw [hm] at h; cases h
  | some m =>
    rw [hm] at h
    simp only at h
    by_cases h1 : m.isEmpty = true
    · rw [if_pos h1] at h; cases h
    · rw [if_neg h1] at h
      cases hu : parsed.url with
      | none => rw [hu] at h; cases h
      | some u =>
        rw [hu] at h
        simp only at h
        by_cases h2 : u.isEmpty = true
        · rw [if_pos h2] at h; cases h
        · rw [if_neg h2] at h
          by_cases h3 : (!VALID_METHODS.contains m) = true
          · rw [if_pos h3] at h; cases h
          · rw [if_neg h3] at h
            cases h
            refine ⟨rfl, rfl, ?_, ?_, ?_, rfl, rfl, rfl⟩
            · intro e
              have e2 : m = [] := e
              exact h1 (by rw [e2]; rfl)
            · intro e
              have e2 : u = [] := e
              exact h2 (by rw [e2]; rfl)
            · simpa using h3

theorem parsePart_nil (H : Host) (i : Nat) :
    parsePart H [] i = .error KEYWORDS_MUST_BE_UPPERCASE := rfl

theorem parseParts_blanks (H : Host) (blanks ps : List Str) (parsed : Parsed)
    (hblank : ∀ b ∈ blanks, trim b = []) :
    ∀ i, parseParts H i (blanks ++ ps) parsed = parseParts H (i + blanks.length) ps parsed := by
  induction blanks with
  | nil => intro i; rfl
  | cons b bs ih =>
    intro i
    have hb : trim b = [] := hblank b (List.mem_cons_self _ _)
    rw [List.cons_append, parseParts_blank H i b _ parsed hb,
      ih (fun c hc => hblank c (List.mem_cons_of_mem _ hc)) (i + 1)]
    congr 1
    simp only [List.length_cons]
    omega

theorem parsePart_section {H : Host} (hH : H.UpperAscii) (sec : Section) (v : Str) (i : Nat)
    (ht : trim (sec.keyword ++ ' ' :: v) = sec.keyword ++ ' ' :: v) :
    parsePart H (sec.keyword ++ ' ' :: v) i = parseJsonSection H (trim v) sec i := by
  cases sec with
  | headers => exact parsePart_headers hH v i ht
  | query => exact parsePart_query hH v i ht
  | body => exact parsePart_body hH v i ht

theorem invalidJson_keyword {H : Host} (hH : H.UpperAscii) (sec : Section) :
    invalidJson H sec =
      "Invalid JSON format in ".toList ++ sec.keyword ++ " section".toList := by
  cases sec <;> (unfold invalidJson; rw [hH _ (by decide)]; rfl)

theorem object_or_array_of_typeOf (j : Json) (h1 : j.typeOf = "object".toList)
    (h2 : j.isNull = false) : j.isObject = true ∨ j.isArray = true := by
  cases j with
  | null => cases h2
  | bool b => exact absurd h1 (by simp [Json.typeOf])
  | num m e => exact absurd h1 (by simp [Json.typeOf])
  | str s => exact absurd h1 (by simp [Json.typeOf])
  | arr items => exact Or.inr rfl
  | obj props => exact Or.inl rfl

theorem orEmpty_object_or_array (v : Option Json)
    (h : ∀ j, v = some j → j.typeOf = "object".toList ∧ j.isNull = false) :
    (orEmpty v).isObject = true ∨ (orEmpty v).isArray = true := by
  cases v with
  | none => exact Or.inl rfl
  | some j =>
    have hdef : orEmpty (some j) = if j.truthy then j else Json.empty := rfl
    rw [hdef]
    by_cases ht : j.truthy = true
    · rw [if_pos ht]
      exact object_or_array_of_typeOf j (h j rfl).1 (h j rfl).2
    · rw [if_neg ht]
      exact Or.inl rfl

/-- What the code does ensure for the sections of an accepted statement: each of headers,
query and body is a key-value object or an array; `null` and scalars are rejected. -/
theorem accepted_sections_object_or_array (H : Host) (s : Str) (d : Descriptor)
    (h : parseReqline H s = .ok d) :
    (d.headers.isObject = true ∨ d.headers.isArray = true) ∧
    (d.query.isObject = true ∨ d.query.isArray = true) ∧
    (d.body.isObject = true ∨ d.body.isArray = true) := by
  obtain ⟨parsed, hloop, hfin⟩ := parseReqline_ok H s d h
  obtain ⟨_, _, _, _, _, hh, hq, hb⟩ := finish_ok parsed d hfin
  have hinv : (∀ j, parsed.headers = some j → j.typeOf = "object".toList ∧ j.isNull = false) ∧
      (∀ j, parsed.query = some j → j.typeOf = "object".toList ∧ j.isNull = false) ∧
      (∀ j, parsed.body = some j → j.typeOf = "object".toList ∧ j.isNull = false) := by
    refine parseParts_invariant H
      (fun q =>
        (∀ j, q.headers = some j → j.typeOf = "object".toList ∧ j.isNull = false) ∧
        (∀ j, q.query = some j → j.typeOf = "object".toList ∧ j.isNull = false) ∧
        (∀ j, q.body = some j → j.typeOf = "object".toList ∧ j.isNull = false))
      (split '|' s) ?_ 0 {} parsed
      ⟨fun j hj => (nomatch hj), fun j hj => (nomatch hj), fun j hj => (nomatch hj)⟩ hloop
    intro p _ q i hP _ hne
    cases hr : parsePart H (trim p) i with
    | error msg => exact absurd hr (hne msg)
    | method m => exact hP
    | url u => exact hP
    | json sec v =>
      have hv := parsePart_json_inv H (trim p) i sec v hr
      cases sec with
      | headers =>
        refine ⟨?_, hP.2.1, hP.2.2⟩
        intro j hj
        have e : v = j := Option.some.inj hj
        rw [← e]; exact ⟨hv.1, hv.2.1⟩
      | query =>
        refine ⟨hP.1, ?_, hP.2.2⟩
        intro j hj
        have e : v = j := Option.some.inj hj
        rw [← e]; exact ⟨hv.1, hv.2.1⟩
      | body =>
        refine ⟨hP.1, hP.2.1, ?_⟩
        intro j hj
        have e : v = j := Option.some.inj hj
        rw [← e]; exact ⟨hv.1, hv.2.1⟩
  rw [hh, hq, hb]
  exact ⟨orEmpty_object_or_array _ hinv.1, orEmpty_object_or_array _ hinv.2.1,
    orEmpty_object_or_array _ hinv.2.2⟩

/-! ## The service parser against the return-value parser -/

theorem service_validatePipeSpacing_eq (s : Str) :
    Service.validatePipeSpacing s = validatePipeSpacing s := rfl

theorem service_parsePart_eq (H : Host) (t : Str) (i : Nat) :
    Service.parsePart H t i = parsePart H t i := rfl

theorem service_parseParts_eq (H : Host) (codes : ErrorCodes) (ps : List Str) :
    ∀ (i : Nat) (parsed : Parsed),
      Service.parseParts H codes i ps parsed =
        (parseParts H i ps parsed).mapError (asThrown codes) := by
  induction ps with
  | nil => intro i parsed; rfl
  | cons p ps ih =>
    intro i parsed
    by_cases hb : trim p = []
    · rw [parseParts_blank H i p ps parsed hb]
      rw [← ih (i + 1) parsed]
      simp [Service.parseParts, hb]
    · cases hr : parsePart H (trim p) i with
      | error msg =>
        rw [parseParts_error H i p ps parsed msg hb hr]
        simp [Service.parseParts, hb, service_parsePart_eq, hr, Service.throwAppError,
          Except.mapError, asThrown]
      | method m =>
        rw [parseParts_method H i p ps parsed m hb hr, ← ih]
        simp [Service.parseParts, hb, service_parsePart_eq, hr, Parsed.assign]
      | url u =>
        rw [parseParts_url H i p ps parsed u hb hr, ← ih]
        simp [Service.parseParts, hb, service_parsePart_eq, hr, Parsed.assign]
      | json sec v =>
        rw [parseParts_json H i p ps parsed sec v hb hr, ← ih]
        simp [Service.parseParts, hb, service_parsePart_eq, hr]

theorem service_finish_eq (codes : ErrorCodes) (parsed : Parsed) :
    Service.finish codes parsed = (finish parsed).mapError (asThrown codes) := by
  unfold Service.finish finish
  cases parsed.method with
  | none => rfl
  | some m =>
    simp only
    by_cases h1 : m.isEmpty = true
    · rw [if_pos h1, if_pos h1]; rfl
    · rw [if_neg h1, if_neg h1]
      cases parsed.url with
      | none => rfl
      | some u =>
        simp only
        by_cases h2 : u.isEmpty = true
        · rw [if_pos h2, if_pos h2]; rfl
        · rw [if_neg h2, if_neg h2]
          by_cases h3 : (!VALID_METHODS.contains m) = true
          · rw [if_pos h3, if_pos (by exact h3)]; rfl
          · rw [if_neg h3, if_neg (by exact h3)]; rfl

theorem service_tryBlock_eq (H : Host) (codes : ErrorCodes) (s : Str) :
    Service.tryBlock H codes s = (parseReqline H s).mapError (asThrown codes) := by
  unfold Service.tryBlock parseReqline
  by_cases h1 : s.isEmpty = true
  · rw [if_pos h1, if_pos h1]; rfl
  · rw [if_neg h1, if_neg h1]
    by_cases h2 : (!validatePipeSpacing s) = true
    · rw [if_pos h2, if_pos (by exact h2)]; rfl
    · rw [if_neg h2, if_neg (by exact h2)]
      simp only
      by_cases h3 : (split '|' s).length < 2
      · rw [if_pos h3, if_pos h3]; rfl
      · rw [if_neg h3, if_neg h3, service_parseParts_eq]
        cases parseParts H 0 (split '|' s) {} with
        | error msg => rfl
        | ok parsed => exact service_finish_eq codes parsed

/-- With a truthy validation code the service throws exactly the error records of the
return-value parser and returns exactly its descriptors. -/
theorem service_parseReqline_eq (H : Host) (codes : ErrorCodes)
    (hcode : codes.VALIDATION_ERROR ≠ []) (s : Str) :
    Service.parseReqline H codes s = (parseReqline H s).mapError (asThrown codes) := by
  unfold Service.parseReqline
  rw [service_tryBlock_eq]
  cases parseReqline H s with
  | ok d => rfl
  | error msg =>
    have : (!(asThrown codes msg).code.isEmpty) = true := by
      simp [asThrown, hcode]
    simp only [Except.mapError]
    rw [if_pos this]

/-! ## The shape of what `parsePart` returns -/

theorem parsePart_trim (H : Host) (t : Str) (i : Nat) :
    parsePart H (trim t) i = parsePart H t i := by
  unfold parsePart
  rw [trim_trim]

theorem parseHttpSection_error (H : Host) (v msg : Str) (i : Nat) (hv : trim v ≠ [])
    (h : parseHttpSection H v i = .error msg) :
    (msg = HTTP_MUST_BE_FIRST ∧ i ≠ 0) ∨
    (msg = HTTP_METHOD_MUST_BE_UPPERCASE ∧ i = 0 ∧ trim v ≠ H.toUpperCase (trim v)) := by
  unfold parseHttpSection at h
  by_cases h0 : i ≠ 0
  · rw [if_pos h0] at h
    exact Or.inl ⟨(PartResult.error.inj h).symm, h0⟩
  · rw [if_neg h0] at h
    have h1 : ¬ (trim v).isEmpty = true := by
      intro e; exact hv (List.isEmpty_iff.mp e)
    rw [if_neg h1] at h
    by_cases h2 : trim v ≠ H.toUpperCase (trim v)
    · rw [if_pos h2] at h
      exact Or.inr ⟨(PartResult.error.inj h).symm, by omega, h2⟩
    · rw [if_neg h2] at h
      cases h

theorem parseUrlSection_error (v msg : Str) (i : Nat) (hv : trim v ≠ [])
    (h : parseUrlSection v i = .error msg) :
    (msg = URL_MUST_BE_SECOND ∧ i ≠ 1) ∨ (msg = INVALID_URL_FORMAT ∧ i = 1) := by
  unfold parseUrlSection at h
  by_cases h0 : i ≠ 1
  · rw [if_pos h0] at h
    exact Or.inl ⟨(PartResult.error.inj h).symm, h0⟩
  · rw [if_neg h0] at h
    have h1 : ¬ (trim v).isEmpty = true := by
      intro e; exact hv (List.isEmpty_iff.mp e)
    rw [if_neg h1] at h
    by_cases h2 : (!startsWith (trim v) "http://".toList &&
        !startsWith (trim v) "https://".toList) = true
    · rw [if_pos h2] at h
      exact Or.inr ⟨(PartResult.error.inj h).symm, by omega⟩
    · rw [if_neg h2] at h
      cases h

theorem parseJsonSection_error (H : Host) (v msg : Str) (sec : Section) (i : Nat)
    (h : parseJsonSection H v sec i = .error msg) : msg = invalidJson H sec := by
  unfold parseJsonSection at h
  cases hj : H.jsonParse v with
  | none =>
    rw [hj] at h
    exact (PartResult.error.inj h).symm
  | some j =>
    rw [hj] at h
    simp only at h
    by_cases hc : (decide (j.typeOf ≠ "object".toList) || j.isNull) = true
    · rw [if_pos hc] at h
      exact (PartResult.error.inj h).symm
    · rw [if_neg hc] at h
      cases h

/-- What `parsePart` does with a part: either the trimmed part starts with no keyword and a
space, and the result is one of the two errors of that case; or it starts with one, the
trimmed text after it is not blank, and the result is the keyword-case error or what the
section parser of that keyword returns. -/
theorem parsePart_shape (H : Host) (t : Str) (i : Nat) :
    ((∀ kw ∈ REQUIRED_KEYWORDS ++ OPTIONAL_KEYWORDS,
        startsWith (trim t) (kw ++ " ".toList) = false) ∧
      parsePart H t i =
        if includes (trim t) "  ".toList then .error MULTIPLE_SPACES
        else .error KEYWORDS_MUST_BE_UPPERCASE) ∨
    (∃ v, trim t = "HTTP ".toList ++ v ∧ trim v ≠ [] ∧
      (parsePart H t i = .error KEYWORDS_MUST_BE_UPPERCASE ∨
        parsePart H t i = parseHttpSection H (trim v) i)) ∨
    (∃ v, trim t = "URL ".toList ++ v ∧ trim v ≠ [] ∧
      (parsePart H t i = .error KEYWORDS_MUST_BE_UPPERCASE ∨
        parsePart H t i = parseUrlSection (trim v) i)) ∨
    (∃ sec v, trim t = sec.keyword ++ ' ' :: v ∧ trim v ≠ [] ∧
      (parsePart H t i = .error KEYWORDS_MUST_BE_UPPERCASE ∨
        parsePart H t i = parseJsonSection H (trim v) sec i)) := by
  have hdef : parsePart H t i =
      match (REQUIRED_KEYWORDS ++ OPTIONAL_KEYWORDS).find?
        (fun keyword => startsWith (trim t) (keyword ++ " ".toList)) with
      | some keyword => parseKeywordSection H (trim t) keyword i
      | none =>
        if includes (trim t) "  ".toList then .error MULTIPLE_SPACES
        else .error KEYWORDS_MUST_BE_UPPERCASE := rfl
  cases hf : (REQUIRED_KEYWORDS ++ OPTIONAL_KEYWORDS).find?
      (fun keyword => startsWith (trim t) (keyword ++ " ".toList)) with
  | none =>
    left
    refine ⟨?_, by rw [hdef, hf]⟩
    intro kw hkw
    have := List.find?_eq_none.mp hf kw hkw
    simpa using this
  | some kw =>
    right
    have hmem := List.mem_of_find?_eq_some hf
    have hpre : startsWith (trim t) (kw ++ " ".toList) = true := by
      have := List.find?_some hf
      exact this
    obtain ⟨v, hv⟩ := List.isPrefixOf_iff_prefix.mp hpre
    have hv2 : trim t = kw ++ ' ' :: v := by
      rw [← hv]; simp
    have hnb : trim v ≠ [] := value_not_blank kw v (by rw [← hv2]; exact trim_trim t)
    have hval : trim (substring (trim t) (kw.length + 1)) = trim v := by
      rw [hv2]
      unfold substring
      congr 1
      have : kw ++ ' ' :: v = (kw ++ [' ']) ++ v := by simp
      rw [this, List.drop_left' (by simp)]
    have hk : parsePart H t i = parseKeywordSection H (trim t) kw i := by rw [hdef, hf]
    by_cases hup : kw ≠ H.toUpperCase kw
    · have e : parsePart H t i = .error KEYWORDS_MUST_BE_UPPERCASE := by
        rw [hk]; unfold parseKeywordSection; rw [if_pos hup]
      simp only [REQUIRED_KEYWORDS, OPTIONAL_KEYWORDS, List.cons_append, List.nil_append,
        List.mem_cons, List.mem_singleton, List.not_mem_nil, or_false] at hmem
      rcases hmem with rfl | rfl | rfl | rfl | rfl
      · exact Or.inl ⟨v, hv2, hnb, Or.inl e⟩
      · exact Or.inr (Or.inl ⟨v, hv2, hnb, Or.inl e⟩)
      · exact Or.inr (Or.inr ⟨.headers, v, hv2, hnb, Or.inl e⟩)
      · exact Or.inr (Or.inr ⟨.query, v, hv2, hnb, Or.inl e⟩)
      · exact Or.inr (Or.inr ⟨.body, v, hv2, hnb, Or.inl e⟩)
    · have e : parsePart H t i =
          (if kw = "HTTP".toList then parseHttpSection H (trim v) i
          else if kw = "URL".toList then parseUrlSection (trim v) i
          else if kw = "HEADERS".toList then parseJsonSection H (trim v) .headers i
          else if kw = "QUERY".toList then parseJsonSection H (trim v) .query i
          else if kw = "BODY".toList then parseJsonSection H (trim v) .body i
          else .error ("Unknown keyword: ".toList ++ kw)) := by
        rw [hk]
        unfold parseKeywordSection
        rw [if_neg hup, if_neg (by rw [hpre]; decide)]
        simp only [hval]
        rw [if_neg (by intro e; exact hnb (List.isEmpty_iff.mp e))]
      simp only [REQUIRED_KEYWORDS, OPTIONAL_KEYWORDS, List.cons_append, List.nil_append,
        List.mem_cons, List.mem_singleton, List.not_mem_nil, or_false] at hmem
      rcases hmem with rfl | rfl | rfl | rfl | rfl
      · exact Or.inl ⟨v, hv2, hnb, Or.inr e⟩
      · exact Or.inr (Or.inl ⟨v, hv2, hnb, Or.inr e⟩)
      · exact Or.inr (Or.inr ⟨.headers, v, hv2, hnb, Or.inr e⟩)
      · exact Or.inr (Or.inr ⟨.query, v, hv2, hnb, Or.inr e⟩)
      · exact Or.inr (Or.inr ⟨.body, v, hv2, hnb, Or.inr e⟩)

/-- Every error `parsePart` returns carries one of the messages of `partErrorMessages`. -/
theorem parsePart_error_mem (H : Host) (t msg : Str) (i : Nat)
    (h : parsePart H t i = .error msg) : msg ∈ partErrorMessages H := by
  unfold partErrorMessages
  rcases parsePart_shape H t i with ⟨_, e⟩ | ⟨v, _, hnb, e⟩ | ⟨v, _, hnb, e⟩ |
      ⟨sec, v, _, hnb, e⟩
  · rw [e] at h
    by_cases hi : includes (trim t) "  ".toList = true
    · rw [if_pos hi] at h
      rw [← PartResult.error.inj h]; simp
    · rw [if_neg hi] at h
      rw [← PartResult.error.inj h]; simp
  · rcases e with e | e
    · rw [e] at h; rw [← PartResult.error.inj h]; simp
    · rw [e] at h
      rcases parseHttpSection_error H (trim v) msg i (by rw [trim_trim]; exact hnb) h with
        ⟨rfl, _⟩ | ⟨rfl, _⟩ <;> simp
  · rcases e with e | e
    · rw [e] at h; rw [← PartResult.error.inj h]; simp
    · rw [e] at h
      rcases parseUrlSection_error (trim v) msg i (by rw [trim_trim]; exact hnb) h with
        ⟨rfl, _⟩ | ⟨rfl, _⟩ <;> simp
  · rcases e with e | e
    · rw [e] at h; rw [← PartResult.error.inj h]; simp
    · rw [e] at h
      have := parseJsonSection_error H (trim v) msg sec i h
      cases sec <;> simp [this]

/-- The loop stops with an error exactly at the first non-blank part that `parsePart`
rejects, and with the error of that part. -/
theorem parseParts_error_iff (H : Host) (ps : List Str) :
    ∀ (i : Nat) (parsed : Parsed) (msg : Str),
      parseParts H i ps parsed = .error msg ↔
        ∃ k p, ps[k]? = some p ∧ trim p ≠ [] ∧ parsePart H (trim p) (i + k) = .error msg ∧
          ∀ j q, j < k → ps[j]? = some q → trim q ≠ [] →
            ∀ m, parsePart H (trim q) (i + j) ≠ .error m := by
  induction ps with
  | nil =>
    intro i parsed msg
    rw [parseParts_nil]
    constructor
    · intro h; cases h
    · rintro ⟨k, p, hk, _⟩; simp at hk
  | cons a ps ih =>
    intro i parsed msg
    have shift : ∀ (parsed2 : Parsed),
        (parseParts H (i + 1) ps parsed2 = .error msg ↔
          ∃ k p, ps[k]? = some p ∧ trim p ≠ [] ∧
            parsePart H (trim p) (i + (k + 1)) = .error msg ∧
            ∀ j q, j < k → ps[j]? = some q → trim q ≠ [] →
              ∀ m, parsePart H (trim q) (i + (j + 1)) ≠ .error m) := by
      intro parsed2
      rw [ih (i + 1) parsed2 msg]
      constructor
      · rintro ⟨k, p, h1, h2, h3, h4⟩
        refine ⟨k, p, h1, h2, ?_, ?_⟩
        · rw [show i + (k + 1) = i + 1 + k by omega]; exact h3
        · intro j q hj hq hb m
          rw [show i + (j + 1) = i + 1 + j by omega]; exact h4 j q hj hq hb m
      · rintro ⟨k, p, h1, h2, h3, h4⟩
        refine ⟨k, p, h1, h2, ?_, ?_⟩
        · rw [show i + 1 + k = i + (k + 1) by omega]; exact h3
        · intro j q hj hq hb m
          rw [show i + 1 + j = i + (j + 1) by omega]; exact h4 j q hj hq hb m
    -- a later part is reached only when the head is blank or accepted
    have later : ∀ (parsed2 : Parsed),
        (trim a = [] ∨ ∀ m, parsePart H (trim a) i ≠ .error m) →
        (parseParts H (i + 1) ps parsed2 = .error msg ↔
          ∃ k p, (a :: ps)[k]? = some p ∧ trim p ≠ [] ∧
            parsePart H (trim p) (i + k) = .error msg ∧
            ∀ j q, j < k → (a :: ps)[j]? = some q → trim q ≠ [] →
              ∀ m, parsePart H (trim q) (i + j) ≠ .error m) := by
      intro parsed2 hhead
      rw [shift parsed2]
      constructor
      · rintro ⟨k, p, h1, h2, h3, h4⟩
        refine ⟨k + 1, p, by simpa using h1, h2, h3, ?_⟩
        intro j q hj hq hb m
        cases j with
        | zero =>
          simp at hq
          subst hq
          rcases hhead with hh | hh
          · exact absurd hh hb
          · exact hh m
        | succ j =>
          simp at hq
          exact h4 j q (by omega) hq hb m
      · rintro ⟨k, p, h1, h2, h3, h4⟩
        cases k with
        | zero =>
          simp at h1
          subst h1
          rcases hhead with hh | hh
          · exact absurd hh h2
          · exact absurd h3 (hh msg)
        | succ k =>
          refine ⟨k, p, by simpa using h1, h2, h3, ?_⟩
          intro j q hj hq hb m
          exact h4 (j + 1) q (by omega) (by simpa using hq) hb m
    by_cases hb : trim a = []
    · rw [parseParts_blank H i a ps parsed hb]
      exact later parsed (Or.inl hb)
    · cases hr : parsePart H (trim a) i with
      | error m0 =>
        rw [parseParts_error H i a ps parsed m0 hb hr]
        constructor
        · intro h
          have e : m0 = msg := Except.error.inj h
          subst e
          exact ⟨0, a, by simp, hb, by simpa using hr, by intro j q hj; omega⟩
        · rintro ⟨k, p, h1, h2, h3, h4⟩
          cases k with
          | zero =>
            simp at h1
            subst h1
            rw [Nat.add_zero, hr] at h3
            rw [PartResult.error.inj h3]
          | succ k =>
            exact absurd (by simpa using hr) (h4 0 a (by omega) (by simp) hb m0)
      | method m0 =>
        rw [parseParts_method H i a ps parsed m0 hb hr]
        exact later _ (Or.inr (by rw [hr]; intro m h; cases h))
      | url u0 =>
        rw [parseParts_url H i a ps parsed u0 hb hr]
        exact later _ (Or.inr (by rw [hr]; intro m h; cases h))
      | json sec v0 =>
        rw [parseParts_json H i a ps parsed sec v0 hb hr]
        exact later _ (Or.inr (by rw [hr]; intro m h; cases h))

/-- When the loop ends without an error, every non-blank part was accepted. -/
theorem parseParts_ok_all (H : Host) (ps : List Str) (i : Nat) (parsed out : Parsed)
    (h : parseParts H i ps parsed = .ok out) (k : Nat) (p : Str) (hk : ps[k]? = some p)
    (hb : trim p ≠ []) : ∀ m, parsePart H (trim p) (i + k) ≠ .error m := by
  intro m hm
  -- take the first rejected part: the loop would stop there
  have hex : ∃ k p, ps[k]? = some p ∧ trim p ≠ [] ∧ ∃ m, parsePart H (trim p) (i + k) = .error m :=
    ⟨k, p, hk, hb, m, hm⟩
  classical
  let P : Nat → Prop := fun k =>
    ∃ p, ps[k]? = some p ∧ trim p ≠ [] ∧ ∃ m, parsePart H (trim p) (i + k) = .error m
  have hP : ∃ k, P k := by
    obtain ⟨k, p, h1, h2, h3⟩ := hex
    exact ⟨k, p, h1, h2, h3⟩
  obtain ⟨p0, h1, h2, m0, h3⟩ := Nat.find_spec hP
  have hmin : ∀ j q, j < Nat.find hP → ps[j]? = some q → trim q ≠ [] →
      ∀ m, parsePart H (trim q) (i + j) ≠ .error m := by
    intro j q hj hq hqb m1 hm1
    exact Nat.find_min hP hj ⟨q, hq, hqb, m1, hm1⟩
  have herr := (parseParts_error_iff H ps i parsed m0).mpr ⟨Nat.find hP, p0, h1, h2, h3, hmin⟩
  rw [h] at herr
  cases herr

theorem finish_error (parsed : Parsed) (msg : Str) (h : finish parsed = .error msg) :
    msg ∈ postLoopErrorMessages := by
  unfold postLoopErrorMessages
  unfold finish at h
  cases hm : parsed.method with
  | none => rw [hm] at h; rw [← Except.error.inj h]; simp
  | some m =>
    rw [hm] at h
    simp only at h
    by_cases h1 : m.isEmpty = true
    · rw [if_pos h1] at h; rw [← Except.error.inj h]; simp
    · rw [if_neg h1] at h
      cases hu : parsed.url with
      | none => rw [hu] at h; rw [← Except.error.inj h]; simp
      | some u =>
        rw [hu] at h
        simp only at h
        by_cases h2 : u.isEmpty = true
        · rw [if_pos h2] at h; rw [← Except.error.inj h]; simp
        · rw [if_neg h2] at h
          by_cases h3 : (!VALID_METHODS.contains m) = true
          · rw [if_pos h3] at h; rw [← Except.error.inj h]; simp
          · rw [if_neg h3] at h; cases h

/-- The places where `parseReqline` can fail, in the order of the checks. -/
theorem parseReqline_error_cases (H : Host) (s msg : Str)
    (h : parseReqline H s = .error msg) :
    (s = [] ∧ msg = INVALID_INPUT_FORMAT) ∨
    (s ≠ [] ∧ validatePipeSpacing s = false ∧ msg = INVALID_PIPE_SPACING) ∨
    (s ≠ [] ∧ validatePipeSpacing s = true ∧ (split '|' s).length < 2 ∧
      msg = MISSING_HTTP_KEYWORD) ∨
    (s ≠ [] ∧ validatePipeSpacing s = true ∧ 2 ≤ (split '|' s).length ∧
      parseParts H 0 (split '|' s) {} = .error msg) ∨
    (s ≠ [] ∧ validatePipeSpacing s = true ∧ 2 ≤ (split '|' s).length ∧
      ∃ parsed, parseParts H 0 (split '|' s) {} = .ok parsed ∧ finish parsed = .error msg) := by
  unfold parseReqline at h
  by_cases h1 : s.isEmpty = true
  · rw [if_pos h1] at h
    exact Or.inl ⟨List.isEmpty_iff.mp h1, (Except.error.inj h).symm⟩
  · rw [if_neg h1] at h
    have hne : s ≠ [] := fun e => h1 (by rw [e]; rfl)
    right
    cases hv : validatePipeSpacing s with
    | false =>
      rw [hv] at h
      rw [if_pos (by rfl)] at h
      exact Or.inl ⟨hne, rfl, (Except.error.inj h).symm⟩
    | true =>
      rw [hv] at h
      rw [if_neg (by decide)] at h
      simp only at h
      right
      by_cases h3 : (split '|' s).length < 2
      · rw [if_pos h3] at h
        exact Or.inl ⟨hne, rfl, h3, (Except.error.inj h).symm⟩
      · rw [if_neg h3] at h
        right
        cases hl : parseParts H 0 (split '|' s) {} with
        | error m0 =>
          rw [hl] at h
          have e : m0 = msg := Except.error.inj h
          subst e
          exact Or.inl ⟨hne, rfl, by omega, rfl⟩
        | ok parsed =>
          rw [hl] at h
          exact Or.inr ⟨hne, rfl, by omega, parsed, rfl, h⟩

/-- A statement that passes the pipe check and has at least two parts is handed to the
loop and then to the checks after the loop. -/
theorem parseReqline_loop (H : Host) (s : Str) (hv : validatePipeSpacing s = true)
    (hlen : 2 ≤ (split '|' s).length) :
    parseReqline H s =
      match parseParts H 0 (split '|' s) {} with
      | .error message => .error message
      | .ok parsed => finish parsed := by
  have hne : s.isEmpty = false := by
    cases s with
    | nil => simp [split] at hlen
    | cons c cs => rfl
  unfold parseReqline
  rw [if_neg (by rw [hne]; decide), if_neg (by rw [hv]; decide)]
  simp only
  rw [if_neg (by omega)]

/-- Every error of `parseReqline` carries a message of one of the two fixed lists. -/
theorem parseReqline_error_mem (H : Host) (s msg : Str)
    (h : parseReqline H s = .error msg) :
    msg ∈ statementErrorMessages ++ partErrorMessages H := by
  rw [List.mem_append]
  rcases parseReqline_error_cases H s msg h with ⟨_, rfl⟩ | ⟨_, _, rfl⟩ | ⟨_, _, _, rfl⟩ |
      ⟨_, _, _, hl⟩ | ⟨_, _, _, parsed, _, hf⟩
  · left; simp [statementErrorMessages]
  · left; simp [statementErrorMessages]
  · left; simp [statementErrorMessages]
  · right
    obtain ⟨k, p, _, _, hp, _⟩ := (parseParts_error_iff H _ 0 {} msg).mp hl
    exact parsePart_error_mem H _ msg _ hp
  · left
    have := finish_error parsed msg hf
    simp only [postLoopErrorMessages, List.mem_cons, List.mem_singleton, List.not_mem_nil,
      or_false] at this
    rcases this with rfl | rfl | rfl <;> simp [statementErrorMessages]

theorem partErrorMessages_catalog {H : Host} (hH : H.UpperAscii) :
    ∀ msg ∈ partErrorMessages H, msg ∈ ReqlineMessages.all := by
  intro msg hmsg
  unfold partErrorMessages at hmsg
  rw [invalidJson_keyword hH, invalidJson_keyword hH, invalidJson_keyword hH] at hmsg
  revert msg
  decide

theorem statementErrorMessages_catalog :
    ∀ msg ∈ statementErrorMessages, msg ∈ ReqlineMessages.all := by
  decide

theorem catalog_not_prefixed :
    ∀ msg ∈ ReqlineMessages.all,
      "Missing value for ".toList.isPrefixOf msg = false ∧
      "Unknown keyword: ".toList.isPrefixOf msg = false ∧
      "Parsing error: ".toList.isPrefixOf msg = false := by
  decide

theorem ne_of_not_isPrefixOf (pre msg : Str) (h : pre.isPrefixOf msg = false) (x : Str) :
    msg ≠ pre ++ x := by
  intro e
  have : pre.isPrefixOf msg = true :=
    List.isPrefixOf_iff_prefix.mpr ⟨x, e.symm⟩
  rw [h] at this
  cases this

/-- The message the service throws is the message of the return-value parser, or the
catalog's parsing error when the validation code is falsy. -/
theorem service_parseReqline_message (H : Host) (codes : ErrorCodes) (s : Str) (e : AppError)
    (h : Service.parseReqline H codes s = .error e) :
    parseReqline H s = .error e.message ∨
    ((∃ msg, parseReqline H s = .error msg) ∧ e.message = ReqlineMessages.PARSING_ERROR) := by
  unfold Service.parseReqline at h
  rw [service_tryBlock_eq] at h
  cases hp : parseReqline H s with
  | ok d => rw [hp] at h; cases h
  | error msg =>
    rw [hp] at h
    simp only [Except.mapError] at h
    by_cases hc : (!(asThrown codes msg).code.isEmpty) = true
    · rw [if_pos hc] at h
      have e2 : asThrown codes msg = e := Except.error.inj h
      left
      rw [← e2]; rfl
    · rw [if_neg hc] at h
      have e2 : ({ message := ReqlineMessages.PARSING_ERROR,
                   code := codes.VALIDATION_ERROR } : AppError) = e :=
        Except.error.inj h
      right
      exact ⟨⟨msg, rfl⟩, by rw [← e2]⟩

theorem partErrorMessages_not_postLoop (H : Host) :
    ∀ msg ∈ partErrorMessages H, msg ∉ postLoopErrorMessages := by
  intro msg hmsg
  simp only [partErrorMessages, List.mem_cons, List.mem_singleton, List.not_mem_nil,
    or_false] at hmsg
  rcases hmsg with rfl | rfl | rfl | rfl | rfl | rfl | rfl | rfl | rfl
  · decide
  · decide
  · decide
  · decide
  · decide
  · decide
  all_goals
    simp [postLoopErrorMessages, invalidJson, MISSING_HTTP_KEYWORD, MISSING_URL_KEYWORD,
      INVALID_HTTP_METHOD]

theorem trim_space_append (ws v : Str) (hws : ∀ c ∈ ws, isWhiteSpace c = true) :
    trim (ws ++ v) = trim v := by
  induction ws with
  | nil => rfl
  | cons c cs ih =>
    rw [List.cons_append, trim_cons_space c _ (hws c (List.mem_cons_self _ _))]
    exact ih (fun d hd => hws d (List.mem_cons_of_mem _ hd))

/-- The messages of the branches that no part can reach are not among the messages
`parsePart` returns. -/
theorem partErrorMessages_reachable (H : Host) :
    ∀ msg ∈ partErrorMessages H,
      msg ≠ MISSING_SPACE_AFTER_KEYWORD ∧ msg ≠ MISSING_HTTP_METHOD ∧
      msg ≠ MISSING_URL_VALUE ∧ "Missing value for ".toList.isPrefixOf msg = false ∧
      "Unknown keyword: ".toList.isPrefixOf msg = false ∧
      "Parsing error".toList.isPrefixOf msg = false := by
  intro msg hmsg
  simp only [partErrorMessages, List.mem_cons, List.mem_singleton, List.not_mem_nil,
    or_false] at hmsg
  rcases hmsg with rfl | rfl | rfl | rfl | rfl | rfl | rfl | rfl | rfl
  · decide
  · decide
  · decide
  · decide
  · decide
  · decide
  all_goals
    simp [invalidJson, MISSING_SPACE_AFTER_KEYWORD, MISSING_HTTP_METHOD, MISSING_URL_VALUE,
      List.isPrefixOf]

/-- A keyword followed by a space, white space and a value, where the keyword with one
space and the value is a trimmed part, is a trimmed part too. -/
theorem trim_keyword_spaces (kw ws v : Str)
    (hkw : kw ∈ REQUIRED_KEYWORDS ++ OPTIONAL_KEYWORDS)
    (ht : trim (kw ++ ' ' :: v) = kw ++ ' ' :: v) :
    trim (kw ++ ' ' :: (ws ++ v)) = kw ++ ' ' :: (ws ++ v) := by
  have hvne : v ≠ [] := by
    intro e
    have := value_not_blank kw v ht
    rw [e] at this
    exact this rfl
  have h1 := (trim_eq_self_iff _).mp ht
  rw [trim_eq_self_iff]
  constructor
  · intro c hc
    apply h1.1 c
    simp only [REQUIRED_KEYWORDS, OPTIONAL_KEYWORDS, List.cons_append, List.nil_append,
      List.mem_cons, List.mem_singleton, List.not_mem_nil, or_false] at hkw
    rcases hkw with rfl | rfl | rfl | rfl | rfl <;> exact hc
  · intro c hc
    apply h1.2 c
    have e1 : kw ++ ' ' :: (ws ++ v) = (kw ++ ' ' :: ws) ++ v := by simp
    have e2 : kw ++ ' ' :: v = (kw ++ [' ']) ++ v := by simp
    rw [e1, List.getLast?_append_of_ne_nil _ hvne] at hc
    rw [e2, List.getLast?_append_of_ne_nil _ hvne]
    exact hc

/-- A statement with a non-blank part that `parsePart` rejects is not accepted. -/
theorem not_ok_of_part_error (H : Host) (s : Str) (k : Nat) (p msg : Str)
    (hk : (split '|' s)[k]? = some p) (hb : trim p ≠ [])
    (hp : parsePart H (trim p) k = .error msg) : ∀ d, parseReqline H s ≠ .ok d := by
  intro d h
  obtain ⟨parsed, hloop, _⟩ := parseReqline_ok H s d h
  have := parseParts_ok_all H _ 0 {} parsed hloop k p hk hb msg
  rw [Nat.zero_add] at this
  exact this hp

theorem two_le_of_getElem?_succ {α : Type} (l : List α) (k : Nat) (p : α) (hk0 : k ≠ 0)
    (hk : l[k]? = some p) : 2 ≤ l.length := by
  have := (List.getElem?_eq_some.mp hk).1
  omega

/-! ## Facts about the executor -/

/-- What the `try` block has built when it reaches the transport call. -/
theorem buildConfig_ok (H : Host) (R : Runtime) (parsed : Descriptor) (fullUrl : Str)
    (config : RequestConfig) (h : buildConfig H R parsed = .ok (fullUrl, config)) :
    constructFullUrl H parsed.url (some parsed.query) = some fullUrl ∧
    config.url = fullUrl ∧ config.method = R.toLowerCase parsed.method ∧
    config.headers = parsed.headers ∧ config.timeout = 10000 ∧
    ((parsed.method = "POST".toList ∧ parsed.body.isNull = false ∧
        0 < parsed.body.keys.length ∧ config.data = some parsed.body) ∨
      (¬ (parsed.method = "POST".toList ∧ 0 < parsed.body.keys.length) ∧
        config.data = none)) := by
  unfold buildConfig at h
  cases hu : constructFullUrl H parsed.url (some parsed.query) with
  | none => rw [hu] at h; cases h
  | some u =>
    rw [hu] at h
    simp only at h
    by_cases hm : parsed.method = "POST".toList
    · rw [if_pos hm] at h
      unfold objectKeys at h
      cases hn : parsed.body.isNull with
      | true =>
        rw [hn] at h
        simp at h
      | false =>
        rw [hn] at h
        simp only [Bool.false_eq_true, if_false] at h
        by_cases hl : parsed.body.keys.length > 0
        · rw [if_pos hl] at h
          have e := Except.ok.inj h
          have e1 : u = fullUrl := congrArg Prod.fst e
          have e2 := congrArg Prod.snd e
          simp only at e2
          subst e1
          rw [← e2]
          exact ⟨rfl, rfl, rfl, rfl, rfl, Or.inl ⟨hm, rfl, hl, rfl⟩⟩
        · rw [if_neg hl] at h
          have e := Except.ok.inj h
          have e1 : u = fullUrl := congrArg Prod.fst e
          have e2 := congrArg Prod.snd e
          simp only at e2
          subst e1
          rw [← e2]
          exact ⟨rfl, rfl, rfl, rfl, rfl, Or.inr ⟨fun hh => hl hh.2, rfl⟩⟩
    · rw [if_neg hm] at h
      have e := Except.ok.inj h
      have e1 : u = fullUrl := congrArg Prod.fst e
      have e2 := congrArg Prod.snd e
      simp only at e2
      subst e1
      rw [← e2]
      exact ⟨rfl, rfl, rfl, rfl, rfl, Or.inr ⟨fun hh => hm hh.1, rfl⟩⟩

/-! ## Accepted statements -/

/-- An accepted part that starts, once trimmed, with `HTTP ` stands at index 0 and gives the
method. -/
theorem accepted_http_part (H : Host) (t : Str) (i : Nat)
    (hpre : startsWith (trim t) "HTTP ".toList = true)
    (hok : ∀ m, parsePart H t i ≠ .error m) :
    i = 0 ∧ ∃ m, parsePart H t i = .method m := by
  obtain ⟨v, hv⟩ := List.isPrefixOf_iff_prefix.mp hpre
  rcases parsePart_cases H t i with ⟨msg, e⟩ | ⟨_, e⟩ | ⟨h2, _⟩ | ⟨h2, _⟩ | ⟨h2, _⟩ | ⟨h2, _⟩
  · exact absurd e (hok msg)
  · rcases parseHttpSection_cases H (trim ((trim t).drop 5)) i with ⟨msg, e2⟩ | ⟨e2, h0, _⟩
    · rw [e2] at e; exact absurd e (hok msg)
    · exact ⟨h0, _, e.trans e2⟩
  all_goals
    rw [← hv] at h2
    simp [startsWith, List.isPrefixOf] at h2

/-- An accepted part that starts, once trimmed, with `URL ` stands at index 1 and gives the
url. -/
theorem accepted_url_part (H : Host) (t : Str) (i : Nat)
    (hpre : startsWith (trim t) "URL ".toList = true)
    (hok : ∀ m, parsePart H t i ≠ .error m) :
    i = 1 ∧ ∃ u, parsePart H t i = .url u := by
  obtain ⟨v, hv⟩ := List.isPrefixOf_iff_prefix.mp hpre
  rcases parsePart_cases H t i with ⟨msg, e⟩ | ⟨h2, _⟩ | ⟨_, e⟩ | ⟨h2, _⟩ | ⟨h2, _⟩ | ⟨h2, _⟩
  · exact absurd e (hok msg)
  · rw [← hv] at h2
    simp [startsWith, List.isPrefixOf] at h2
  · rcases parseUrlSection_cases (trim ((trim t).drop 4)) i with ⟨msg, e2⟩ | ⟨e2, h0, _⟩
    · rw [e2] at e; exact absurd e (hok msg)
    · exact ⟨h0, _, e.trans e2⟩
  all_goals
    rw [← hv] at h2
    simp [startsWith, List.isPrefixOf] at h2

/-- An accepted part that starts, once trimmed, with the keyword of a section gives the
value of that section. -/
theorem accepted_section_part (H : Host) (t : Str) (i : Nat) (sec : Section)
    (hpre : startsWith (trim t) (sec.keyword ++ " ".toList) = true)
    (hok : ∀ m, parsePart H t i ≠ .error m) :
    ∃ j, parsePart H t i = .json sec j := by
  obtain ⟨v, hv⟩ := List.isPrefixOf_iff_prefix.mp hpre
  rcases parsePart_cases H t i with ⟨msg, e⟩ | ⟨h2, _⟩ | ⟨h2, _⟩ | ⟨h2, e⟩ | ⟨h2, e⟩ | ⟨h2, e⟩
  · exact absurd e (hok msg)
  · rw [← hv] at h2
    cases sec <;> simp [startsWith, List.isPrefixOf, Section.keyword] at h2
  · rw [← hv] at h2
    cases sec <;> simp [startsWith, List.isPrefixOf, Section.keyword] at h2
  · rcases parseJsonSection_cases H (trim ((trim t).drop 8)) .headers i with
      ⟨msg, e2⟩ | ⟨j, e2, _⟩
    · rw [e2] at e; exact absurd e (hok msg)
    · rw [← hv] at h2
      cases sec
      · exact ⟨j, e.trans e2⟩
      · simp [startsWith, List.isPrefixOf, Section.keyword] at h2
      · simp [startsWith, List.isPrefixOf, Section.keyword] at h2
  · rcases parseJsonSection_cases H (trim ((trim t).drop 6)) .query i with
      ⟨msg, e2⟩ | ⟨j, e2, _⟩
    · rw [e2] at e; exact absurd e (hok msg)
    · rw [← hv] at h2
      cases sec
      · simp [startsWith, List.isPrefixOf, Section.keyword] at h2
      · exact ⟨j, e.trans e2⟩
      · simp [startsWith, List.isPrefixOf, Section.keyword] at h2
  · rcases parseJsonSection_cases H (trim ((trim t).drop 5)) .body i with
      ⟨msg, e2⟩ | ⟨j, e2, _⟩
    · rw [e2] at e; exact absurd e (hok msg)
    · rw [← hv] at h2
      cases sec
      · simp [startsWith, List.isPrefixOf, Section.keyword] at h2
      · simp [startsWith, List.isPrefixOf, Section.keyword] at h2
      · exact ⟨j, e.trans e2⟩

/-- A part that gives the method starts, once trimmed, with `HTTP ` and stands at index 0. -/
theorem parsePart_method_inv (H : Host) (t m : Str) (i : Nat)
    (h : parsePart H t i = .method m) :
    startsWith (trim t) "HTTP ".toList = true ∧ i = 0 := by
  rcases parsePart_cases H t i with ⟨msg, e⟩ | ⟨hp, e⟩ | ⟨_, e⟩ | ⟨_, e⟩ | ⟨_, e⟩ | ⟨_, e⟩
  · rw [e] at h; cases h
  · rw [e] at h
    rcases parseHttpSection_cases H (trim ((trim t).drop 5)) i with ⟨msg, e2⟩ | ⟨_, h0, _⟩
    · rw [e2] at h; cases h
    · exact ⟨hp, h0⟩
  · rw [e] at h
    rcases parseUrlSection_cases (trim ((trim t).drop 4)) i with ⟨msg, e2⟩ | ⟨e2, _⟩ <;>
      (rw [e2] at h; cases h)
  · rw [e] at h
    rcases parseJsonSection_cases H (trim ((trim t).drop 8)) .headers i with
      ⟨msg, e2⟩ | ⟨j, e2, _⟩ <;> (rw [e2] at h; cases h)
  · rw [e] at h
    rcases parseJsonSection_cases H (trim ((trim t).drop 6)) .query i with
      ⟨msg, e2⟩ | ⟨j, e2, _⟩ <;> (rw [e2] at h; cases h)
  · rw [e] at h
    rcases parseJsonSection_cases H (trim ((trim t).drop 5)) .body i with
      ⟨msg, e2⟩ | ⟨j, e2, _⟩ <;> (rw [e2] at h; cases h)

/-- A part that gives the url starts, once trimmed, with `URL ` and stands at index 1. -/
theorem parsePart_url_source (H : Host) (t u : Str) (i : Nat)
    (h : parsePart H t i = .url u) :
    startsWith (trim t) "URL ".toList = true ∧ i = 1 := by
  rcases parsePart_cases H t i with ⟨msg, e⟩ | ⟨_, e⟩ | ⟨hp, e⟩ | ⟨_, e⟩ | ⟨_, e⟩ | ⟨_, e⟩
  · rw [e] at h; cases h
  · rw [e] at h
    rcases parseHttpSection_cases H (trim ((trim t).drop 5)) i with ⟨msg, e2⟩ | ⟨e2, _⟩ <;>
      (rw [e2] at h; cases h)
  · rw [e] at h
    rcases parseUrlSection_cases (trim ((trim t).drop 4)) i with ⟨msg, e2⟩ | ⟨_, h0, _⟩
    · rw [e2] at h; cases h
    · exact ⟨hp, h0⟩
  · rw [e] at h
    rcases parseJsonSection_cases H (trim ((trim t).drop 8)) .headers i with
      ⟨msg, e2⟩ | ⟨j, e2, _⟩ <;> (rw [e2] at h; cases h)
  · rw [e] at h
    rcases parseJsonSection_cases H (trim ((trim t).drop 6)) .query i with
      ⟨msg, e2⟩ | ⟨j, e2, _⟩ <;> (rw [e2] at h; cases h)
  · rw [e] at h
    rcases parseJsonSection_cases H (trim ((trim t).drop 5)) .body i with
      ⟨msg, e2⟩ | ⟨j, e2, _⟩ <;> (rw [e2] at h; cases h)

/-- The method and the url the loop ends with were there before or come from a part. -/
theorem parseParts_sources (H : Host) (ps : List Str) :
    ∀ (i : Nat) (parsed out : Parsed), parseParts H i ps parsed = .ok out →
      (∀ m, out.method = some m → parsed.method = some m ∨
        ∃ k p, ps[k]? = some p ∧ parsePart H (trim p) (i + k) = .method m) ∧
      (∀ u, out.url = some u → parsed.url = some u ∨
        ∃ k p, ps[k]? = some p ∧ parsePart H (trim p) (i + k) = .url u) := by
  induction ps with
  | nil =>
    intro i parsed out h
    rw [parseParts_nil] at h
    cases h
    exact ⟨fun m hm => Or.inl hm, fun u hu => Or.inl hu⟩
  | cons a ps ih =>
    intro i parsed out h
    have lift : ∀ (parsed2 : Parsed), parseParts H (i + 1) ps parsed2 = .ok out →
        (∀ m, out.method = some m → parsed2.method = some m ∨
          ∃ k p, (a :: ps)[k]? = some p ∧ parsePart H (trim p) (i + k) = .method m) ∧
        (∀ u, out.url = some u → parsed2.url = some u ∨
          ∃ k p, (a :: ps)[k]? = some p ∧ parsePart H (trim p) (i + k) = .url u) := by
      intro parsed2 h2
      obtain ⟨h3, h4⟩ := ih (i + 1) parsed2 out h2
      constructor
      · intro m hm
        rcases h3 m hm with h5 | ⟨k, p, hk, hp⟩
        · exact Or.inl h5
        · exact Or.inr ⟨k + 1, p, by simpa using hk,
            by rw [show i + (k + 1) = i + 1 + k by omega]; exact hp⟩
      · intro u hu
        rcases h4 u hu with h5 | ⟨k, p, hk, hp⟩
        · exact Or.inl h5
        · exact Or.inr ⟨k + 1, p, by simpa using hk,
            by rw [show i + (k + 1) = i + 1 + k by omega]; exact hp⟩
    by_cases hb : trim a = []
    · rw [parseParts_blank H i a ps parsed hb] at h
      exact lift parsed h
    · cases hr : parsePart H (trim a) i with
      | error m0 =>
        rw [parseParts_error H i a ps parsed m0 hb hr] at h
        cases h
      | method m0 =>
        rw [parseParts_method H i a ps parsed m0 hb hr] at h
        obtain ⟨h3, h4⟩ := lift _ h
        constructor
        · intro m hm
          rcases h3 m hm with h5 | h5
          · have e : m0 = m := Option.some.inj h5
            subst e
            exact Or.inr ⟨0, a, by simp, by simpa using hr⟩
          · exact Or.inr h5
        · exact h4
      | url u0 =>
        rw [parseParts_url H i a ps parsed u0 hb hr] at h
        obtain ⟨h3, h4⟩ := lift _ h
        constructor
        · exact h3
        · intro u hu
          rcases h4 u hu with h5 | h5
          · have e : u0 = u := Option.some.inj h5
            subst e
            exact Or.inr ⟨0, a, by simp, by simpa using hr⟩
          · exact Or.inr h5
      | json sec v0 =>
        rw [parseParts_json H i a ps parsed sec v0 hb hr] at h
        obtain ⟨h3, h4⟩ := lift _ h
        cases sec <;> exact ⟨h3, h4⟩

/-- An accepted statement has at least two parts. -/
theorem parseReqline_ok_length (H : Host) (s : Str) (d : Descriptor)
    (h : parseReqline H s = .ok d) : 2 ≤ (split '|' s).length := by
  unfold parseReqline at h
  by_cases h1 : s.isEmpty = true
  · rw [if_pos h1] at h; cases h
  · rw [if_neg h1] at h
    by_cases h2 : (!validatePipeSpacing s) = true
    · rw [if_pos h2] at h; cases h
    · rw [if_neg h2] at h
      simp only at h
      by_cases h3 : (split '|' s).length < 2
      · rw [if_pos h3] at h; cases h
      · omega

theorem assign_field_same (parsed : Parsed) (sec : Section) (v : Json) :
    (parsed.assign (.json sec v)).field sec = some v := by
  cases sec <;> rfl

/-- Once a section is recorded, parts that do not start with its keyword leave it alone. -/
theorem parseParts_keeps_section (H : Host) (sec : Section) (v : Json) (ps : List Str)
    (hno : ∀ q ∈ ps, startsWith (trim q) (sec.keyword ++ " ".toList) = false)
    (i : Nat) (parsed out : Parsed) (hP : parsed.field sec = some v)
    (h : parseParts H i ps parsed = .ok out) : out.field sec = some v := by
  refine parseParts_invariant H (fun q => q.field sec = some v) ps ?_ i parsed out hP h
  intro p hp q k hq _ hne
  cases hr : parsePart H (trim p) k with
  | error msg => exact absurd hr (hne msg)
  | method m => cases sec <;> exact hq
  | url u => cases sec <;> exact hq
  | json sec2 v2 =>
    have h3 := (parsePart_json_inv H (trim p) k sec2 v2 hr).2.2
    have hnp := hno p hp
    cases sec2 <;> cases sec <;>
      first
      | exact hq
      | (exfalso
         have h4 := h3.1
         rw [trim_trim] at h4
         exact Bool.noConfusion (h4.symm.trans hnp))

/-- The section recorded when the loop ends is the value of the last part that starts with
its keyword. -/
theorem parseParts_last_section (H : Host) (sec : Section) (ps : List Str) :
    ∀ (i : Nat) (parsed out : Parsed) (k : Nat) (p : Str),
      parseParts H i ps parsed = .ok out → ps[k]? = some p →
      startsWith (trim p) (sec.keyword ++ " ".toList) = true →
      (∀ j q, k < j → ps[j]? = some q →
        startsWith (trim q) (sec.keyword ++ " ".toList) = false) →
      ∃ v, out.field sec = some v ∧ parsePart H (trim p) (i + k) = .json sec v := by
  induction ps with
  | nil => intro i parsed out k p _ hk; simp at hk
  | cons a ps ih =>
    intro i parsed out k p h hk hpre hlast
    cases k with
    | zero =>
      simp at hk
      subst hk
      have hb : trim a ≠ [] := by
        intro e
        rw [e] at hpre
        cases sec <;> simp [startsWith, List.isPrefixOf, Section.keyword] at hpre
      have hok : ∀ m, parsePart H (trim a) i ≠ .error m := by
        intro m hm
        rw [parseParts_error H i a ps parsed m hb hm] at h
        cases h
      obtain ⟨v, hv⟩ := accepted_section_part H (trim a) i sec
        (by rw [trim_trim]; exact hpre) hok
      rw [parseParts_json H i a ps parsed sec v hb hv] at h
      refine ⟨v, ?_, by simpa using hv⟩
      refine parseParts_keeps_section H sec v ps ?_ (i + 1) _ out (assign_field_same _ _ _) h
      intro q hq
      obtain ⟨j, hj⟩ := List.mem_iff_getElem?.mp hq
      exact hlast (j + 1) q (by omega) (by simpa using hj)
    | succ k =>
      have hk2 : ps[k]? = some p := by simpa using hk
      have hlast2 : ∀ j q, k < j → ps[j]? = some q →
          startsWith (trim q) (sec.keyword ++ " ".toList) = false := by
        intro j q hj hq
        exact hlast (j + 1) q (by omega) (by simpa using hq)
      have step : ∀ parsed2, parseParts H (i + 1) ps parsed2 = .ok out →
          ∃ v, out.field sec = some v ∧ parsePart H (trim p) (i + (k + 1)) = .json sec v := by
        intro parsed2 h2
        obtain ⟨v, h3, h4⟩ := ih (i + 1) parsed2 out k p h2 hk2 hpre hlast2
        exact ⟨v, h3, by rw [show i + (k + 1) = i + 1 + k by omega]; exact h4⟩
      by_cases hb : trim a = []
      · rw [parseParts_blank H i a ps parsed hb] at h
        exact step _ h
      · cases hr : parsePart H (trim a) i with
        | error m0 =>
          rw [parseParts_error H i a ps parsed m0 hb hr] at h
          cases h
        | method m0 =>
          rw [parseParts_method H i a ps parsed m0 hb hr] at h
          exact step _ h
        | url u0 =>
          rw [parseParts_url H i a ps parsed u0 hb hr] at h
          exact step _ h
        | json sec2 v0 =>
          rw [parseParts_json H i a ps parsed sec2 v0 hb hr] at h
          exact step _ h

theorem finish_field (parsed : Parsed) (d : Descriptor) (sec : Section)
    (h : finish parsed = .ok d) : d.field sec = orEmpty (parsed.field sec) := by
  obtain ⟨_, _, _, _, _, hh, hq, hb⟩ := finish_ok parsed d h
  cases sec
  · exact hh
  · exact hq
  · exact hb

theorem truthy_of_typeOf_object (j : Json) (h1 : j.typeOf = "object".toList)
    (h2 : j.isNull = false) : j.truthy = true := by
  cases j with
  | null => cases h2
  | bool b => exact absurd h1 (by simp [Json.typeOf])
  | num m e => exact absurd h1 (by simp [Json.typeOf])
  | str s => exact absurd h1 (by simp [Json.typeOf])
  | arr items => rfl
  | obj props => rfl

theorem statementErrorMessages_reachable :
    ∀ msg ∈ statementErrorMessages,
      msg ≠ MISSING_SPACE_AFTER_KEYWORD ∧ msg ≠ MISSING_HTTP_METHOD ∧
      msg ≠ MISSING_URL_VALUE ∧ "Missing value for ".toList.isPrefixOf msg = false ∧
      "Unknown keyword: ".toList.isPrefixOf msg = false ∧
      "Parsing error".toList.isPrefixOf msg = false := by
  decide

/-! ## The claims -/

/-- C1: for a method `m` in {GET, POST} and a url `u` that starts with `http://` or
`https://`, holds no `|` and has no leading or trailing white space, parsing
`HTTP m | URL u` succeeds with method `m`, url `u` and empty headers, query and body. -/
theorem C1_method_and_url_statement (H : Host) (hH : H.UpperAscii) (m u : Str)
    (hm : m = "GET".toList ∨ m = "POST".toList)
    (hu : startsWith u "http://".toList = true ∨ startsWith u "https://".toList = true)
    (hpipe : '|' ∉ u) (htrim : trim u = u) :
    parseReqline H ("HTTP ".toList ++ m ++ " | URL ".toList ++ u) =
      .ok { method := m, url := u, headers := Json.empty, query := Json.empty,
            body := Json.empty } := by
  have hmne : m ≠ [] := by rcases hm with rfl | rfl <;> decide
  have hmws : ∀ c ∈ m, isWhiteSpace c = false := by rcases hm with rfl | rfl <;> decide
  have hmpipe : '|' ∉ m := by rcases hm with rfl | rfl <;> decide
  have hmup : H.toUpperCase m = m := by
    rcases hm with rfl | rfl
    · exact upper_GET hH
    · exact upper_POST hH
  have hune : u ≠ [] := by
    rintro rfl
    rcases hu with h | h <;> simp [startsWith, List.isPrefixOf] at h
  rw [parseReqline_two hH m u hmne hmws hmpipe hmup hu hpipe htrim]
  have hvalid : m ∈ VALID_METHODS := by
    rcases hm with rfl | rfl <;> decide
  simp [finish, hmne, hune, hvalid, Json.empty, orEmpty]

/-- The statement `HTTP GET | URL https://api.example.com` of C1. -/
theorem C1_method_and_url_statement_witness :
    parseReqline refHost "HTTP GET | URL https://api.example.com".toList =
      .ok { method := "GET".toList, url := "https://api.example.com".toList,
            headers := Json.obj [], query := Json.obj [], body := Json.obj [] } :=
  C1_method_and_url_statement refHost refHost_upperAscii "GET".toList
    "https://api.example.com".toList (Or.inl rfl) (Or.inr rfl) (by decide) (by decide)

/-- C2, counterexample: in `HTTP GET  |  URL https://api.example.com` the pipe stands
between two runs of two spaces, and the statement is accepted: the pipe-spacing error is
not reported. -/
theorem C2_two_spaces_around_pipe_accepted :
    "HTTP GET  |  URL https://api.example.com".toList[10]? = some '|' ∧
    "HTTP GET  |  URL https://api.example.com".toList[8]? = some ' ' ∧
    "HTTP GET  |  URL https://api.example.com".toList[9]? = some ' ' ∧
    "HTTP GET  |  URL https://api.example.com".toList[11]? = some ' ' ∧
    "HTTP GET  |  URL https://api.example.com".toList[12]? = some ' ' ∧
    parseReqline refHost "HTTP GET  |  URL https://api.example.com".toList =
      .ok { method := "GET".toList, url := "https://api.example.com".toList,
            headers := Json.obj [], query := Json.obj [], body := Json.obj [] } ∧
    parseReqline refHost "HTTP GET  |  URL https://api.example.com".toList ≠
      .error INVALID_PIPE_SPACING :=
  ⟨rfl, rfl, rfl, rfl, rfl, rfl, fun h => nomatch h⟩

/-- C2, amended: a statement in which some `|` has a neighbour on one side that is not a
space fails with the pipe-spacing error, whatever else it holds.  Only the one character
on each side of a pipe is looked at. -/
theorem C2_pipe_neighbour_not_space (H : Host) (s : Str) (i : Nat)
    (hi : s[i]? = some '|')
    (hbad : (0 < i ∧ s[i - 1]? ≠ some ' ') ∨ (i < s.length - 1 ∧ s[i + 1]? ≠ some ' ')) :
    parseReqline H s = .error INVALID_PIPE_SPACING := by
  have hne : s.isEmpty = false := by
    cases s with
    | nil => simp at hi
    | cons c cs => rfl
  have hv : validatePipeSpacing s = false := by
    cases hvs : validatePipeSpacing s with
    | false => rfl
    | true =>
      have h := (validatePipeSpacing_iff s).mp hvs i hi
      rcases hbad with ⟨h1, h2⟩ | ⟨h1, h2⟩
      · exact absurd (h.1 h1) h2
      · exact absurd (h.2 h1) h2
  simp [parseReqline, hne, hv]

/-- The statement `HTTP GET|URL https://api.example.com`, with no space around its pipe. -/
theorem C2_pipe_neighbour_not_space_witness :
    parseReqline refHost "HTTP GET|URL https://api.example.com".toList =
      .error INVALID_PIPE_SPACING :=
  C2_pipe_neighbour_not_space refHost "HTTP GET|URL https://api.example.com".toList 8 rfl
    (Or.inl ⟨by decide, by decide⟩)

/-- C3, counterexample: `URL https://api.example.com | HTTP GET` fails with
"URL keyword must be second", not with "HTTP keyword must be first". -/
theorem C3_url_first_example :
    parseReqline refHost "URL https://api.example.com | HTTP GET".toList =
      .error URL_MUST_BE_SECOND ∧
    parseReqline refHost "URL https://api.example.com | HTTP GET".toList ≠
      .error HTTP_MUST_BE_FIRST := by
  have e : parseReqline refHost "URL https://api.example.com | HTTP GET".toList =
      .error URL_MUST_BE_SECOND := rfl
  refine ⟨e, ?_⟩
  rw [e]
  intro h
  exact absurd (Except.error.inj h) (by decide)

/-- C3, amended: a statement that passes the pipe check and whose first part is a URL part
and second part an HTTP part fails with "URL keyword must be second": the parts are
checked in order and the first one is already out of place. -/
theorem C3_url_first_reports_url_second (H : Host) (hH : H.UpperAscii) (s p0 p1 : Str)
    (rest : List Str) (hv : validatePipeSpacing s = true)
    (hsplit : split '|' s = p0 :: p1 :: rest)
    (h0 : startsWith (trim p0) "URL ".toList = true)
    (_h1 : startsWith (trim p1) "HTTP ".toList = true) :
    parseReqline H s = .error URL_MUST_BE_SECOND := by
  have hne : s.isEmpty = false := by
    cases s with
    | nil => simp [split] at hsplit
    | cons c cs => rfl
  obtain ⟨v, hvv⟩ := List.isPrefixOf_iff_prefix.mp h0
  have ht : trim ("URL ".toList ++ v) = "URL ".toList ++ v := by
    rw [hvv]; exact trim_trim p0
  have hp : parsePart H (trim p0) 0 = .error URL_MUST_BE_SECOND := by
    rw [← hvv, parsePart_url hH v 0 ht]
    simp [parseUrlSection]
  have hnb : trim p0 ≠ [] := by rw [← hvv]; simp
  have hloop : parseParts H 0 (p0 :: p1 :: rest) {} = .error URL_MUST_BE_SECOND :=
    parseParts_error H 0 p0 _ _ _ hnb hp
  simp [parseReqline, hne, hv, hsplit, hloop]

/-- The statement `URL https://api.example.com | HTTP GET` of C3. -/
theorem C3_url_first_reports_url_second_witness :
    parseReqline refHost "URL https://api.example.com | HTTP GET".toList =
      .error URL_MUST_BE_SECOND :=
  C3_url_first_reports_url_second refHost refHost_upperAscii
    "URL https://api.example.com | HTTP GET".toList "URL https://api.example.com ".toList
    " HTTP GET".toList [] (by decide) (by decide) (by decide) (by decide)

/-- C4: a statement that passes the pipe check, has at least two parts and whose first
part, trimmed, is `HTTP ` followed by a value whose trimmed form differs from its
upper-cased form fails with "HTTP method must be uppercase", whatever the other parts
hold and whatever the upper-cased value is. -/
theorem C4_lowercase_method_rejected (H : Host) (hH : H.UpperAscii) (s p0 p1 v : Str)
    (rest : List Str) (hv : validatePipeSpacing s = true)
    (hsplit : split '|' s = p0 :: p1 :: rest)
    (h0 : trim p0 = "HTTP ".toList ++ v)
    (hcase : trim v ≠ H.toUpperCase (trim v)) :
    parseReqline H s = .error HTTP_METHOD_MUST_BE_UPPERCASE := by
  have hne : s.isEmpty = false := by
    cases s with
    | nil => simp [split] at hsplit
    | cons c cs => rfl
  have ht : trim ("HTTP ".toList ++ v) = "HTTP ".toList ++ v := by
    rw [← h0]; exact trim_trim p0
  have hvne : trim v ≠ [] := value_not_blank "HTTP".toList v ht
  have hp : parsePart H (trim p0) 0 = .error HTTP_METHOD_MUST_BE_UPPERCASE := by
    rw [h0, parsePart_http hH v 0 ht]
    simp [parseHttpSection, trim_trim, hvne, hcase]
  have hnb : trim p0 ≠ [] := by rw [h0]; simp
  have hloop : parseParts H 0 (p0 :: p1 :: rest) {} = .error HTTP_METHOD_MUST_BE_UPPERCASE :=
    parseParts_error H 0 p0 _ _ _ hnb hp
  simp [parseReqline, hne, hv, hsplit, hloop]

/-- The statement `HTTP get | URL https://api.example.com` of C4. -/
theorem C4_lowercase_method_rejected_witness :
    parseReqline refHost "HTTP get | URL https://api.example.com".toList =
      .error HTTP_METHOD_MUST_BE_UPPERCASE :=
  C4_lowercase_method_rejected refHost refHost_upperAscii
    "HTTP get | URL https://api.example.com".toList "HTTP get ".toList
    " URL https://api.example.com".toList "get".toList [] (by decide) (by decide) (by decide)
    (by decide)

/-- C5, the code at the failing input: `QUERY [1,2]` is accepted and the descriptor's query
is the array `[1,2]`, which is not a key-value object. -/
theorem C5_array_section_accepted :
    parseReqline refHost "HTTP GET | URL https://api.example.com | QUERY [1,2]".toList =
      .ok { method := "GET".toList, url := "https://api.example.com".toList,
            headers := Json.obj [], query := Json.arr [Json.num 1 0, Json.num 2 0],
            body := Json.obj [] } ∧
    (Json.arr [Json.num 1 0, Json.num 2 0]).isObject = false ∧
    parseReqline refHost "HTTP GET | URL https://api.example.com | QUERY [1,2]".toList ≠
      .error INVALID_JSON_QUERY :=
  ⟨rfl, rfl, fun h => nomatch h⟩

/-- C6, counterexample: in `HTTP GET | URL https://api.example.com | BODY a|b` the first two
parts are a valid HTTP part and a valid URL part, the next part is `BODY a` and `a` is not
JSON, but the statement fails with the pipe-spacing error, not with the BODY error. -/
theorem C6_pipe_spacing_comes_first :
    split '|' "HTTP GET | URL https://api.example.com | BODY a|b".toList =
      ["HTTP GET ".toList, " URL https://api.example.com ".toList, " BODY a".toList,
        "b".toList] ∧
    parsePart refHost (trim "HTTP GET ".toList) 0 = .method "GET".toList ∧
    parsePart refHost (trim " URL https://api.example.com ".toList) 1 =
      .url "https://api.example.com".toList ∧
    trim " BODY a".toList = "BODY ".toList ++ "a".toList ∧
    refHost.jsonParse (trim "a".toList) = none ∧
    parseReqline refHost "HTTP GET | URL https://api.example.com | BODY a|b".toList =
      .error INVALID_PIPE_SPACING ∧
    parseReqline refHost "HTTP GET | URL https://api.example.com | BODY a|b".toList ≠
      .error INVALID_JSON_BODY := by
  have e : parseReqline refHost "HTTP GET | URL https://api.example.com | BODY a|b".toList =
      .error INVALID_PIPE_SPACING := rfl
  refine ⟨rfl, rfl, rfl, rfl, rfl, e, ?_⟩
  rw [e]
  intro h
  exact absurd (Except.error.inj h) (by decide)

/-- C6, amended: a statement that passes the pipe check, whose first two parts are a valid
HTTP part and a valid URL part and whose first later non-blank part is `BODY v`
(respectively `HEADERS v`, `QUERY v`) where the trimmed `v` is not JSON, fails with
"Invalid JSON format in BODY section" (respectively HEADERS, QUERY). -/
theorem C6_invalid_json_section (H : Host) (hH : H.UpperAscii) (s p0 p1 p v m u : Str)
    (blanks rest : List Str) (sec : Section)
    (hv : validatePipeSpacing s = true)
    (hsplit : split '|' s = p0 :: p1 :: (blanks ++ p :: rest))
    (h0 : parsePart H (trim p0) 0 = .method m)
    (h1 : parsePart H (trim p1) 1 = .url u)
    (hblank : ∀ b ∈ blanks, trim b = [])
    (hp : trim p = sec.keyword ++ ' ' :: v)
    (hjson : H.jsonParse (trim v) = none) :
    parseReqline H s =
      .error ("Invalid JSON format in ".toList ++ sec.keyword ++ " section".toList) := by
  have hne : s.isEmpty = false := by
    cases s with
    | nil => simp [split] at hsplit
    | cons c cs => rfl
  have hnb0 : trim p0 ≠ [] := by
    intro e; rw [e, parsePart_nil] at h0; cases h0
  have hnb1 : trim p1 ≠ [] := by
    intro e; rw [e, parsePart_nil] at h1; cases h1
  have hnb : trim p ≠ [] := by rw [hp]; simp
  have ht : trim (sec.keyword ++ ' ' :: v) = sec.keyword ++ ' ' :: v := by
    rw [← hp]; exact trim_trim p
  have hpp : parsePart H (trim p) (0 + 1 + 1 + blanks.length) =
      .error ("Invalid JSON format in ".toList ++ sec.keyword ++ " section".toList) := by
    rw [hp, parsePart_section hH sec v _ ht]
    unfold parseJsonSection
    rw [hjson]
    exact congrArg _ (invalidJson_keyword hH sec)
  have hloop : parseParts H 0 (p0 :: p1 :: (blanks ++ p :: rest)) {} =
      .error ("Invalid JSON format in ".toList ++ sec.keyword ++ " section".toList) := by
    rw [parseParts_method H 0 p0 _ _ m hnb0 h0, parseParts_url H (0 + 1) p1 _ _ u hnb1 h1,
      parseParts_blanks H blanks (p :: rest) _ hblank (0 + 1 + 1)]
    exact parseParts_error H _ p rest _ _ hnb hpp
  simp only [parseReqline, hne, hv, hsplit, hloop]
  simp

/-- The statement `HTTP GET | URL https://api.example.com | BODY notjson` of C6. -/
theorem C6_invalid_json_section_witness :
    parseReqline refHost "HTTP GET | URL https://api.example.com | BODY notjson".toList =
      .error INVALID_JSON_BODY :=
  C6_invalid_json_section refHost refHost_upperAscii
    "HTTP GET | URL https://api.example.com | BODY notjson".toList "HTTP GET ".toList
    " URL https://api.example.com ".toList " BODY notjson".toList "notjson".toList
    "GET".toList "https://api.example.com".toList [] [] .body (by decide) (by decide) rfl rfl
    (by decide) (by decide) rfl

/-- C7, counterexample: for `HTTP GET | URL https://api.example.com | QUERY {"a":1}` the
full URL is not `https://api.example.com?a=1`. -/
theorem C7_full_url_not_without_slash :
    (parseReqline refHost
        "HTTP GET | URL https://api.example.com | QUERY \x7b\"a\":1\x7d".toList).map
      (fun d => constructFullUrl refHost d.url (some d.query)) ≠
      .ok (some "https://api.example.com?a=1".toList) := by
  have e : (parseReqline refHost
        "HTTP GET | URL https://api.example.com | QUERY \x7b\"a\":1\x7d".toList).map
      (fun d => constructFullUrl refHost d.url (some d.query)) =
      .ok (some "https://api.example.com/?a=1".toList) := rfl
  rw [e]
  intro h
  exact absurd (Option.some.inj (Except.ok.inj h)) (by decide)

/-- C7, amended: parsing `HTTP GET | URL https://api.example.com | QUERY {"a":1}` gives the
url `https://api.example.com` and the query `{"a":1}`, and `constructFullUrl` on them
returns `https://api.example.com/?a=1`: the `URL` class writes the empty path as `/`. -/
theorem C7_full_url_with_slash :
    (parseReqline refHost
        "HTTP GET | URL https://api.example.com | QUERY \x7b\"a\":1\x7d".toList).map
      (fun d => constructFullUrl refHost d.url (some d.query)) =
      .ok (some "https://api.example.com/?a=1".toList) ∧
    parseReqline refHost "HTTP GET | URL https://api.example.com | QUERY \x7b\"a\":1\x7d".toList =
      .ok { method := "GET".toList, url := "https://api.example.com".toList,
            headers := Json.obj [], query := Json.obj [("a".toList, Json.num 1 0)],
            body := Json.obj [] } ∧
    constructFullUrl refHost "https://api.example.com".toList
        (some (Json.obj [("a".toList, Json.num 1 0)])) =
      some "https://api.example.com/?a=1".toList :=
  ⟨rfl, rfl, rfl⟩

/-- C8: with an empty or absent query `constructFullUrl` returns the base URL character for
character; so for a descriptor parsed from a statement with no QUERY part the full URL is
the descriptor's url, and building the full URL again with an empty query changes
nothing. -/
theorem C8_empty_query_keeps_url (H : Host) (u : Str) :
    constructFullUrl H u (some Json.empty) = some u ∧
    constructFullUrl H u none = some u ∧
    (∀ (s : Str) (d : Descriptor), parseReqline H s = .ok d →
      (∀ p ∈ split '|' s, startsWith (trim p) "QUERY ".toList = false) →
      d.query = Json.empty ∧ constructFullUrl H d.url (some d.query) = some d.url) ∧
    (constructFullUrl H u (some Json.empty)).bind
      (fun r => constructFullUrl H r (some Json.empty)) = some u := by
  refine ⟨rfl, rfl, ?_, rfl⟩
  intro s d h hno
  obtain ⟨parsed, hloop, hfin⟩ := parseReqline_ok H s d h
  have hq : parsed.query = none := by
    refine parseParts_invariant H (fun q => q.query = none) (split '|' s) ?_ 0 {} parsed rfl hloop
    intro p hp q i hP _ hne
    cases hr : parsePart H (trim p) i with
    | error msg => exact absurd hr (hne msg)
    | method m => exact hP
    | url u => exact hP
    | json sec v =>
      cases sec with
      | headers => exact hP
      | body => exact hP
      | query =>
        have h3 := (parsePart_json_inv H (trim p) i .query v hr).2.2.1
        rw [trim_trim, hno p hp] at h3
        cases h3
  have hd := (finish_ok parsed d hfin).2.2.2.2.2.2.1
  rw [hq] at hd
  have hd2 : d.query = Json.empty := hd
  exact ⟨hd2, by rw [hd2]; rfl⟩

/-- The statement `HTTP GET | URL https://api.example.com`, which has no QUERY part. -/
theorem C8_empty_query_keeps_url_witness :
    constructFullUrl refHost "https://api.example.com".toList (some (Json.obj [])) =
      some "https://api.example.com".toList :=
  ((C8_empty_query_keeps_url refHost "https://api.example.com".toList).2.2.1
    "HTTP GET | URL https://api.example.com".toList
    { method := "GET".toList, url := "https://api.example.com".toList,
      headers := Json.obj [], query := Json.obj [], body := Json.obj [] }
    rfl (by decide)).2

/-- C9: a descriptor returned by `parseReqline` has method `GET` or `POST` and a non-empty
url that starts with `http://` or `https://`. -/
theorem C9_descriptor_method_and_url (H : Host) (s : Str) (d : Descriptor)
    (h : parseReqline H s = .ok d) :
    (d.method = "GET".toList ∨ d.method = "POST".toList) ∧ d.url ≠ [] ∧
    (startsWith d.url "http://".toList = true ∨ startsWith d.url "https://".toList = true) := by
  obtain ⟨parsed, hloop, hfin⟩ := parseReqline_ok H s d h
  obtain ⟨_, hurl, _, hune, hmem, _⟩ := finish_ok parsed d hfin
  have hinv : ∀ u, parsed.url = some u →
      (startsWith u "http://".toList = true ∨ startsWith u "https://".toList = true) := by
    refine parseParts_invariant H
      (fun q => ∀ u, q.url = some u →
        (startsWith u "http://".toList = true ∨ startsWith u "https://".toList = true))
      (split '|' s) ?_ 0 {} parsed (by intro u hu; cases hu) hloop
    intro p _ q i hP _ hne
    cases hr : parsePart H (trim p) i with
    | error msg => exact absurd hr (hne msg)
    | method m => exact hP
    | url u2 =>
      intro u hu
      have e : u2 = u := Option.some.inj hu
      rw [← e]
      exact (parsePart_url_inv H (trim p) u2 i hr).2
    | json sec v => cases sec <;> exact hP
  refine ⟨?_, hune, hinv d.url hurl⟩
  simpa [VALID_METHODS] using hmem

/-- The statement `HTTP POST | URL http://localhost:3000/items`: it is accepted, and the
descriptor has the method and the url C9 describes. -/
theorem C9_descriptor_method_and_url_witness :
    parseReqline refHost "HTTP POST | URL http://localhost:3000/items".toList =
      .ok { method := "POST".toList, url := "http://localhost:3000/items".toList,
            headers := Json.obj [], query := Json.obj [], body := Json.obj [] } ∧
    ("POST".toList = "GET".toList ∨ "POST".toList = "POST".toList) ∧
    "http://localhost:3000/items".toList ≠ [] ∧
    (startsWith "http://localhost:3000/items".toList "http://".toList = true ∨
      startsWith "http://localhost:3000/items".toList "https://".toList = true) :=
  ⟨rfl, C9_descriptor_method_and_url refHost
    "HTTP POST | URL http://localhost:3000/items".toList
    { method := "POST".toList, url := "http://localhost:3000/items".toList,
      headers := Json.obj [], query := Json.obj [], body := Json.obj [] } rfl⟩

/-- C10, counterexample: the empty method value equals its upper-cased form, holds no
white space and no `|` and is neither GET nor POST, and `HTTP  | URL https://api.example.com`
fails with "Keywords must be uppercase", not with the invalid-method error. -/
theorem C10_empty_method_other_error :
    refHost.toUpperCase [] = [] ∧
    parseReqline refHost
        ("HTTP ".toList ++ [] ++ " | URL ".toList ++ "https://api.example.com".toList) =
      .error KEYWORDS_MUST_BE_UPPERCASE ∧
    parseReqline refHost
        ("HTTP ".toList ++ [] ++ " | URL ".toList ++ "https://api.example.com".toList) ≠
      .error INVALID_HTTP_METHOD := by
  have e : parseReqline refHost
        ("HTTP ".toList ++ [] ++ " | URL ".toList ++ "https://api.example.com".toList) =
      .error KEYWORDS_MUST_BE_UPPERCASE := rfl
  refine ⟨rfl, e, ?_⟩
  rw [e]
  intro h
  exact absurd (Except.error.inj h) (by decide)

/-- C10, amended: for a non-empty method value `m` that equals its upper-cased form, holds
no white space and no `|` and is neither GET nor POST, and a url `u` that starts with
`http://` or `https://`, holds no `|` and has no leading or trailing white space, parsing
`HTTP m | URL u` fails with "Invalid HTTP method. Only GET and POST are supported". -/
theorem C10_other_method_rejected (H : Host) (hH : H.UpperAscii) (m u : Str)
    (hmne : m ≠ []) (hmup : H.toUpperCase m = m)
    (hmchars : ∀ c ∈ m, isWhiteSpace c = false ∧ c ≠ '|')
    (hget : m ≠ "GET".toList) (hpost : m ≠ "POST".toList)
    (hu : startsWith u "http://".toList = true ∨ startsWith u "https://".toList = true)
    (hpipe : '|' ∉ u) (htrim : trim u = u) :
    parseReqline H ("HTTP ".toList ++ m ++ " | URL ".toList ++ u) =
      .error INVALID_HTTP_METHOD := by
  have hune : u ≠ [] := by
    rintro rfl
    rcases hu with h | h <;> simp [startsWith, List.isPrefixOf] at h
  have hmpipe : '|' ∉ m := fun hmem => (hmchars _ hmem).2 rfl
  rw [parseReqline_two hH m u hmne (fun c hc => (hmchars c hc).1) hmpipe hmup hu hpipe htrim]
  have hvalid : m ∉ VALID_METHODS := by
    simp only [VALID_METHODS, List.mem_cons, List.mem_singleton, List.not_mem_nil, or_false,
      not_or]
    exact ⟨hget, hpost⟩
  simp [finish, hmne, hune, hvalid]

/-- The statement `HTTP PUT | URL https://api.example.com`. -/
theorem C10_other_method_rejected_witness :
    parseReqline refHost "HTTP PUT | URL https://api.example.com".toList =
      .error INVALID_HTTP_METHOD :=
  C10_other_method_rejected refHost refHost_upperAscii "PUT".toList
    "https://api.example.com".toList (by decide) rfl (by decide) (by decide) (by decide)
    (Or.inr rfl) (by decide) (by decide)

/-- C11: when `parseReqline` fails, its message is one of the fixed strings of the
`ReqlineMessages` catalog; it is never a "Missing value for ..", "Unknown keyword: .." or
"Parsing error: .." text; the same holds for the message the service throws; and a result
is never both an error and a descriptor. -/
theorem C11_error_message_in_catalog (H : Host) (hH : H.UpperAscii) (codes : ErrorCodes)
    (s : Str) :
    (∀ msg, parseReqline H s = .error msg →
      msg ∈ ReqlineMessages.all ∧ (∀ x, msg ≠ "Missing value for ".toList ++ x) ∧
      (∀ x, msg ≠ "Unknown keyword: ".toList ++ x) ∧
      (∀ x, msg ≠ "Parsing error: ".toList ++ x)) ∧
    (∀ e, Service.parseReqline H codes s = .error e → e.message ∈ ReqlineMessages.all) ∧
    (∀ msg d, ¬ (parseReqline H s = .error msg ∧ parseReqline H s = .ok d)) ∧
    (∀ e d, ¬ (Service.parseReqline H codes s = .error e ∧
      Service.parseReqline H codes s = .ok d)) := by
  have hcat : ∀ msg, parseReqline H s = .error msg → msg ∈ ReqlineMessages.all := by
    intro msg h
    rcases List.mem_append.mp (parseReqline_error_mem H s msg h) with h1 | h1
    · exact statementErrorMessages_catalog msg h1
    · exact partErrorMessages_catalog hH msg h1
  refine ⟨?_, ?_, ?_, ?_⟩
  · intro msg h
    have hm := hcat msg h
    obtain ⟨h1, h2, h3⟩ := catalog_not_prefixed msg hm
    exact ⟨hm, ne_of_not_isPrefixOf _ _ h1, ne_of_not_isPrefixOf _ _ h2,
      ne_of_not_isPrefixOf _ _ h3⟩
  · intro e h
    rcases service_parseReqline_message H codes s e h with h1 | ⟨_, h1⟩
    · exact hcat _ h1
    · rw [h1]; decide
  · rintro msg d ⟨h1, h2⟩
    rw [h1] at h2
    cases h2
  · rintro e d ⟨h1, h2⟩
    rw [h1] at h2
    cases h2

/-- The statement `HTTP GET | URL https://api.example.com | BODY notjson`: its error
message is the catalog's `INVALID_JSON_BODY`. -/
theorem C11_error_message_in_catalog_witness :
    parseReqline refHost "HTTP GET | URL https://api.example.com | BODY notjson".toList =
      .error ReqlineMessages.INVALID_JSON_BODY ∧
    ReqlineMessages.INVALID_JSON_BODY ∈ ReqlineMessages.all :=
  ⟨rfl, ((C11_error_message_in_catalog refHost refHost_upperAscii refCodes
    "HTTP GET | URL https://api.example.com | BODY notjson".toList).1
      ReqlineMessages.INVALID_JSON_BODY rfl).1⟩

/-- C12: when the request is issued and the target server answers with a status code,
whether the transport resolves with the response or rejects with an error that carries
it, `executeRequest` (of the route and of the service) returns the success record with
that status and that payload, and signals no error. -/
theorem C12_target_status_is_data (H : Host) (codes : ErrorCodes) (R : Runtime)
    (parsed : Descriptor) (fullUrl : Str) (config : RequestConfig) (response : Response)
    (hcfg : buildConfig H R parsed = .ok (fullUrl, config))
    (hans : R.transport config = .resolved response ∨
      ∃ e, R.transport config = .rejected e ∧ e.response = some response) :
    ∃ r, Routes.executeRequest H R parsed = .record r ∧
      Service.executeRequest H codes R parsed = .record r ∧
      r.response.http_status = response.status ∧
      r.response.response_data = response.data ∧
      r.request.full_url = fullUrl := by
  have hurl := (buildConfig_ok H R parsed fullUrl config hcfg).1
  rcases hans with hres | ⟨e, hrej, hresp⟩
  · have htry : tryRequest H R parsed =
        .ok (executionRecord R parsed fullUrl response) := by
      unfold tryRequest
      rw [hcfg]
      simp only
      rw [hres]
    have hr : Routes.executeRequest H R parsed =
        .record (executionRecord R parsed fullUrl response) := by
      unfold Routes.executeRequest; rw [htry]
    have hs : Service.executeRequest H codes R parsed =
        .record (executionRecord R parsed fullUrl response) := by
      unfold Service.executeRequest; rw [htry]
    exact ⟨_, hr, hs, rfl, rfl, rfl⟩
  · have htry : tryRequest H R parsed = .error e := by
      unfold tryRequest
      rw [hcfg]
      simp only
      rw [hrej]
    have hrec : errorResponseRecord H R parsed response =
        some (executionRecord R parsed fullUrl response) := by
      unfold errorResponseRecord
      rw [hurl]
    have hr : Routes.executeRequest H R parsed =
        .record (executionRecord R parsed fullUrl response) := by
      unfold Routes.executeRequest; rw [htry]; simp only; rw [hresp]; simp only; rw [hrec]
    have hs : Service.executeRequest H codes R parsed =
        .record (executionRecord R parsed fullUrl response) := by
      unfold Service.executeRequest; rw [htry]; simp only; rw [hresp]; simp only; rw [hrec]
    exact ⟨_, hr, hs, rfl, rfl, rfl⟩

/-- A 404 from the target: the record carries `http_status = 404`. -/
theorem C12_target_status_is_data_witness :
    ∃ r, Routes.executeRequest refHost refRuntime404
        { method := "GET".toList, url := "https://api.example.com".toList,
          headers := Json.obj [], query := Json.obj [], body := Json.obj [] } = .record r ∧
      Service.executeRequest refHost refCodes refRuntime404
        { method := "GET".toList, url := "https://api.example.com".toList,
          headers := Json.obj [], query := Json.obj [], body := Json.obj [] } = .record r ∧
      r.response.http_status = 404 ∧
      r.response.response_data = Json.str "Not Found".toList ∧
      r.request.full_url = "https://api.example.com".toList :=
  C12_target_status_is_data refHost refCodes refRuntime404
    { method := "GET".toList, url := "https://api.example.com".toList,
      headers := Json.obj [], query := Json.obj [], body := Json.obj [] }
    "https://api.example.com".toList
    { method := "get".toList, url := "https://api.example.com".toList,
      headers := Json.obj [], timeout := 10000, data := none }
    { status := 404, data := Json.str "Not Found".toList } rfl
    (Or.inr ⟨_, rfl, rfl⟩)

/-- C13: the configuration `executeRequest` hands to the transport carries a body exactly
when the method is POST and the body has at least one key, and the body it carries is
the descriptor's; a GET descriptor sends no body; the configuration has timeout 10000,
the descriptor's headers and the url `constructFullUrl(url, query)`. -/
theorem C13_request_configuration (H : Host) (R : Runtime) (parsed : Descriptor)
    (fullUrl : Str) (config : RequestConfig)
    (hcfg : buildConfig H R parsed = .ok (fullUrl, config)) :
    (config.data.isSome = true ↔
      (parsed.method = "POST".toList ∧ 0 < parsed.body.keys.length)) ∧
    (∀ b, config.data = some b → b = parsed.body) ∧
    (parsed.method = "GET".toList → config.data = none) ∧
    config.timeout = 10000 ∧ config.headers = parsed.headers ∧
    constructFullUrl H parsed.url (some parsed.query) = some config.url ∧
    (tryRequest H R parsed =
      match R.transport config with
      | .rejected error => .error error
      | .resolved response =>
        .ok (executionRecord R parsed fullUrl response)) := by
  obtain ⟨h1, h2, _, h4, h5, h6⟩ := buildConfig_ok H R parsed fullUrl config hcfg
  refine ⟨?_, ?_, ?_, h5, h4, by rw [h2]; exact h1, ?_⟩
  · rcases h6 with ⟨hm, _, hl, hd⟩ | ⟨hn, hd⟩
    · rw [hd]; exact ⟨fun _ => ⟨hm, hl⟩, fun _ => rfl⟩
    · rw [hd]
      exact ⟨fun h => (nomatch h), fun h => absurd h hn⟩
  · intro b hb
    rcases h6 with ⟨_, _, _, hd⟩ | ⟨_, hd⟩
    · rw [hd] at hb; exact (Option.some.inj hb).symm
    · rw [hd] at hb; cases hb
  · intro hget
    rcases h6 with ⟨hm, _, _, _⟩ | ⟨_, hd⟩
    · rw [hget] at hm; exact absurd hm (by decide)
    · exact hd
  · unfold tryRequest
    rw [hcfg]

/-- A POST descriptor with a body of one key sends it; a GET descriptor with the same body
sends none. -/
theorem C13_request_configuration_witness :
    buildConfig refHost refRuntime200
      { method := "POST".toList, url := "https://api.example.com".toList,
        headers := Json.obj [], query := Json.obj [],
        body := Json.obj [("a".toList, Json.num 1 0)] } =
      .ok ("https://api.example.com".toList,
        { method := "post".toList, url := "https://api.example.com".toList,
          headers := Json.obj [], timeout := 10000,
          data := some (Json.obj [("a".toList, Json.num 1 0)]) }) ∧
    (∀ b, some (Json.obj [("a".toList, Json.num 1 0)]) = some b →
      b = Json.obj [("a".toList, Json.num 1 0)]) ∧
    buildConfig refHost refRuntime200
      { method := "GET".toList, url := "https://api.example.com".toList,
        headers := Json.obj [], query := Json.obj [],
        body := Json.obj [("a".toList, Json.num 1 0)] } =
      .ok ("https://api.example.com".toList,
        { method := "get".toList, url := "https://api.example.com".toList,
          headers := Json.obj [], timeout := 10000, data := none }) :=
  ⟨rfl,
   (C13_request_configuration refHost refRuntime200
      { method := "POST".toList, url := "https://api.example.com".toList,
        headers := Json.obj [], query := Json.obj [],
        body := Json.obj [("a".toList, Json.num 1 0)] }
      "https://api.example.com".toList
      { method := "post".toList, url := "https://api.example.com".toList,
        headers := Json.obj [], timeout := 10000,
        data := some (Json.obj [("a".toList, Json.num 1 0)]) } rfl).2.1,
   rfl⟩

/-- C14: the exception-raising `parseReqline` of the service and the return-value
`parseReqline` of `src/utils/parser.js` apply the same rules: the service fails with
message `m` exactly when the other returns the error record with message `m`, and one
returns a descriptor exactly when the other returns the same descriptor.  The validation
code handed to `throwAppError` is truthy. -/
theorem C14_two_parsers_agree (H : Host) (codes : ErrorCodes)
    (hcode : codes.VALIDATION_ERROR ≠ []) (s : Str) :
    (∀ m, (∃ e, Service.parseReqline H codes s = .error e ∧ e.message = m) ↔
      parseReqline H s = .error m) ∧
    (∀ d, Service.parseReqline H codes s = .ok d ↔ parseReqline H s = .ok d) := by
  rw [service_parseReqline_eq H codes hcode s]
  cases hp : parseReqline H s with
  | error msg =>
    constructor
    · intro m
      constructor
      · rintro ⟨e, he, hm⟩
        have e2 : asThrown codes msg = e := Except.error.inj he
        rw [← hm, ← e2]; rfl
      · intro h
        have e2 : msg = m := Except.error.inj h
        exact ⟨asThrown codes msg, rfl, e2⟩
    · intro d
      constructor
      · intro h; cases h
      · intro h; cases h
  | ok d0 =>
    constructor
    · intro m
      constructor
      · rintro ⟨e, he, _⟩; cases he
      · intro h; cases h
    · intro d
      constructor
      · intro h
        have e2 : d0 = d := Except.ok.inj h
        rw [e2]
      · intro h
        have e2 : d0 = d := Except.ok.inj h
        rw [e2]; rfl

/-- The statements `HTTP get | URL https://api.example.com` and
`HTTP GET | URL https://api.example.com` on both parsers. -/
theorem C14_two_parsers_agree_witness :
    (Service.parseReqline refHost refCodes "HTTP get | URL https://api.example.com".toList =
      .error { message := ReqlineMessages.HTTP_METHOD_MUST_BE_UPPERCASE,
               code := "VALIDATION_ERROR".toList }) ∧
    parseReqline refHost "HTTP get | URL https://api.example.com".toList =
      .error HTTP_METHOD_MUST_BE_UPPERCASE ∧
    Service.parseReqline refHost refCodes "HTTP GET | URL https://api.example.com".toList =
      .ok { method := "GET".toList, url := "https://api.example.com".toList,
            headers := Json.obj [], query := Json.obj [], body := Json.obj [] } :=
  ⟨rfl,
   ((C14_two_parsers_agree refHost refCodes (by decide)
      "HTTP get | URL https://api.example.com".toList).1 HTTP_METHOD_MUST_BE_UPPERCASE).mp
      ⟨_, rfl, rfl⟩,
   ((C14_two_parsers_agree refHost refCodes (by decide)
      "HTTP GET | URL https://api.example.com".toList).2 _).mpr rfl⟩

/-- C15, counterexample: in `HTTP  GET | URL https://api.example.com` the keyword `HTTP` is
followed by two spaces, and the statement is accepted with method GET: "Missing space
after keyword" is not reported. -/
theorem C15_two_spaces_after_keyword_accepted :
    trim "HTTP  GET ".toList = "HTTP".toList ++ ' ' :: (" ".toList ++ "GET".toList) ∧
    parseReqline refHost "HTTP  GET | URL https://api.example.com".toList =
      .ok { method := "GET".toList, url := "https://api.example.com".toList,
            headers := Json.obj [], query := Json.obj [], body := Json.obj [] } ∧
    parseReqline refHost "HTTP  GET | URL https://api.example.com".toList ≠
      .error MISSING_SPACE_AFTER_KEYWORD :=
  ⟨rfl, rfl, fun h => nomatch h⟩

/-- C15, amended: in a part in which a keyword is matched (the trimmed part starts with the
keyword and a space) any further white space before the value is ignored: the part is
parsed exactly as the part with one space, and "Missing space after keyword" is not
returned. -/
theorem C15_spaces_after_keyword_ignored (H : Host) (hH : H.UpperAscii) (kw ws v : Str)
    (i : Nat) (hkw : kw ∈ REQUIRED_KEYWORDS ++ OPTIONAL_KEYWORDS)
    (hws : ∀ c ∈ ws, isWhiteSpace c = true)
    (ht : trim (kw ++ ' ' :: v) = kw ++ ' ' :: v) :
    parsePart H (kw ++ ' ' :: (ws ++ v)) i = parsePart H (kw ++ ' ' :: v) i ∧
    parsePart H (kw ++ ' ' :: (ws ++ v)) i ≠ .error MISSING_SPACE_AFTER_KEYWORD := by
  have ht2 := trim_keyword_spaces kw ws v hkw ht
  have hv : trim (ws ++ v) = trim v := trim_space_append ws v hws
  constructor
  · simp only [REQUIRED_KEYWORDS, OPTIONAL_KEYWORDS, List.cons_append, List.nil_append,
      List.mem_cons, List.mem_singleton, List.not_mem_nil, or_false] at hkw
    rcases hkw with rfl | rfl | rfl | rfl | rfl
    · exact (parsePart_http hH (ws ++ v) i ht2).trans
        ((congrArg (fun x => parseHttpSection H x i) hv).trans (parsePart_http hH v i ht).symm)
    · exact (parsePart_url hH (ws ++ v) i ht2).trans
        ((congrArg (fun x => parseUrlSection x i) hv).trans (parsePart_url hH v i ht).symm)
    · exact (parsePart_headers hH (ws ++ v) i ht2).trans
        ((congrArg (fun x => parseJsonSection H x .headers i) hv).trans
          (parsePart_headers hH v i ht).symm)
    · exact (parsePart_query hH (ws ++ v) i ht2).trans
        ((congrArg (fun x => parseJsonSection H x .query i) hv).trans
          (parsePart_query hH v i ht).symm)
    · exact (parsePart_body hH (ws ++ v) i ht2).trans
        ((congrArg (fun x => parseJsonSection H x .body i) hv).trans
          (parsePart_body hH v i ht).symm)
  · intro h
    exact (partErrorMessages_reachable H _ (parsePart_error_mem H _ _ i h)).1 rfl

/-- The part `HTTP  GET`, with two spaces, is parsed as the part `HTTP GET`. -/
theorem C15_spaces_after_keyword_ignored_witness :
    parsePart refHost "HTTP  GET".toList 0 = parsePart refHost "HTTP GET".toList 0 ∧
    parsePart refHost "HTTP GET".toList 0 = .method "GET".toList :=
  ⟨(C15_spaces_after_keyword_ignored refHost refHost_upperAscii "HTTP".toList " ".toList
    "GET".toList 0 (by decide) (by decide) (by decide)).1, rfl⟩

/-- C16: the empty string fails with "Invalid input format", and every non-empty string
without a `|` fails with "Missing required HTTP keyword", whatever it holds; the service
throws the same two messages. -/
theorem C16_empty_and_single_part (H : Host) (codes : ErrorCodes)
    (hcode : codes.VALIDATION_ERROR ≠ []) :
    parseReqline H [] = .error INVALID_INPUT_FORMAT ∧
    (∀ s : Str, s ≠ [] → '|' ∉ s → parseReqline H s = .error MISSING_HTTP_KEYWORD) ∧
    Service.parseReqline H codes [] =
      .error { message := ReqlineMessages.INVALID_INPUT_FORMAT,
               code := codes.VALIDATION_ERROR } ∧
    (∀ s : Str, s ≠ [] → '|' ∉ s →
      Service.parseReqline H codes s =
        .error { message := ReqlineMessages.MISSING_HTTP_KEYWORD,
                 code := codes.VALIDATION_ERROR }) := by
  have h2 : ∀ s : Str, s ≠ [] → '|' ∉ s → parseReqline H s = .error MISSING_HTTP_KEYWORD := by
    intro s hne hp
    have hv : validatePipeSpacing s = true := by
      rw [validatePipeSpacing_iff]
      intro i hi
      exact absurd (List.getElem?_mem hi) hp
    have hnil : s.isEmpty = false := by
      cases s with
      | nil => exact absurd rfl hne
      | cons c cs => rfl
    unfold parseReqline
    rw [if_neg (by rw [hnil]; decide), if_neg (by rw [hv]; decide)]
    simp only
    rw [split_of_not_mem '|' s hp, if_pos (by simp)]
  refine ⟨rfl, h2, ?_, ?_⟩
  · rw [service_parseReqline_eq H codes hcode]; rfl
  · intro s hne hp
    rw [service_parseReqline_eq H codes hcode, h2 s hne hp]; rfl

/-- The statement `HTTP GET`, which has no `|`. -/
theorem C16_empty_and_single_part_witness :
    parseReqline refHost "HTTP GET".toList = .error MISSING_HTTP_KEYWORD :=
  (C16_empty_and_single_part refHost refCodes (by decide)).2.1 "HTTP GET".toList
    (by decide) (by decide)

/-- C17: a non-empty statement in which some `|` that is not the first character has a
character other than the space right before it, or some `|` that is not the last
character has a character other than the space right after it, fails with the
pipe-spacing error whatever its parts hold: no other error and no descriptor is
returned. -/
theorem C17_pipe_spacing_precedence (H : Host) (s : Str) (hne : s ≠ [])
    (hbad : (∃ i c, 0 < i ∧ s[i]? = some '|' ∧ s[i - 1]? = some c ∧ c ≠ ' ') ∨
      (∃ i c, i < s.length - 1 ∧ s[i]? = some '|' ∧ s[i + 1]? = some c ∧ c ≠ ' ')) :
    parseReqline H s = .error INVALID_PIPE_SPACING ∧
    (∀ msg, parseReqline H s = .error msg → msg = INVALID_PIPE_SPACING) ∧
    (∀ d, parseReqline H s ≠ .ok d) := by
  have hnil : s.isEmpty = false := by
    cases s with
    | nil => exact absurd rfl hne
    | cons c cs => rfl
  have hv : validatePipeSpacing s = false := by
    cases hvs : validatePipeSpacing s with
    | false => rfl
    | true =>
      rcases hbad with ⟨i, c, h0, hi, hc, hcne⟩ | ⟨i, c, h0, hi, hc, hcne⟩
      · have h := ((validatePipeSpacing_iff s).mp hvs i hi).1 h0
        rw [hc] at h
        exact absurd (Option.some.inj h) hcne
      · have h := ((validatePipeSpacing_iff s).mp hvs i hi).2 h0
        rw [hc] at h
        exact absurd (Option.some.inj h) hcne
  have e : parseReqline H s = .error INVALID_PIPE_SPACING := by
    unfold parseReqline
    rw [if_neg (by rw [hnil]; decide), if_pos (by rw [hv]; rfl)]
  refine ⟨e, ?_, ?_⟩
  · intro msg h
    rw [e] at h
    exact (Except.error.inj h).symm
  · intro d h
    rw [e] at h
    cases h

/-- The statement `http get |URL x`: lower-case keyword, missing URL scheme and a pipe with
no space after it; the pipe-spacing error is the one reported. -/
theorem C17_pipe_spacing_precedence_witness :
    parseReqline refHost "http get |URL x".toList = .error INVALID_PIPE_SPACING :=
  (C17_pipe_spacing_precedence refHost "http get |URL x".toList (by decide)
    (Or.inr ⟨9, 'U', by decide, rfl, rfl, by decide⟩)).1

/-- C18: for a statement that passes the pipe check and has at least two parts, when some
non-blank part fails its check the error returned is the error of the lowest-index
failing part (and the service throws it); an error of the checks after the loop is
returned only when every non-blank part is accepted. -/
theorem C18_first_failing_part_wins (H : Host) (codes : ErrorCodes)
    (hcode : codes.VALIDATION_ERROR ≠ []) (s : Str) (hv : validatePipeSpacing s = true)
    (hlen : 2 ≤ (split '|' s).length) :
    (∀ k p msg, (split '|' s)[k]? = some p → trim p ≠ [] →
      parsePart H (trim p) k = .error msg →
      (∀ j q, j < k → (split '|' s)[j]? = some q → trim q ≠ [] →
        ∀ m, parsePart H (trim q) j ≠ .error m) →
      parseReqline H s = .error msg ∧
      Service.parseReqline H codes s =
        .error { message := msg, code := codes.VALIDATION_ERROR }) ∧
    (∀ msg ∈ postLoopErrorMessages, parseReqline H s = .error msg →
      ∀ k p, (split '|' s)[k]? = some p → trim p ≠ [] →
        ∀ m, parsePart H (trim p) k ≠ .error m) := by
  constructor
  · intro k p msg hk hb hp hfirst
    have hloop : parseParts H 0 (split '|' s) {} = .error msg := by
      rw [parseParts_error_iff]
      refine ⟨k, p, hk, hb, by rw [Nat.zero_add]; exact hp, ?_⟩
      intro j q hj hq hqb m
      rw [Nat.zero_add]
      exact hfirst j q hj hq hqb m
    have e : parseReqline H s = .error msg := by
      rw [parseReqline_loop H s hv hlen, hloop]
    refine ⟨e, ?_⟩
    rw [service_parseReqline_eq H codes hcode, e]
    rfl
  · intro msg hmsg h k p hk hb m hm
    rw [parseReqline_loop H s hv hlen] at h
    cases hl : parseParts H 0 (split '|' s) {} with
    | error m0 =>
      rw [hl] at h
      have e : m0 = msg := Except.error.inj h
      subst e
      obtain ⟨k0, p0, _, _, hp0, _⟩ := (parseParts_error_iff H _ 0 {} m0).mp hl
      exact partErrorMessages_not_postLoop H m0 (parsePart_error_mem H _ m0 _ hp0) hmsg
    | ok parsed =>
      have := parseParts_ok_all H _ 0 {} parsed hl k p hk hb m
      rw [Nat.zero_add] at this
      exact this hm

/-- The statement `HTTP PUT | URL ftp://x`: the method is not supported and the url is not
valid; the error of the URL part is reported. -/
theorem C18_first_failing_part_wins_witness :
    parseReqline refHost "HTTP PUT | URL ftp://x".toList = .error INVALID_URL_FORMAT :=
  ((C18_first_failing_part_wins refHost refCodes (by decide) "HTTP PUT | URL ftp://x".toList
    (by decide) (by decide)).1 1 " URL ftp://x".toList INVALID_URL_FORMAT rfl (by decide) rfl
    (by
      intro j q hj hq _ m hm
      have hj0 : j = 0 := by omega
      subst hj0
      have e : q = "HTTP PUT ".toList := (Option.some.inj hq).symm
      subst e
      cases hm)).1

/-- C19: for a trimmed non-empty part that starts with none of `HTTP `, `URL `, `HEADERS `,
`QUERY `, `BODY `, `parsePart` returns "Multiple spaces found where single space expected"
when the part holds two consecutive spaces and "Keywords must be uppercase" otherwise; so
does the `parsePart` of the service. -/
theorem C19_part_without_keyword (H : Host) (t : Str) (i : Nat) (htrim : trim t = t)
    (_hne : t ≠ [])
    (hkw : ∀ kw ∈ ["HTTP ".toList, "URL ".toList, "HEADERS ".toList, "QUERY ".toList,
      "BODY ".toList], startsWith t kw = false) :
    parsePart H t i =
      (if includes t "  ".toList then .error MULTIPLE_SPACES
       else .error KEYWORDS_MUST_BE_UPPERCASE) ∧
    Service.parsePart H t i =
      (if includes t "  ".toList then .error ReqlineMessages.MULTIPLE_SPACES
       else .error ReqlineMessages.KEYWORDS_MUST_BE_UPPERCASE) := by
  have e : parsePart H t i =
      (if includes t "  ".toList then .error MULTIPLE_SPACES
       else .error KEYWORDS_MUST_BE_UPPERCASE) := by
    rcases parsePart_shape H t i with ⟨_, e⟩ | ⟨v, hv, _⟩ | ⟨v, hv, _⟩ | ⟨sec, v, hv, _⟩
    · rw [htrim] at e; exact e
    · rw [htrim] at hv
      have := hkw "HTTP ".toList (by simp)
      rw [hv] at this
      simp [startsWith, List.isPrefixOf] at this
    · rw [htrim] at hv
      have := hkw "URL ".toList (by simp)
      rw [hv] at this
      simp [startsWith, List.isPrefixOf] at this
    · rw [htrim] at hv
      cases sec with
      | headers =>
        have := hkw "HEADERS ".toList (by simp)
        rw [hv] at this
        simp [startsWith, List.isPrefixOf, Section.keyword] at this
      | query =>
        have := hkw "QUERY ".toList (by simp)
        rw [hv] at this
        simp [startsWith, List.isPrefixOf, Section.keyword] at this
      | body =>
        have := hkw "BODY ".toList (by simp)
        rw [hv] at this
        simp [startsWith, List.isPrefixOf, Section.keyword] at this
  exact ⟨e, by rw [service_parsePart_eq]; exact e⟩

/-- The parts `http GET`, `HTTP` and `Http  GET`: the first two report the uppercase error,
the third one the multiple-spaces error. -/
theorem C19_part_without_keyword_witness :
    parsePart refHost "http GET".toList 0 = .error KEYWORDS_MUST_BE_UPPERCASE ∧
    parsePart refHost "HTTP".toList 0 = .error KEYWORDS_MUST_BE_UPPERCASE ∧
    parsePart refHost "Http  GET".toList 0 = .error MULTIPLE_SPACES :=
  ⟨(C19_part_without_keyword refHost "http GET".toList 0 (by decide) (by decide)
      (by decide)).1,
   (C19_part_without_keyword refHost "HTTP".toList 0 (by decide) (by decide)
      (by decide)).1,
   (C19_part_without_keyword refHost "Http  GET".toList 0 (by decide) (by decide)
      (by decide)).1⟩

/-- C20: the ordering checks use the position of a part among all the split parts, blank
ones included.  In a statement that passes the pipe check, an HTTP part at a split index
other than 0 is rejected with "HTTP keyword must be first" and a URL part at a split
index other than 1 with "URL keyword must be second"; the statement is then not
accepted, and that error is the one returned when the earlier non-blank parts are
accepted.  At index 0 (respectively 1) the position check does not fail. -/
theorem C20_position_among_all_parts (H : Host) (hH : H.UpperAscii) (s : Str)
    (hv : validatePipeSpacing s = true) (k : Nat) (p : Str)
    (hk : (split '|' s)[k]? = some p) :
    (startsWith (trim p) "HTTP ".toList = true →
      (k ≠ 0 →
        parsePart H (trim p) k = .error HTTP_MUST_BE_FIRST ∧
        (∀ d, parseReqline H s ≠ .ok d) ∧
        ((∀ j q, j < k → (split '|' s)[j]? = some q → trim q ≠ [] →
            ∀ m, parsePart H (trim q) j ≠ .error m) →
          parseReqline H s = .error HTTP_MUST_BE_FIRST)) ∧
      (k = 0 → parsePart H (trim p) k ≠ .error HTTP_MUST_BE_FIRST)) ∧
    (startsWith (trim p) "URL ".toList = true →
      (k ≠ 1 →
        parsePart H (trim p) k = .error URL_MUST_BE_SECOND ∧
        (∀ d, parseReqline H s ≠ .ok d) ∧
        (2 ≤ (split '|' s).length →
          (∀ j q, j < k → (split '|' s)[j]? = some q → trim q ≠ [] →
            ∀ m, parsePart H (trim q) j ≠ .error m) →
          parseReqline H s = .error URL_MUST_BE_SECOND)) ∧
      (k = 1 → parsePart H (trim p) k ≠ .error URL_MUST_BE_SECOND)) := by
  have full : ∀ msg, trim p ≠ [] → parsePart H (trim p) k = .error msg →
      2 ≤ (split '|' s).length →
      (∀ j q, j < k → (split '|' s)[j]? = some q → trim q ≠ [] →
        ∀ m, parsePart H (trim q) j ≠ .error m) →
      parseReqline H s = .error msg := by
    intro msg hb hp hlen hfirst
    have hloop : parseParts H 0 (split '|' s) {} = .error msg := by
      rw [parseParts_error_iff]
      refine ⟨k, p, hk, hb, by rw [Nat.zero_add]; exact hp, ?_⟩
      intro j q hj hq hqb m
      rw [Nat.zero_add]
      exact hfirst j q hj hq hqb m
    rw [parseReqline_loop H s hv hlen, hloop]
  constructor
  · intro hpre
    obtain ⟨v, hvv⟩ := List.isPrefixOf_iff_prefix.mp hpre
    have ht : trim ("HTTP ".toList ++ v) = "HTTP ".toList ++ v := by
      rw [hvv]; exact trim_trim p
    have hb : trim p ≠ [] := by rw [← hvv]; simp
    have hnb : trim (trim v) ≠ [] := by
      rw [trim_trim]; exact value_not_blank "HTTP".toList v ht
    have hdis : parsePart H (trim p) k = parseHttpSection H (trim v) k := by
      rw [← hvv]; exact parsePart_http hH v k ht
    constructor
    · intro hk0
      have hp : parsePart H (trim p) k = .error HTTP_MUST_BE_FIRST := by
        rw [hdis]; unfold parseHttpSection; rw [if_pos hk0]
      exact ⟨hp, not_ok_of_part_error H s k p _ hk hb hp,
        full _ hb hp (two_le_of_getElem?_succ _ k p hk0 hk)⟩
    · intro hk0 h
      rw [hdis] at h
      rcases parseHttpSection_error H (trim v) _ k hnb h with ⟨_, h2⟩ | ⟨h1, _⟩
      · exact h2 hk0
      · exact absurd h1 (by decide)
  · intro hpre
    obtain ⟨v, hvv⟩ := List.isPrefixOf_iff_prefix.mp hpre
    have ht : trim ("URL ".toList ++ v) = "URL ".toList ++ v := by
      rw [hvv]; exact trim_trim p
    have hb : trim p ≠ [] := by rw [← hvv]; simp
    have hnb : trim (trim v) ≠ [] := by
      rw [trim_trim]; exact value_not_blank "URL".toList v ht
    have hdis : parsePart H (trim p) k = parseUrlSection (trim v) k := by
      rw [← hvv]; exact parsePart_url hH v k ht
    constructor
    · intro hk1
      have hp : parsePart H (trim p) k = .error URL_MUST_BE_SECOND := by
        rw [hdis]; unfold parseUrlSection; rw [if_pos hk1]
      exact ⟨hp, not_ok_of_part_error H s k p _ hk hb hp, fun hlen => full _ hb hp hlen⟩
    · intro hk1 h
      rw [hdis] at h
      rcases parseUrlSection_error (trim v) _ k hnb h with ⟨_, h2⟩ | ⟨h1, _⟩
      · exact h2 hk1
      · exact absurd h1 (by decide)

/-- The statements `| HTTP GET | URL https://api.example.com` and
`HTTP GET | | URL https://api.example.com` of C20: a blank part in front shifts the HTTP
part to index 1, respectively the URL part to index 2. -/
theorem C20_position_among_all_parts_witness :
    parseReqline refHost "| HTTP GET | URL https://api.example.com".toList =
      .error HTTP_MUST_BE_FIRST ∧
    parseReqline refHost "HTTP GET | | URL https://api.example.com".toList =
      .error URL_MUST_BE_SECOND :=
  ⟨((C20_position_among_all_parts refHost refHost_upperAscii
      "| HTTP GET | URL https://api.example.com".toList (by decide) 1 " HTTP GET ".toList
      rfl).1 (by decide)).1 (by decide) |>.2.2 (by
        intro j q hj hq hb
        have hj0 : j = 0 := by omega
        subst hj0
        have e : q = [] := (Option.some.inj hq).symm
        subst e
        exact absurd rfl hb),
   ((C20_position_among_all_parts refHost refHost_upperAscii
      "HTTP GET | | URL https://api.example.com".toList (by decide) 2
      " URL https://api.example.com".toList rfl).2 (by decide)).1 (by decide) |>.2.2
      (by decide) (by
        intro j q hj hq hb m hm
        have hj01 : j = 0 ∨ j = 1 := by omega
        rcases hj01 with rfl | rfl
        · have e : q = "HTTP GET ".toList := (Option.some.inj hq).symm
          subst e
          cases hm
        · have e : q = " ".toList := (Option.some.inj hq).symm
          subst e
          exact absurd rfl hb)⟩

/-- C21: duplicate optional sections are not rejected and the later one wins.  In an
accepted statement, for each of HEADERS, QUERY and BODY, the field of the descriptor is
exactly the JSON value of the last part that starts with that keyword: nothing of an
earlier part of the same keyword is kept. -/
theorem C21_last_section_wins (H : Host) (s : Str) (d : Descriptor) (sec : Section)
    (k : Nat) (p : Str) (h : parseReqline H s = .ok d)
    (hk : (split '|' s)[k]? = some p)
    (hpre : startsWith (trim p) (sec.keyword ++ " ".toList) = true)
    (hlast : ∀ j q, k < j → (split '|' s)[j]? = some q →
      startsWith (trim q) (sec.keyword ++ " ".toList) = false) :
    H.jsonParse (trim ((trim p).drop (sec.keyword.length + 1))) = some (d.field sec) := by
  obtain ⟨parsed, hloop, hfin⟩ := parseReqline_ok H s d h
  obtain ⟨v, hv, hp⟩ := parseParts_last_section H sec _ 0 {} parsed k p hloop hk hpre hlast
  have hinv := parsePart_json_inv H (trim p) _ sec v hp
  have hd : d.field sec = v := by
    rw [finish_field parsed d sec hfin, hv]
    have ht := truthy_of_typeOf_object v hinv.1 hinv.2.1
    simp [orEmpty, ht]
  rw [hd]
  have h3 := hinv.2.2
  cases sec
  · have := h3.2; rw [trim_trim] at this; exact this
  · have := h3.2; rw [trim_trim] at this; exact this
  · have := h3.2; rw [trim_trim] at this; exact this

/-- The statement of C21 with two QUERY parts: it is accepted and the query is the value
of the second one. -/
theorem C21_last_section_wins_witness :
    parseReqline refHost
        "HTTP GET | URL https://api.example.com | QUERY \x7b\"a\":1\x7d | QUERY \x7b\"b\":2\x7d".toList =
      .ok { method := "GET".toList, url := "https://api.example.com".toList,
            headers := Json.obj [], query := Json.obj [("b".toList, Json.num 2 0)],
            body := Json.obj [] } ∧
    refHost.jsonParse (trim ((trim " QUERY \x7b\"b\":2\x7d".toList).drop 6)) =
      some (Json.obj [("b".toList, Json.num 2 0)]) :=
  ⟨rfl,
   C21_last_section_wins refHost
    "HTTP GET | URL https://api.example.com | QUERY \x7b\"a\":1\x7d | QUERY \x7b\"b\":2\x7d".toList
    { method := "GET".toList, url := "https://api.example.com".toList,
      headers := Json.obj [], query := Json.obj [("b".toList, Json.num 2 0)],
      body := Json.obj [] }
    .query 3 " QUERY \x7b\"b\":2\x7d".toList rfl rfl rfl
    (by
      intro j q hj hq
      have : (split '|'
        "HTTP GET | URL https://api.example.com | QUERY \x7b\"a\":1\x7d | QUERY \x7b\"b\":2\x7d".toList).length
          = 4 := by decide
      have hlt := (List.getElem?_eq_some.mp hq).1
      omega)⟩

/-- C22: `parseReqline` never yields "Missing space after keyword", "Missing HTTP method",
"Missing URL value", a "Missing value for .." text, an "Unknown keyword: .." text or the
catch-all parsing error, and neither does the service; the reason is that in a trimmed
part that starts with a keyword and a space the trimmed value is never empty. -/
theorem C22_unreachable_error_branches (H : Host) (codes : ErrorCodes)
    (hcode : codes.VALIDATION_ERROR ≠ []) (s : Str) :
    (∀ msg, parseReqline H s = .error msg →
      msg ≠ MISSING_SPACE_AFTER_KEYWORD ∧ msg ≠ MISSING_HTTP_METHOD ∧
      msg ≠ MISSING_URL_VALUE ∧ (∀ kw, msg ≠ "Missing value for ".toList ++ kw) ∧
      (∀ kw, msg ≠ "Unknown keyword: ".toList ++ kw) ∧
      (∀ x, msg ≠ "Parsing error: ".toList ++ x)) ∧
    (∀ e, Service.parseReqline H codes s = .error e →
      e.message ≠ ReqlineMessages.MISSING_SPACE_AFTER_KEYWORD ∧
      e.message ≠ ReqlineMessages.MISSING_HTTP_METHOD ∧
      e.message ≠ ReqlineMessages.MISSING_URL_VALUE ∧
      (∀ kw, e.message ≠ "Missing value for ".toList ++ kw) ∧
      (∀ kw, e.message ≠ "Unknown keyword: ".toList ++ kw) ∧
      e.message ≠ ReqlineMessages.PARSING_ERROR) ∧
    (∀ kw v : Str, trim (kw ++ ' ' :: v) = kw ++ ' ' :: v → trim v ≠ []) := by
  have key : ∀ msg, parseReqline H s = .error msg →
      msg ≠ MISSING_SPACE_AFTER_KEYWORD ∧ msg ≠ MISSING_HTTP_METHOD ∧
      msg ≠ MISSING_URL_VALUE ∧ "Missing value for ".toList.isPrefixOf msg = false ∧
      "Unknown keyword: ".toList.isPrefixOf msg = false ∧
      "Parsing error".toList.isPrefixOf msg = false := by
    intro msg h
    rcases List.mem_append.mp (parseReqline_error_mem H s msg h) with h1 | h1
    · exact statementErrorMessages_reachable msg h1
    · exact partErrorMessages_reachable H msg h1
  refine ⟨?_, ?_, fun kw v ht => value_not_blank kw v ht⟩
  · intro msg h
    obtain ⟨h1, h2, h3, h4, h5, h6⟩ := key msg h
    refine ⟨h1, h2, h3, ne_of_not_isPrefixOf _ _ h4, ne_of_not_isPrefixOf _ _ h5, ?_⟩
    intro x e
    have := ne_of_not_isPrefixOf _ _ h6 (": ".toList ++ x)
    apply this
    rw [e]
    simp
  · intro e h
    rw [service_parseReqline_eq H codes hcode] at h
    cases hp : parseReqline H s with
    | ok d => rw [hp] at h; cases h
    | error msg =>
      rw [hp] at h
      have e2 : asThrown codes msg = e := Except.error.inj h
      have e3 : e.message = msg := by rw [← e2]; rfl
      rw [e3]
      obtain ⟨h1, h2, h3, h4, h5, h6⟩ := key msg hp
      refine ⟨h1, h2, h3, ne_of_not_isPrefixOf _ _ h4, ne_of_not_isPrefixOf _ _ h5, ?_⟩
      have := ne_of_not_isPrefixOf _ _ h6 " occurred".toList
      exact this

/-- The statements `HTTP  | URL https://api.example.com` (no method after the keyword) and
`HTTP GET | URL` (no url after the keyword): the errors are "Keywords must be uppercase",
not one of the missing-value messages. -/
theorem C22_unreachable_error_branches_witness :
    parseReqline refHost "HTTP  | URL https://api.example.com".toList =
      .error KEYWORDS_MUST_BE_UPPERCASE ∧
    KEYWORDS_MUST_BE_UPPERCASE ≠ MISSING_HTTP_METHOD ∧
    parseReqline refHost "HTTP GET | URL".toList = .error KEYWORDS_MUST_BE_UPPERCASE ∧
    KEYWORDS_MUST_BE_UPPERCASE ≠ MISSING_URL_VALUE :=
  ⟨rfl,
   ((C22_unreachable_error_branches refHost refCodes (by decide)
      "HTTP  | URL https://api.example.com".toList).1 KEYWORDS_MUST_BE_UPPERCASE rfl).2.1,
   rfl,
   ((C22_unreachable_error_branches refHost refCodes (by decide)
      "HTTP GET | URL".toList).1 KEYWORDS_MUST_BE_UPPERCASE rfl).2.2.1⟩

/-- C23: an accepted statement has at least two parts; its first part, trimmed, starts with
`HTTP ` and its second one with `URL `; no other part starts with `HTTP ` or `URL ` once
trimmed.  So a statement that begins with `|`, or that repeats the HTTP or the URL
keyword, is never accepted. -/
theorem C23_accepted_statement_shape (H : Host) (s : Str) (d : Descriptor)
    (h : parseReqline H s = .ok d) :
    2 ≤ (split '|' s).length ∧
    (∃ p0, (split '|' s)[0]? = some p0 ∧ startsWith (trim p0) "HTTP ".toList = true) ∧
    (∃ p1, (split '|' s)[1]? = some p1 ∧ startsWith (trim p1) "URL ".toList = true) ∧
    (∀ k p, (split '|' s)[k]? = some p → startsWith (trim p) "HTTP ".toList = true → k = 0) ∧
    (∀ k p, (split '|' s)[k]? = some p → startsWith (trim p) "URL ".toList = true → k = 1) ∧
    s.head? ≠ some '|' := by
  obtain ⟨parsed, hloop, hfin⟩ := parseReqline_ok H s d h
  obtain ⟨hm, hu, _⟩ := finish_ok parsed d hfin
  obtain ⟨hsm, hsu⟩ := parseParts_sources H _ 0 {} parsed hloop
  have hfirst : ∃ p0, (split '|' s)[0]? = some p0 ∧
      startsWith (trim p0) "HTTP ".toList = true := by
    rcases hsm d.method hm with h0 | ⟨k, p, hk, hp⟩
    · cases h0
    · obtain ⟨h1, h2⟩ := parsePart_method_inv H (trim p) d.method (0 + k) hp
      have hk0 : k = 0 := by omega
      subst hk0
      rw [trim_trim] at h1
      exact ⟨p, hk, h1⟩
  have hsecond : ∃ p1, (split '|' s)[1]? = some p1 ∧
      startsWith (trim p1) "URL ".toList = true := by
    rcases hsu d.url hu with h0 | ⟨k, p, hk, hp⟩
    · cases h0
    · obtain ⟨h1, h2⟩ := parsePart_url_source H (trim p) d.url (0 + k) hp
      have hk1 : k = 1 := by omega
      subst hk1
      rw [trim_trim] at h1
      exact ⟨p, hk, h1⟩
  have nonblank : ∀ (p kw : Str), kw ≠ [] → startsWith (trim p) kw = true → trim p ≠ [] := by
    intro p kw hkw hpre e
    rw [e] at hpre
    cases kw with
    | nil => exact hkw rfl
    | cons c cs => simp [startsWith, List.isPrefixOf] at hpre
  refine ⟨parseReqline_ok_length H s d h, hfirst, hsecond, ?_, ?_, ?_⟩
  · intro k p hk hpre
    have hb := nonblank p _ (by decide) hpre
    have hok := parseParts_ok_all H _ 0 {} parsed hloop k p hk hb
    have := (accepted_http_part H (trim p) (0 + k) (by rw [trim_trim]; exact hpre) hok).1
    omega
  · intro k p hk hpre
    have hb := nonblank p _ (by decide) hpre
    have hok := parseParts_ok_all H _ 0 {} parsed hloop k p hk hb
    have := (accepted_url_part H (trim p) (0 + k) (by rw [trim_trim]; exact hpre) hok).1
    omega
  · intro hhead
    obtain ⟨p0, hp0, hpre⟩ := hfirst
    cases s with
    | nil => cases hhead
    | cons c cs =>
      have hc : c = '|' := Option.some.inj hhead
      subst hc
      simp [split] at hp0
      subst hp0
      simp [startsWith, List.isPrefixOf, trim, trimStart, trimEnd] at hpre

/-- The statement `HTTP GET | URL https://api.example.com | QUERY {"a":1}` is accepted and
has the shape C23 describes. -/
theorem C23_accepted_statement_shape_witness :
    parseReqline refHost
        "HTTP GET | URL https://api.example.com | QUERY \x7b\"a\":1\x7d".toList =
      .ok { method := "GET".toList, url := "https://api.example.com".toList,
            headers := Json.obj [], query := Json.obj [("a".toList, Json.num 1 0)],
            body := Json.obj [] } ∧
    2 ≤ (split '|'
      "HTTP GET | URL https://api.example.com | QUERY \x7b\"a\":1\x7d".toList).length :=
  ⟨rfl,
   (C23_accepted_statement_shape refHost
      "HTTP GET | URL https://api.example.com | QUERY \x7b\"a\":1\x7d".toList
      { method := "GET".toList, url := "https://api.example.com".toList,
        headers := Json.obj [], query := Json.obj [("a".toList, Json.num 1 0)],
        body := Json.obj [] } rfl).1⟩

end Reqline
